import Mathlib

/-!
# PRSice `Region` (src/src/region.cpp): a shallow embedding and its properties

The class `Region` keeps a catalogue of named region sets (index 0 is "Base"),
loads them from BED files, a GTF annotation and an MSigDB gene-set file, and then
classifies a stream of SNPs with `Region::check`, which keeps one cursor and one
counter per set.

Conventions of the embedding.
* `std::vector<T>` is `List T`; `v[i]` is `v.getD i d` and `v[i] = x` is `v.set i x`
  (indexing past the end is undefined in C++; the theorems say which lengths they need).
* `std::unordered_map<std::string, int> m_chr_order` is a lookup `String → Option Int`.
* `int` is `Int`, `size_t` is `Nat`.  Where the source converts between the two the
  wrap-around is written out (`int_wrap`, `size_t_of_int`, 32-bit `int`, 64-bit `size_t`).
  The SNP counters are `int`: their increment `++` is `int_incr`, which wraps from
  2147483647 to -2147483648.
* Messages written to `stderr` are not part of the state and are left out.
-/

/-! ## Data model -/

/-- Modelled from the spec: the struct `region_bound` (declared in `region.hpp`), the
`GenomicInterval` of the data model, with the field types `region.cpp` reads them at:
`int chr; size_t start; size_t end;` (`end` is a Lean keyword, hence `end_`). -/
structure region_bound where
  chr : Int
  start : Nat
  end_ : Nat
deriving DecidableEq, Repr, Inhabited

/-- The members of class `Region` that `region.cpp` reads and writes, with the types it
uses them at. -/
structure Region where
  m_chr_order : String → Option Int
  m_gtf_feature : List String
  m_duplicated_names : List String
  m_region_name : List String
  m_region_list : List (List region_bound)
  m_snp_check_index : List Nat
  m_region_snp_count : List Int
  m_out_prefix : String

/-- Modelled from the spec: the macro `ONELU` (declared outside `region.cpp`), the unsigned
long constant 1 whose shifts build the bit-packed membership vector. -/
def ONELU : Nat := 1

/-- Wrap-around of a 32-bit `int`. -/
def int_wrap (z : Int) : Int := (z + 2 ^ 31) % 2 ^ 32 - 2 ^ 31

/-- The increment `++` of an `int` counter (`m_region_snp_count[i]++`): one more, wrapping
from 2147483647 to -2147483648. -/
def int_incr (c : Int) : Int := int_wrap (c + 1)

/-! ## `Region::check` -/

/-- The `while (m_snp_check_index[i_region] < current_region_size)` loop of `Region::check`
for one set `i_region`.  Every iteration either leaves the loop (`break`) or advances the
cursor, so `current_region_size - cursor` iterations always suffice; the first argument
counts the iterations still allowed.  `BITCT` (a macro declared outside `region.cpp`, the
number of bits of a flag word) is a parameter. -/
def Region.check_while (BITCT : Nat) (chr_index : Int) (loc : Nat) (i_region : Nat) :
    Nat → Region × List Nat → Region × List Nat
  | 0, st => st
  | fuel + 1, (R, flag) =>
    let current_region_size := (R.m_region_list.getD i_region []).length
    let idx := R.m_snp_check_index.getD i_region 0
    if idx < current_region_size then
      let current_bound := (R.m_region_list.getD i_region []).getD idx default
      let region_chr := current_bound.chr
      let region_start := current_bound.start
      let region_end := current_bound.end_
      if chr_index > region_chr then
        Region.check_while BITCT chr_index loc i_region fuel
          ({ R with m_snp_check_index := R.m_snp_check_index.set i_region (idx + 1) }, flag)
      else if chr_index = region_chr then
        if region_start ≤ loc ∧ region_end ≥ loc then
          ({ R with m_region_snp_count :=
                    R.m_region_snp_count.set i_region
                      (int_incr (R.m_region_snp_count.getD i_region 0)) },
           flag.set (i_region / BITCT)
             (flag.getD (i_region / BITCT) 0 ||| (ONELU <<< (i_region % BITCT))))
        else if region_start > loc then (R, flag)
        else if region_end < loc then
          Region.check_while BITCT chr_index loc i_region fuel
            ({ R with m_snp_check_index := R.m_snp_check_index.set i_region (idx + 1) }, flag)
        else Region.check_while BITCT chr_index loc i_region fuel (R, flag)
      else (R, flag)
    else (R, flag)

/-- The loop `for (i_region = 1; i_region < m_region_name.size(); ++i_region)` of
`Region::check`: `n` iterations starting at `i_region`. -/
def Region.check_for (BITCT : Nat) (chr_index : Int) (loc : Nat) :
    Nat → Nat → Region × List Nat → Region × List Nat
  | 0, _, st => st
  | n + 1, i_region, st =>
    let current_region_size := (st.1.m_region_list.getD i_region []).length
    let fuel := current_region_size - st.1.m_snp_check_index.getD i_region 0
    Region.check_for BITCT chr_index loc n (i_region + 1)
      (Region.check_while BITCT chr_index loc i_region fuel st)

/-- `Region::check(chr, loc, flag)`: returns the updated object and the updated flag. -/
def Region.check (BITCT : Nat) (R : Region) (chr : String) (loc : Nat) (flag : List Nat) :
    Region × List Nat :=
  let flag := flag.set 0 (flag.getD 0 0 ||| ONELU)
  let R := { R with m_region_snp_count :=
                      R.m_region_snp_count.set 0 (int_incr (R.m_region_snp_count.getD 0 0)) }
  match R.m_chr_order chr with
  | none => (R, flag)
  | some chr_index =>
    Region.check_for BITCT chr_index loc (R.m_region_name.length - 1) 1 (R, flag)

/-- One call of `Region::check` as the caller makes it: label, position and the flag
vector handed in. -/
structure snp_query where
  chr : String
  loc : Nat
  flag : List Nat

/-- The object after a sequence of `Region::check` calls, in order. -/
def Region.check_seq (BITCT : Nat) (R : Region) : List snp_query → Region
  | [] => R
  | q :: qs => Region.check_seq BITCT (Region.check BITCT R q.chr q.loc q.flag).1 qs

/-- Bit `i` of a flag vector: bit `i % BITCT` of word `i / BITCT`. -/
def flag_bit (BITCT : Nat) (flag : List Nat) (i : Nat) : Bool :=
  (flag.getD (i / BITCT) 0).testBit (i % BITCT)

/-- The query `(r, p)` lies in the interval `b`: same rank and `start ≤ p ≤ end`. -/
def region_bound.covers (b : region_bound) (r : Int) (p : Nat) : Prop :=
  b.chr = r ∧ b.start ≤ p ∧ p ≤ b.end_

instance (b : region_bound) (r : Int) (p : Nat) : Decidable (b.covers r p) := by
  unfold region_bound.covers; infer_instance

/-- Non-decreasing order on `(chr, start)`. -/
def region_bound.le_start (a b : region_bound) : Prop :=
  a.chr < b.chr ∨ (a.chr = b.chr ∧ a.start ≤ b.start)

/-- Non-decreasing order of two consecutive queries on `(rank, position)`. -/
def snp_query.le (ord : String → Option Int) (a b : snp_query) : Prop :=
  ∃ ra rb, ord a.chr = some ra ∧ ord b.chr = some rb ∧ (ra < rb ∨ (ra = rb ∧ a.loc ≤ b.loc))

/-! ### The sweep of one set, as a function of the cursor alone -/

/-- What the `while` loop computes from the interval list and the cursor: the final
cursor and whether the query matched. -/
def sweep (chr_index : Int) (loc : Nat) (region : List region_bound) : Nat → Nat → Nat × Bool
  | 0, idx => (idx, false)
  | fuel + 1, idx =>
    if idx < region.length then
      let b := region.getD idx default
      if chr_index > b.chr then sweep chr_index loc region fuel (idx + 1)
      else if chr_index = b.chr then
        if b.start ≤ loc ∧ b.end_ ≥ loc then (idx, true)
        else if b.start > loc then (idx, false)
        else sweep chr_index loc region fuel (idx + 1)
      else (idx, false)
    else (idx, false)

/-- The effect of the `while` loop on the object and the flag, given the sweep result. -/
def Region.apply_sweep (BITCT : Nat) (i_region : Nat) (res : Nat × Bool)
    (st : Region × List Nat) : Region × List Nat :=
  ({ st.1 with
      m_snp_check_index := st.1.m_snp_check_index.set i_region res.1
      m_region_snp_count :=
        if res.2 then
          st.1.m_region_snp_count.set i_region
            (int_incr (st.1.m_region_snp_count.getD i_region 0))
        else st.1.m_region_snp_count },
   if res.2 then
     st.2.set (i_region / BITCT) (st.2.getD (i_region / BITCT) 0 ||| (ONELU <<< (i_region % BITCT)))
   else st.2)

/-! ## Auxiliary predicates of the proofs about `Region::check` -/

/-- What a call leaves alone: the catalogue members and the sizes of the arrays. -/
def Region.same_catalog (R R' : Region) : Prop :=
  R'.m_chr_order = R.m_chr_order ∧ R'.m_gtf_feature = R.m_gtf_feature ∧
  R'.m_duplicated_names = R.m_duplicated_names ∧ R'.m_region_name = R.m_region_name ∧
  R'.m_region_list = R.m_region_list ∧
  R'.m_snp_check_index.length = R.m_snp_check_index.length ∧
  R'.m_region_snp_count.length = R.m_region_snp_count.length ∧
  R'.m_out_prefix = R.m_out_prefix

/-- Every interval before position `c` is behind the query `(r, p)`: on an earlier
chromosome, or on the same chromosome and ending before `p`. -/
def dead_before (region : List region_bound) (c : Nat) (r : Int) (p : Nat) : Prop :=
  ∀ j, j < c → j < region.length →
    (region.getD j default).chr < r ∨
      ((region.getD j default).chr = r ∧ (region.getD j default).end_ < p)

/-! ## A sample catalogue, used to instantiate the theorems -/

/-- A chromosome-order table with two labels. -/
def sample_chr_order : String → Option Int :=
  fun s => if s = "chr1" then some 1 else if s = "chr2" then some 2 else none

/-- A frozen catalogue: Base and one set with the intervals `[5, 10]` and `[20, 30]`. -/
def sample_region : Region :=
  { m_chr_order := sample_chr_order
    m_gtf_feature := ["gene"]
    m_duplicated_names := []
    m_region_name := ["Base", "a.bed"]
    m_region_list := [[⟨0, 0, 0⟩], [⟨1, 5, 10⟩, ⟨1, 20, 30⟩]]
    m_snp_check_index := [0, 0]
    m_region_snp_count := [0, 0]
    m_out_prefix := "" }

/-- A frozen catalogue: Base and one set with the single interval `[5, 10]`. -/
def sample_region_single : Region :=
  { sample_region with m_region_list := [[⟨0, 0, 0⟩], [⟨1, 5, 10⟩]] }

/-! ## Loading: helpers that `region.cpp` calls but does not define -/

/-- The functions of `misc.hpp` and of the standard library that the loaders call.
They are parameters of the embedding.
* `trim` is `misc::trim`, `split seq separators` is `misc::split`, `convert` is
  `misc::convert<int>` (`none` when it throws `std::runtime_error`);
* `sort` is `std::sort` with a comparator;
* `open_file path` gives the lines `std::getline` reads from an `std::ifstream`, or `none`
  when the file cannot be opened; `open_gz` is the same for `igzstream`. -/
structure Env where
  trim : String → String
  split : String → String → List String
  convert : String → Option Int
  sort : (region_bound → region_bound → Bool) → List region_bound → List region_bound
  open_file : String → Option (List String)
  open_gz : String → Option (List String)

/-- Modelled from the spec: the default separators of `misc::split` (declared in
`misc.hpp`, not part of `region.cpp`); columns are whitespace/tab delimited. -/
def default_separators : String := "\t "

/-- Conversion of an `int` to a 64-bit `size_t`. -/
def size_t_of_int (z : Int) : Nat := (z % 2 ^ 64).toNat

/-- The comparator handed to `std::sort` in `process_bed` and `process_msigdb`. -/
def sort_compare (t1 t2 : region_bound) : Bool :=
  if t1.chr = t2.chr then
    if t1.start = t2.start then decide (t1.end_ < t2.end_)
    else decide (t1.start < t2.end_)
  else decide (t1.chr < t2.chr)

/-- `std::unordered_map<std::string, V>::find`, on an association list. -/
def umap_find {V : Type} (k : String) : List (String × V) → Option V
  | [] => none
  | (k', v) :: m => if k' = k then some v else umap_find k m

/-- The assignment `m[k] = v` of a `std::unordered_map<std::string, V>`: overwrite the entry of
`k`, or add one. -/
def umap_set {V : Type} (k : String) (v : V) : List (String × V) → List (String × V)
  | [] => [(k, v)]
  | (k', v') :: m => if k' = k then (k', v) :: m else (k', v') :: umap_set k v m

/-- `operator<` of `std::string` on the characters: lexicographic comparison. -/
def chars_lt : List Char → List Char → Bool
  | _, [] => false
  | [], _ :: _ => true
  | a :: s, b :: t =>
    if a.toNat < b.toNat then true
    else if a = b then chars_lt s t
    else false

/-- `std::set<std::string>::insert` on a sorted list without repetition. -/
def set_insert (x : String) : List String → List String
  | [] => [x]
  | y :: ys =>
    if x = y then y :: ys
    else if chars_lt x.data y.data then x :: y :: ys
    else y :: set_insert x ys

/-- `std::string::find(sub) != npos` on the characters: does `sub` start at the head? -/
def starts_with : List Char → List Char → Bool
  | [], _ => true
  | _ :: _, [] => false
  | a :: sub, b :: s => a = b && starts_with sub s

/-- `std::string::find(sub) != std::string::npos`. -/
def str_find (sub : List Char) : List Char → Bool
  | [] => starts_with sub []
  | c :: s => starts_with sub (c :: s) || str_find sub s

/-- `s.erase(std::remove(s.begin(), s.end(), '\"'), s.end())`. -/
def remove_quotes (s : String) : String := String.mk (s.data.filter (fun c => c ≠ '"'))

/-- `gtf.substr(gtf.find_last_of(".") + 1)`: what follows the last dot, the whole string when
there is no dot (`npos + 1` is 0). -/
def after_last_dot (s : String) : String :=
  String.mk (s.data.reverse.takeWhile (fun c => c ≠ '.')).reverse

/-! ## `Region::Region` and `Region::process_bed` -/

/-- The constructor `Region::Region(feature, chr_order)`: the Base set holds one
value-initialised `region_bound`. -/
def Region.create (feature : List String) (chr_order : String → Option Int) : Region :=
  { m_chr_order := chr_order
    m_gtf_feature := feature
    m_duplicated_names := ["Base"]
    m_region_name := ["Base"]
    m_region_list := [[⟨0, 0, 0⟩]]
    m_snp_check_index := []
    m_region_snp_count := []
    m_out_prefix := "" }

/-- The `while (std::getline(bed_file, line))` loop of `process_bed`: returns the `error`
flag and `current_region`. -/
def Region.process_bed_lines (E : Env) (R : Region) :
    List String → List region_bound → Bool × List region_bound
  | [], current_region => (false, current_region)
  | line :: rest, current_region =>
    let line := E.trim line
    if line = "" then Region.process_bed_lines E R rest current_region
    else
      let token := E.split line default_separators
      if token.length < 3 then (true, current_region)
      else
        match E.convert (token.getD 1 "") with
        | none => (true, current_region)
        | some temp =>
          if temp ≥ 0 then
            let start := size_t_of_int (int_wrap (temp + 1))
            match E.convert (token.getD 2 "") with
            | none => (true, current_region)
            | some temp2 =>
              if temp2 ≥ 0 then
                let end_ := size_t_of_int (int_wrap (temp2 + 1))
                match R.m_chr_order (token.getD 0 "") with
                | some chr =>
                  Region.process_bed_lines E R rest (current_region ++ [⟨chr, start, end_⟩])
                | none => Region.process_bed_lines E R rest current_region
              else (true, current_region)
          else (true, current_region)

/-- One iteration of `for (auto& b : bed)` in `process_bed`. -/
def Region.process_bed_file (E : Env) (R : Region) (b : String) : Region :=
  match E.open_file b with
  | none => R
  | some lines =>
    if b ∈ R.m_duplicated_names then R
    else
      let res := Region.process_bed_lines E R lines []
      if !res.1 then
        { R with
          m_region_list := R.m_region_list ++ [E.sort sort_compare res.2]
          m_region_name := R.m_region_name ++ [b]
          m_duplicated_names := R.m_duplicated_names.insert b }
      else R

/-- `Region::process_bed(bed)`. -/
def Region.process_bed (E : Env) (R : Region) : List String → Region
  | [] => R
  | b :: bed => Region.process_bed E (Region.process_bed_file E R b) bed

/-! ## `Region::process_gtf` -/

/-- Modelled from the spec: the column indices of `enum class GTF` (declared in
`region.hpp`): chromosome, source, feature-type, start, end, score, strand, frame,
attributes. -/
def GTF_CHR : Nat := 0

/-- Modelled from the spec: index of the feature-type column. -/
def GTF_FEATURE : Nat := 2

/-- Modelled from the spec: index of the start column. -/
def GTF_START : Nat := 3

/-- Modelled from the spec: index of the end column. -/
def GTF_END : Nat := 4

/-- Modelled from the spec: index of the attribute column. -/
def GTF_ATTRIBUTE : Nat := 8

/-- Modelled from the spec: `Region::in_feature` (defined in `region.hpp`): the feature-type
column must be one of the caller-configured accepted feature tags. -/
def Region.in_feature (R : Region) (feature : String) : Bool :=
  decide (feature ∈ R.m_gtf_feature)

/-- The loop `for (auto& info : attribute)` of `process_gtf`, on the pair `(name, id)`. -/
def gtf_attributes (E : Env) : List String → String × String → String × String
  | [], acc => acc
  | info :: rest, (name, id) =>
    if str_find "gene_id".data info.data then
      let extract := E.split info default_separators
      if extract.length > 1 then
        gtf_attributes E rest (name, remove_quotes (extract.getD 1 ""))
      else gtf_attributes E rest (name, id)
    else if str_find "gene_name".data info.data then
      let extract := E.split info default_separators
      if extract.length > 1 then
        gtf_attributes E rest (remove_quotes (extract.getD 1 ""), id)
      else gtf_attributes E rest (name, id)
    else gtf_attributes E rest (name, id)

/-- What `process_gtf` reads from an accepted line before it touches its maps. -/
structure gtf_record where
  chr : Int
  start : Nat
  end_ : Nat
  name : String
  id : String
deriving DecidableEq, Repr

/-- The outcome of reading one line in `process_gtf`: skipped (blank or `#`), not accepted
(feature or chromosome; `exclude_feature++`), a coordinate that cannot be converted or is
negative (the load is given up), or an accepted record. -/
inductive gtf_line where
  | skipped
  | excluded
  | bad_coordinate
  | accepted (r : gtf_record)
deriving DecidableEq, Repr

/-- The first part of the body of the `while` loop of `process_gtf`: from the line to the
local variables `chr`, `start`, `end`, `name`, `id`. -/
def Region.gtf_read_line (E : Env) (R : Region) (line : String) : gtf_line :=
  let line := E.trim line
  if line = "" ∨ line.data.head? = some '#' then gtf_line.skipped
  else
    let token := E.split line "\t"
    let chr := token.getD GTF_CHR ""
    match R.in_feature (token.getD GTF_FEATURE ""), R.m_chr_order chr with
    | true, some chr_index =>
      match E.convert (token.getD GTF_START "") with
      | none => gtf_line.bad_coordinate
      | some temp =>
        if temp < 0 then gtf_line.bad_coordinate
        else
          let start := size_t_of_int temp
          match E.convert (token.getD GTF_END "") with
          | none => gtf_line.bad_coordinate
          | some temp2 =>
            if temp2 < 0 then gtf_line.bad_coordinate
            else
              let end_ := size_t_of_int temp2
              let attribute_ := E.split (token.getD GTF_ATTRIBUTE "") ";"
              let name_id := gtf_attributes E attribute_ ("", "")
              gtf_line.accepted ⟨chr_index, start, end_, name_id.1, name_id.2⟩
    | _, _ => gtf_line.excluded

/-- `id_to_name[name].insert(id)`. -/
def alias_insert (name id : String) (id_to_name : List (String × List String)) :
    List (String × List String) :=
  umap_set name (set_insert id ((umap_find name id_to_name).getD [])) id_to_name

/-- The `while` loop of `process_gtf` on the lines of the file, with the maps
`result_boundary` and `id_to_name`.  `none` is the early `return` after
`result_boundary.clear(); id_to_name.clear();`. -/
def Region.process_gtf_lines (E : Env) (R : Region) :
    List String → List (String × region_bound) → List (String × List String) →
      Option (List (String × region_bound) × List (String × List String))
  | [], result_boundary, id_to_name => some (result_boundary, id_to_name)
  | line :: rest, result_boundary, id_to_name =>
    match Region.gtf_read_line E R line with
    | gtf_line.skipped => Region.process_gtf_lines E R rest result_boundary id_to_name
    | gtf_line.excluded => Region.process_gtf_lines E R rest result_boundary id_to_name
    | gtf_line.bad_coordinate => none
    | gtf_line.accepted r =>
      let id_to_name := if r.id ≠ "" then alias_insert r.name r.id id_to_name else id_to_name
      match umap_find r.id result_boundary with
      | some b =>
        if b.chr ≠ r.chr then none
        else
          let b1 : region_bound := if b.start > r.start then { b with start := r.start } else b
          let b2 : region_bound := if b1.end_ < r.end_ then { b1 with end_ := r.end_ } else b1
          Region.process_gtf_lines E R rest (umap_set r.id b2 result_boundary) id_to_name
      | none =>
        Region.process_gtf_lines E R rest
          (umap_set r.id ⟨r.chr, r.start, r.end_⟩ result_boundary) id_to_name

/-- `Region::process_gtf(gtf, id_to_name, out_prefix)`: the returned boundary map together
with `id_to_name` afterwards, or the message of the `std::runtime_error` it throws. -/
def Region.process_gtf (E : Env) (R : Region) (gtf : String)
    (id_to_name : List (String × List String)) :
    Except String (List (String × region_bound) × List (String × List String)) :=
  if gtf = "" then Except.ok ([], id_to_name)
  else
    let gz_input := decide (after_last_dot gtf = "gz")
    match (if gz_input then E.open_gz gtf else E.open_file gtf) with
    | none =>
      Except.error (if gz_input then "Error: Cannot open GTF (gz) to read!\n"
        else "Cannot open gtf file: " ++ gtf)
    | some lines =>
      match Region.process_gtf_lines E R lines [] id_to_name with
      | none => Except.ok ([], [])
      | some res => Except.ok res

/-! ## `Region::process_msigdb` and `Region::run` -/

/-- The loop `for (auto&& translate : name)` of `process_msigdb`: the boundary of every
aliased identifier that is a key of `gtf_info`. -/
def msigdb_translate (gtf_info : List (String × region_bound)) :
    List String → List region_bound → List region_bound
  | [], current_region => current_region
  | translate :: rest, current_region =>
    match umap_find translate gtf_info with
    | some b => msigdb_translate gtf_info rest (current_region ++ [b])
    | none => msigdb_translate gtf_info rest current_region

/-- The loop `for (auto& gene : token)` of `process_msigdb`. -/
def msigdb_genes (gtf_info : List (String × region_bound))
    (id_to_name : List (String × List String)) :
    List String → List region_bound → List region_bound
  | [], current_region => current_region
  | gene :: rest, current_region =>
    match umap_find gene gtf_info with
    | none =>
      match umap_find gene id_to_name with
      | some name =>
        msigdb_genes gtf_info id_to_name rest (msigdb_translate gtf_info name current_region)
      | none => msigdb_genes gtf_info id_to_name rest current_region
    | some b => msigdb_genes gtf_info id_to_name rest (current_region ++ [b])

/-- The `while (std::getline(input, line))` loop of `process_msigdb`. -/
def Region.process_msigdb_lines (E : Env) (gtf_info : List (String × region_bound))
    (id_to_name : List (String × List String)) : List String → Region → Region
  | [], R => R
  | line :: rest, R =>
    let line := E.trim line
    if line = "" then Region.process_msigdb_lines E gtf_info id_to_name rest R
    else
      let token := E.split line default_separators
      if token.length < 2 then Region.process_msigdb_lines E gtf_info id_to_name rest R
      else if token.getD 0 "" ∉ R.m_duplicated_names then
        let name := token.getD 0 ""
        let current_region := msigdb_genes gtf_info id_to_name token []
        Region.process_msigdb_lines E gtf_info id_to_name rest
          { R with
            m_region_list := R.m_region_list ++ [E.sort sort_compare current_region]
            m_region_name := R.m_region_name ++ [name]
            m_duplicated_names := R.m_duplicated_names.insert name }
      else Region.process_msigdb_lines E gtf_info id_to_name rest R

/-- `Region::process_msigdb(msigdb, gtf_info, id_to_name)`. -/
def Region.process_msigdb (E : Env) (R : Region) (msigdb : String)
    (gtf_info : List (String × region_bound)) (id_to_name : List (String × List String)) :
    Region :=
  if msigdb = "" ∨ gtf_info.length = 0 then R
  else
    match E.open_file msigdb with
    | none => R
    | some lines => Region.process_msigdb_lines E gtf_info id_to_name lines R

/-- The `if (!gtf.empty())` block of `Region::run`: read the GTF file (an exception gives
the empty map) and, when the map is not empty, the gene-set file. -/
def Region.run_gtf (E : Env) (R : Region) (gtf msigdb : String) : Region :=
  if gtf ≠ "" then
    let res : List (String × region_bound) × List (String × List String) :=
      match Region.process_gtf E R gtf [] with
      | Except.ok res => res
      | Except.error _ => ([], [])
    if res.1.length ≠ 0 then Region.process_msigdb E R msigdb res.1 res.2 else R
  else R

/-- `Region::run(gtf, msigdb, bed, out)`. -/
def Region.run (E : Env) (R : Region) (gtf msigdb : String) (bed : List String)
    (out : String) : Region :=
  let R1 := Region.process_bed E R bed
  let R2 := Region.run_gtf E { R1 with m_out_prefix := out } gtf msigdb
  { R2 with
    m_snp_check_index := List.replicate R2.m_region_name.length 0
    m_region_snp_count := List.replicate R2.m_region_name.length 0
    m_duplicated_names := [] }

/-! ## A sample environment, used to instantiate the theorems on concrete files -/

/-- Split the characters at any of the separators, dropping empty pieces. -/
def sample_split_chars (seps : List Char) : List Char → List Char → List (List Char)
  | [], cur => if cur = [] then [] else [cur.reverse]
  | c :: cs, cur =>
    if c ∈ seps then
      (if cur = [] then sample_split_chars seps cs []
       else cur.reverse :: sample_split_chars seps cs [])
    else sample_split_chars seps cs (c :: cur)

/-- A `split` for the sample environment. -/
def sample_split (seq separators : String) : List String :=
  (sample_split_chars separators.data seq.data []).map String.mk

/-- A `trim` for the sample environment: drop blanks and tabs at both ends. -/
def sample_trim (s : String) : String :=
  String.mk (((s.data.dropWhile (fun c => c = ' ' ∨ c = '\t')).reverse.dropWhile
    (fun c => c = ' ' ∨ c = '\t')).reverse)

/-- The value of a string of decimal digits. -/
def digits_value : List Char → Nat → Option Nat
  | [], acc => some acc
  | c :: cs, acc =>
    if 48 ≤ c.toNat ∧ c.toNat ≤ 57 then digits_value cs (10 * acc + (c.toNat - 48)) else none

/-- A `convert` for the sample environment: an optional minus sign and decimal digits,
within the range of a 32-bit `int`. -/
def sample_convert (s : String) : Option Int :=
  match s.data with
  | [] => none
  | '-' :: cs =>
    if cs = [] then none
    else match digits_value cs 0 with
      | some n => if n ≤ 2 ^ 31 then some (-(n : Int)) else none
      | none => none
  | cs =>
    match digits_value cs 0 with
    | some n => if n < 2 ^ 31 then some (n : Int) else none
    | none => none

/-- Insert `val` into a range kept in reverse order, moving left while `cmp val prev`. -/
def sample_linear_insert (cmp : region_bound → region_bound → Bool) (val : region_bound) :
    List region_bound → List region_bound
  | [] => [val]
  | prev :: rest =>
    if cmp val prev then prev :: sample_linear_insert cmp val rest else val :: prev :: rest

/-- A `sort` for the sample environment: insertion sort (what `std::sort` of libstdc++ does
on ranges of fewer than 16 elements), driven by the comparator alone. -/
def sample_sort (cmp : region_bound → region_bound → Bool) (l : List region_bound) :
    List region_bound :=
  l.foldl (fun sorted val =>
    match sorted with
    | [] => [val]
    | first :: _ =>
      if cmp val first then val :: sorted
      else (sample_linear_insert cmp val sorted.reverse).reverse) []

/-- The files of the sample environment. -/
def sample_files (path : String) : Option (List String) :=
  if path = "a.bed" then some ["chr1 0 10", "", "chr2 4 9"]
  else if path = "b.bed" then some ["chr1 2 6", "chr1 4 9"]
  else if path = "bad.bed" then some ["chr1 0 10", "chr1 x 5"]
  else if path = "genes.gtf" then
    some ["#comment",
          "chr1\tsrc\tgene\t100\t200\t.\t+\t.\tgene_id \"G1\"; gene_name \"A\";",
          "chr1\tsrc\tgene\t50\t150\t.\t+\t.\tgene_id \"G1\"; gene_name \"A\";",
          "chr2\tsrc\tgene\t7\t9\t.\t+\t.\tgene_id \"G2\"; gene_name \"A\";"]
  else if path = "clash.gtf" then
    some ["chr1\tsrc\tgene\t100\t200\t.\t+\t.\tgene_id \"G1\"; gene_name \"A\";",
          "chr2\tsrc\tgene\t50\t150\t.\t+\t.\tgene_id \"G1\"; gene_name \"A\";"]
  else if path = "sets.gmt" then some ["setA url G1", "short", "setB url A G2"]
  else none

/-- The sample environment. -/
def sample_env : Env :=
  { trim := sample_trim
    split := sample_split
    convert := sample_convert
    sort := sample_sort
    open_file := sample_files
    open_gz := fun _ => none }

/-- A freshly constructed object over `sample_chr_order`, accepting the feature `gene`. -/
def sample_fresh : Region := Region.create ["gene"] sample_chr_order

/-! ## Properties named by the specification -/

/-- The order the specification states for a registered set, following its words: ascending
by chromosome rank, within equal rank ascending by start, within equal start ascending by
end; the strict lexicographic order on `(chr, start, end)`. -/
def spec_lex_lt (t1 t2 : region_bound) : Prop :=
  t1.chr < t2.chr ∨
    (t1.chr = t2.chr ∧ (t1.start < t2.start ∨ (t1.start = t2.start ∧ t1.end_ < t2.end_)))

instance (t1 t2 : region_bound) : Decidable (spec_lex_lt t1 t2) := by
  unfold spec_lex_lt; infer_instance

/-- A start or end column that `process_bed` rejects: it cannot be converted, or it is
negative. -/
def bad_coordinate (E : Env) (column : String) : Bool :=
  match E.convert column with
  | none => true
  | some temp => decide (temp < 0)

/-- A non-blank line of a BED file with fewer than 3 columns or a bad start or end column. -/
def bed_line_malformed (E : Env) (line : String) : Bool :=
  decide (E.trim line ≠ "") &&
    (decide ((E.split (E.trim line) default_separators).length < 3) ||
      bad_coordinate E ((E.split (E.trim line) default_separators).getD 1 "") ||
      bad_coordinate E ((E.split (E.trim line) default_separators).getD 2 ""))

/-- The loading invariant on names: the registered names are pairwise distinct, each of
them is in the set of used names, and there is one interval list per name. -/
def Region.names_inv (R : Region) : Prop :=
  R.m_region_name.Nodup ∧ (∀ n ∈ R.m_region_name, n ∈ R.m_duplicated_names) ∧
    R.m_region_list.length = R.m_region_name.length

/-- The names of the rows of a gene-set file that `process_msigdb` looks at: column 0 of
every non-blank line with at least 2 tokens. -/
def msigdb_row_names (E : Env) (lines : List String) : List String :=
  lines.filterMap (fun line =>
    if E.trim line ≠ "" ∧ 2 ≤ (E.split (E.trim line) default_separators).length then
      some ((E.split (E.trim line) default_separators).getD 0 "")
    else none)

instance (a b : Except String
    (List (String × region_bound) × List (String × List String))) : Decidable (a = b) :=
  match a, b with
  | Except.ok x, Except.ok y =>
    if h : x = y then isTrue (by rw [h]) else isFalse (fun h' => h (Except.ok.inj h'))
  | Except.error x, Except.error y =>
    if h : x = y then isTrue (by rw [h]) else isFalse (fun h' => h (Except.error.inj h'))
  | Except.ok _, Except.error _ => isFalse (fun h' => by cases h')
  | Except.error _, Except.ok _ => isFalse (fun h' => by cases h')

/-- The accepted records of a GTF file, in file order: what `process_gtf` reads from the
lines whose feature is accepted and whose chromosome is known. -/
def Region.gtf_records (E : Env) (R : Region) (lines : List String) : List gtf_record :=
  lines.filterMap (fun line =>
    match Region.gtf_read_line E R line with
    | gtf_line.accepted r => some r
    | _ => none)

/-- The boundary `b` is the merge of the records carrying the identifier `id`: it has their
chromosome rank, its start is their minimum start and its end their maximum end. -/
def gtf_boundary_of (recs : List gtf_record) (id : String) (b : region_bound) : Prop :=
  (∀ r ∈ recs, r.id = id → r.chr = b.chr ∧ b.start ≤ r.start ∧ r.end_ ≤ b.end_) ∧
  (∃ r ∈ recs, r.id = id ∧ r.start = b.start) ∧
  (∃ r ∈ recs, r.id = id ∧ r.end_ = b.end_)

/-- The map `m` holds exactly the merged boundaries of the records `recs`. -/
def gtf_merged (recs : List gtf_record) (m : List (String × region_bound)) : Prop :=
  (∀ id b, umap_find id m = some b → gtf_boundary_of recs id b) ∧
  (∀ r ∈ recs, ∃ b, umap_find r.id m = some b)

/-- An accepted line (not blank, not a comment, feature accepted, chromosome known) whose
start or end column cannot be converted or is negative. -/
def Region.gtf_bad_record (E : Env) (R : Region) (line : String) : Bool :=
  decide (E.trim line ≠ "") && decide ((E.trim line).data.head? ≠ some '#') &&
    R.in_feature ((E.split (E.trim line) "\t").getD GTF_FEATURE "") &&
    (R.m_chr_order ((E.split (E.trim line) "\t").getD GTF_CHR "")).isSome &&
    (bad_coordinate E ((E.split (E.trim line) "\t").getD GTF_START "") ||
      bad_coordinate E ((E.split (E.trim line) "\t").getD GTF_END ""))

/-- The representation invariant of a `std::set<std::string>`: strictly ascending. -/
def str_sorted (l : List String) : Prop :=
  l.Pairwise (fun x y => chars_lt x.data y.data = true)

/-- Every set stored in the alias index is a `std::set` (strictly ascending). -/
def alias_sets_sorted (id_to_name : List (String × List String)) : Prop :=
  ∀ name ids, umap_find name id_to_name = some ids → str_sorted ids

/-- The call `check(chr, loc, ·)` in the state `R` matches set `i`: the bit it reports for
set `i` in a flag vector handed in with all bits clear. -/
def Region.matches (BITCT : Nat) (R : Region) (chr : String) (loc : Nat) (i : Nat) : Bool :=
  flag_bit BITCT (Region.check BITCT R chr loc (List.replicate (i / BITCT + 1) 0)).2 i

/-- The number of calls of a sequence in which set `i` matched. -/
def Region.match_count (BITCT : Nat) (i : Nat) : Region → List snp_query → Nat
  | _, [] => 0
  | R, q :: qs =>
    (if Region.matches BITCT R q.chr q.loc i then 1 else 0) +
      Region.match_count BITCT i (Region.check BITCT R q.chr q.loc q.flag).1 qs

/-- The interval `t1` starts strictly inside `t2`: same chromosome rank and
`t2.start < t1.start < t2.end`. -/
def starts_inside (t1 t2 : region_bound) : Prop :=
  t1.chr = t2.chr ∧ t2.start < t1.start ∧ t1.start < t2.end_

instance (t1 t2 : region_bound) : Decidable (starts_inside t1 t2) := by
  unfold starts_inside; infer_instance

/-- The catalogue of `sample_region` with both counters at the largest `int`. -/
def sample_region_full : Region :=
  { sample_region with m_region_snp_count := [2147483647, 2147483647] }

/-- The sample environment with one more file, `noname.gtf`: a single gene record with a
`gene_id` and no `gene_name`. -/
def sample_env_noname : Env :=
  { sample_env with
    open_file := fun path =>
      if path = "noname.gtf" then
        some ["chr1\tsrc\tgene\t100\t200\t.\t+\t.\tgene_id \"G1\";"]
      else sample_files path }

/-! # Theorems -/

/-! ### Arithmetic of `int` -/

theorem int_wrap_eq (z : Int) (h1 : -2147483648 ≤ z) (h2 : z ≤ 2147483647) : int_wrap z = z := by
  unfold int_wrap
  norm_num
  omega

theorem int_incr_eq (c : Int) (h1 : -2147483648 ≤ c) (h2 : c < 2147483647) :
    int_incr c = c + 1 := by
  unfold int_incr
  exact int_wrap_eq _ (by omega) (by omega)

theorem int_incr_wrap (a : Int) : int_incr (int_wrap a) = int_wrap (a + 1) := by
  unfold int_incr int_wrap
  norm_num
  omega

/-! ### The `while` loop is the sweep of one set -/

theorem list_set_getD_self {α : Type} (l : List α) (i : Nat) (d : α) :
    l.set i (l.getD i d) = l := by
  induction l generalizing i with
  | nil => simp
  | cons a t ih =>
    cases i with
    | zero => simp
    | succ k => simpa using ih k

theorem list_getD_set_self {α : Type} (l : List α) (i : Nat) (d x : α) (h : i < l.length) :
    (l.set i x).getD i d = x := by
  simp [h]

theorem Region.apply_sweep_step (BITCT : Nat) (i : Nat) (R : Region) (flag : List Nat)
    (c : Nat) (res : Nat × Bool) :
    Region.apply_sweep BITCT i res
        ({ R with m_snp_check_index := R.m_snp_check_index.set i c }, flag) =
      Region.apply_sweep BITCT i res (R, flag) := by
  simp [Region.apply_sweep, List.set_set]

theorem Region.check_while_eq (BITCT : Nat) (chr_index : Int) (loc : Nat) (i : Nat) :
    ∀ (fuel : Nat) (R : Region) (flag : List Nat), i < R.m_snp_check_index.length →
      Region.check_while BITCT chr_index loc i fuel (R, flag) =
        Region.apply_sweep BITCT i
          (sweep chr_index loc (R.m_region_list.getD i []) fuel (R.m_snp_check_index.getD i 0))
          (R, flag) := by
  intro fuel
  induction fuel with
  | zero =>
    intro R flag hi
    simp only [Region.check_while, sweep, Region.apply_sweep, Bool.false_eq_true, if_false]
    rw [list_set_getD_self]
  | succ n ih =>
    intro R flag hi
    have hstep : ∀ c, Region.check_while BITCT chr_index loc i n
          ({ R with m_snp_check_index := R.m_snp_check_index.set i c }, flag) =
        Region.apply_sweep BITCT i
          (sweep chr_index loc (R.m_region_list.getD i []) n c) (R, flag) := by
      intro c
      rw [ih _ _ (by simpa using hi), Region.apply_sweep_step]
      simp only [list_getD_set_self _ _ _ _ hi]
    have hstop : ∀ c, c = R.m_snp_check_index.getD i 0 →
        (R, flag) = Region.apply_sweep BITCT i (c, false) (R, flag) := by
      intro c hc
      simp only [Region.apply_sweep, Bool.false_eq_true, if_false, hc]
      rw [list_set_getD_self]
    have hhit : ∀ c, c = R.m_snp_check_index.getD i 0 →
        (({ R with m_region_snp_count :=
                R.m_region_snp_count.set i (int_incr (R.m_region_snp_count.getD i 0)) } : Region),
           flag.set (i / BITCT) (flag.getD (i / BITCT) 0 ||| (ONELU <<< (i % BITCT))))
          = Region.apply_sweep BITCT i (c, true) (R, flag) := by
      intro c hc
      simp only [Region.apply_sweep, if_true, hc]
      rw [list_set_getD_self]
    simp only [Region.check_while, sweep]
    by_cases h1 : R.m_snp_check_index.getD i 0 < (R.m_region_list.getD i []).length
    · rw [if_pos h1, if_pos h1]
      by_cases h2 : chr_index >
          ((R.m_region_list.getD i []).getD (R.m_snp_check_index.getD i 0) default).chr
      · rw [if_pos h2, if_pos h2]; exact hstep _
      · rw [if_neg h2, if_neg h2]
        by_cases h3 : chr_index =
            ((R.m_region_list.getD i []).getD (R.m_snp_check_index.getD i 0) default).chr
        · rw [if_pos h3, if_pos h3]
          by_cases h4 :
              ((R.m_region_list.getD i []).getD (R.m_snp_check_index.getD i 0) default).start ≤ loc ∧
              ((R.m_region_list.getD i []).getD (R.m_snp_check_index.getD i 0) default).end_ ≥ loc
          · rw [if_pos h4, if_pos h4]; exact hhit _ rfl
          · rw [if_neg h4, if_neg h4]
            by_cases h5 :
                ((R.m_region_list.getD i []).getD (R.m_snp_check_index.getD i 0) default).start > loc
            · rw [if_pos h5, if_pos h5]; exact hstop _ rfl
            · rw [if_neg h5, if_neg h5]
              have h6 : ((R.m_region_list.getD i []).getD
                  (R.m_snp_check_index.getD i 0) default).end_ < loc := by
                by_contra h6
                exact h4 ⟨by omega, by omega⟩
              rw [if_pos h6]; exact hstep _
        · rw [if_neg h3, if_neg h3]; exact hstop _ rfl
    · rw [if_neg h1, if_neg h1]; exact hstop _ rfl

/-! ### Frame lemmas for one `while` loop -/

theorem Region.check_while_shape (BITCT : Nat) (chr_index : Int) (loc : Nat) (i : Nat) :
    ∀ (fuel : Nat) (R : Region) (flag : List Nat),
      ∃ res, Region.check_while BITCT chr_index loc i fuel (R, flag) =
        Region.apply_sweep BITCT i res (R, flag) := by
  intro fuel
  induction fuel with
  | zero =>
    intro R flag
    refine ⟨(R.m_snp_check_index.getD i 0, false), ?_⟩
    simp only [Region.check_while, Region.apply_sweep, Bool.false_eq_true, if_false]
    rw [list_set_getD_self]
  | succ n ih =>
    intro R flag
    have hstep : ∀ c, ∃ res, Region.check_while BITCT chr_index loc i n
          ({ R with m_snp_check_index := R.m_snp_check_index.set i c }, flag) =
        Region.apply_sweep BITCT i res (R, flag) := by
      intro c
      obtain ⟨res, hres⟩ := ih { R with m_snp_check_index := R.m_snp_check_index.set i c } flag
      exact ⟨res, by rw [hres, Region.apply_sweep_step]⟩
    have hstop : ∃ res, (R, flag) = Region.apply_sweep BITCT i res (R, flag) := by
      refine ⟨(R.m_snp_check_index.getD i 0, false), ?_⟩
      simp only [Region.apply_sweep, Bool.false_eq_true, if_false]
      rw [list_set_getD_self]
    have hhit : ∃ res,
        (({ R with m_region_snp_count :=
                R.m_region_snp_count.set i (int_incr (R.m_region_snp_count.getD i 0)) } : Region),
           flag.set (i / BITCT) (flag.getD (i / BITCT) 0 ||| (ONELU <<< (i % BITCT))))
          = Region.apply_sweep BITCT i res (R, flag) := by
      refine ⟨(R.m_snp_check_index.getD i 0, true), ?_⟩
      simp only [Region.apply_sweep, if_true]
      rw [list_set_getD_self]
    simp only [Region.check_while]
    split_ifs
    · exact hstep _
    · exact hhit
    · exact hstop
    · exact hstep _
    · exact ih R flag
    · exact hstop
    · exact hstop

theorem flag_bit_mark (BITCT : Nat) (flag : List Nat) (k i : Nat) :
    flag_bit BITCT
        (flag.set (k / BITCT) (flag.getD (k / BITCT) 0 ||| (ONELU <<< (k % BITCT)))) i =
      (flag_bit BITCT flag i || (decide (i = k) && decide (k / BITCT < flag.length))) := by
  unfold flag_bit ONELU
  by_cases hw : i / BITCT = k / BITCT
  · by_cases hlen : k / BITCT < flag.length
    · rw [hw, list_getD_set_self _ _ _ _ hlen, Nat.testBit_or, Nat.one_shiftLeft,
        Nat.testBit_two_pow]
      have hiff : (k % BITCT = i % BITCT) ↔ i = k := by
        constructor
        · intro hm
          have h1 := Nat.div_add_mod i BITCT
          have h2 := Nat.div_add_mod k BITCT
          rw [hw, ← hm] at h1
          omega
        · intro h; rw [h]
      simp [hiff, hlen]
    · rw [List.set_eq_of_length_le (by omega)]
      simp [hlen]
  · have hne : i ≠ k := fun h => hw (by rw [h])
    have : (flag.set (k / BITCT) (flag.getD (k / BITCT) 0 ||| 1 <<< (k % BITCT))).getD
        (i / BITCT) 0 = flag.getD (i / BITCT) 0 := by
      simp only [List.getD_eq_getElem?_getD]
      rw [List.getElem?_set_ne (fun h => hw h.symm)]
    rw [this]
    simp [hne]

theorem flag_word_mark_mono (flag : List Nat) (w v x b : Nat)
    (h : (flag.getD w 0).testBit b = true) :
    ((flag.set v (flag.getD v 0 ||| x)).getD w 0).testBit b = true := by
  by_cases hw : v = w
  · subst hw
    by_cases hlen : v < flag.length
    · rw [list_getD_set_self _ _ _ _ hlen, Nat.testBit_or, h]; rfl
    · rw [List.set_eq_of_length_le (by omega)]; exact h
  · simp only [List.getD_eq_getElem?_getD] at h ⊢
    rw [List.getElem?_set_ne hw]; exact h

theorem Region.same_catalog_refl (R : Region) : Region.same_catalog R R :=
  ⟨rfl, rfl, rfl, rfl, rfl, rfl, rfl, rfl⟩

theorem Region.same_catalog_trans {R R' R'' : Region} (h : Region.same_catalog R R')
    (h' : Region.same_catalog R' R'') : Region.same_catalog R R'' := by
  obtain ⟨a1, a2, a3, a4, a5, a6, a7, a8⟩ := h
  obtain ⟨b1, b2, b3, b4, b5, b6, b7, b8⟩ := h'
  exact ⟨b1.trans a1, b2.trans a2, b3.trans a3, b4.trans a4, b5.trans a5, b6.trans a6,
    b7.trans a7, b8.trans a8⟩

theorem Region.apply_sweep_catalog (BITCT i : Nat) (res : Nat × Bool) (st : Region × List Nat) :
    Region.same_catalog st.1 (Region.apply_sweep BITCT i res st).1 ∧
      (Region.apply_sweep BITCT i res st).2.length = st.2.length := by
  unfold Region.same_catalog Region.apply_sweep
  refine ⟨⟨rfl, rfl, rfl, rfl, rfl, by simp, ?_, rfl⟩, ?_⟩
  · dsimp only; split_ifs <;> simp
  · dsimp only; split_ifs <;> simp

/-- Entries of the arrays other than entry `k` are not touched by the loop for set `k`. -/
theorem Region.apply_sweep_other (BITCT i k : Nat) (hik : i ≠ k) (res : Nat × Bool)
    (st : Region × List Nat) :
    (Region.apply_sweep BITCT k res st).1.m_snp_check_index.getD i 0 =
        st.1.m_snp_check_index.getD i 0 ∧
    (Region.apply_sweep BITCT k res st).1.m_region_snp_count.getD i 0 =
        st.1.m_region_snp_count.getD i 0 ∧
    flag_bit BITCT (Region.apply_sweep BITCT k res st).2 i = flag_bit BITCT st.2 i := by
  unfold Region.apply_sweep
  refine ⟨?_, ?_, ?_⟩
  · simp only [List.getD_eq_getElem?_getD]
    rw [List.getElem?_set_ne (fun h => hik h.symm)]
  · dsimp only
    split_ifs
    · simp only [List.getD_eq_getElem?_getD]
      rw [List.getElem?_set_ne (fun h => hik h.symm)]
    · rfl
  · dsimp only
    split_ifs
    · rw [flag_bit_mark BITCT]; simp [hik]
    · rfl

theorem Region.apply_sweep_mono (BITCT k : Nat) (res : Nat × Bool) (st : Region × List Nat)
    (w b : Nat) (h : (st.2.getD w 0).testBit b = true) :
    ((Region.apply_sweep BITCT k res st).2.getD w 0).testBit b = true := by
  unfold Region.apply_sweep
  dsimp only
  split_ifs
  · exact flag_word_mark_mono _ _ _ _ _ h
  · exact h

/-! ### Frame lemmas for the `for` loop over the sets -/

theorem Region.check_for_frame (BITCT : Nat) (chr_index : Int) (loc : Nat) :
    ∀ (n j : Nat) (st : Region × List Nat),
      Region.same_catalog st.1 (Region.check_for BITCT chr_index loc n j st).1 ∧
      (Region.check_for BITCT chr_index loc n j st).2.length = st.2.length ∧
      (∀ i, i < j ∨ j + n ≤ i →
        (Region.check_for BITCT chr_index loc n j st).1.m_snp_check_index.getD i 0 =
            st.1.m_snp_check_index.getD i 0 ∧
        (Region.check_for BITCT chr_index loc n j st).1.m_region_snp_count.getD i 0 =
            st.1.m_region_snp_count.getD i 0 ∧
        flag_bit BITCT (Region.check_for BITCT chr_index loc n j st).2 i =
            flag_bit BITCT st.2 i) ∧
      (∀ w b, (st.2.getD w 0).testBit b = true →
        ((Region.check_for BITCT chr_index loc n j st).2.getD w 0).testBit b = true) := by
  intro n
  induction n with
  | zero =>
    intro j st
    exact ⟨Region.same_catalog_refl _, rfl, fun _ _ => ⟨rfl, rfl, rfl⟩, fun _ _ h => h⟩
  | succ n ih =>
    intro j st
    obtain ⟨R, flag⟩ := st
    simp only [Region.check_for]
    obtain ⟨res, hres⟩ := Region.check_while_shape BITCT chr_index loc j
      ((R.m_region_list.getD j []).length - R.m_snp_check_index.getD j 0) R flag
    rw [hres]
    obtain ⟨h1, h2, h3, h4⟩ := ih (j + 1) (Region.apply_sweep BITCT j res (R, flag))
    obtain ⟨c1, c2⟩ := Region.apply_sweep_catalog BITCT j res (R, flag)
    refine ⟨Region.same_catalog_trans c1 h1, h2.trans c2, ?_, ?_⟩
    · intro i hi
      have hij : i ≠ j := by omega
      obtain ⟨a1, a2, a3⟩ := h3 i (by omega)
      obtain ⟨b1, b2, b3⟩ := Region.apply_sweep_other BITCT i j hij res (R, flag)
      exact ⟨a1.trans b1, a2.trans b2, a3.trans b3⟩
    · intro w b h
      exact h4 w b (Region.apply_sweep_mono BITCT j res (R, flag) w b h)

/-- The effect of the `for` loop on set `i`: its cursor, counter and flag bit are those the
sweep of set `i` alone gives. -/
theorem Region.check_for_at (BITCT : Nat) (chr_index : Int) (loc : Nat) (i : Nat) :
    ∀ (n j : Nat) (st : Region × List Nat), j ≤ i → i < j + n →
      i < st.1.m_snp_check_index.length →
      (Region.check_for BITCT chr_index loc n j st).1.m_snp_check_index.getD i 0 =
        (sweep chr_index loc (st.1.m_region_list.getD i [])
          ((st.1.m_region_list.getD i []).length - st.1.m_snp_check_index.getD i 0)
          (st.1.m_snp_check_index.getD i 0)).1 ∧
      (Region.check_for BITCT chr_index loc n j st).1.m_region_snp_count.getD i 0 =
        (if (sweep chr_index loc (st.1.m_region_list.getD i [])
              ((st.1.m_region_list.getD i []).length - st.1.m_snp_check_index.getD i 0)
              (st.1.m_snp_check_index.getD i 0)).2 = true ∧ i < st.1.m_region_snp_count.length
         then int_incr (st.1.m_region_snp_count.getD i 0) else st.1.m_region_snp_count.getD i 0) ∧
      flag_bit BITCT (Region.check_for BITCT chr_index loc n j st).2 i =
        (flag_bit BITCT st.2 i ||
          ((sweep chr_index loc (st.1.m_region_list.getD i [])
              ((st.1.m_region_list.getD i []).length - st.1.m_snp_check_index.getD i 0)
              (st.1.m_snp_check_index.getD i 0)).2 && decide (i / BITCT < st.2.length))) := by
  intro n
  induction n with
  | zero => intro j st h1 h2; omega
  | succ n ih =>
    intro j st hji hin hlen
    obtain ⟨R, flag⟩ := st
    simp only [Region.check_for]
    by_cases hj : j = i
    · subst hj
      rw [Region.check_while_eq BITCT chr_index loc j _ R flag hlen]
      obtain ⟨_, _, h3, _⟩ := Region.check_for_frame BITCT chr_index loc n (j + 1)
        (Region.apply_sweep BITCT j
          (sweep chr_index loc (R.m_region_list.getD j [])
            ((R.m_region_list.getD j []).length - R.m_snp_check_index.getD j 0)
            (R.m_snp_check_index.getD j 0)) (R, flag))
      obtain ⟨a1, a2, a3⟩ := h3 j (by omega)
      rw [a1, a2, a3]
      dsimp only at hlen
      refine ⟨?_, ?_, ?_⟩
      · simp only [Region.apply_sweep]
        exact list_getD_set_self _ _ _ _ hlen
      · simp only [Region.apply_sweep]
        by_cases hm : (sweep chr_index loc (R.m_region_list.getD j [])
            ((R.m_region_list.getD j []).length - R.m_snp_check_index.getD j 0)
            (R.m_snp_check_index.getD j 0)).2 = true
        · rw [if_pos hm]
          by_cases hc : j < R.m_region_snp_count.length
          · rw [if_pos ⟨hm, hc⟩, list_getD_set_self _ _ _ _ hc]
          · rw [if_neg (fun h => hc h.2), List.set_eq_of_length_le (by omega)]
        · rw [if_neg hm, if_neg (fun h => hm h.1)]
      · simp only [Region.apply_sweep]
        by_cases hm : (sweep chr_index loc (R.m_region_list.getD j [])
            ((R.m_region_list.getD j []).length - R.m_snp_check_index.getD j 0)
            (R.m_snp_check_index.getD j 0)).2 = true
        · rw [if_pos hm, flag_bit_mark, hm]; simp
        · rw [if_neg hm]
          have hm' : (sweep chr_index loc (R.m_region_list.getD j [])
            ((R.m_region_list.getD j []).length - R.m_snp_check_index.getD j 0)
            (R.m_snp_check_index.getD j 0)).2 = false := by simpa using hm
          rw [hm']; simp
    · obtain ⟨res, hres⟩ := Region.check_while_shape BITCT chr_index loc j
        ((R.m_region_list.getD j []).length - R.m_snp_check_index.getD j 0) R flag
      rw [hres]
      obtain ⟨⟨_, _, _, _, c5, c6, c7, _⟩, c2⟩ := Region.apply_sweep_catalog BITCT j res (R, flag)
      obtain ⟨b1, b2, b3⟩ := Region.apply_sweep_other BITCT i j (Ne.symm hj) res (R, flag)
      have := ih (j + 1) (Region.apply_sweep BITCT j res (R, flag)) (by omega) (by omega)
        (by rw [c6]; exact hlen)
      rw [c5, c7, c2, b1, b2, b3] at this
      exact this

/-! ### Correctness of the sweep of one sorted set -/

theorem dead_before_mono (region : List region_bound) (c : Nat) (r r' : Int) (p p' : Nat)
    (hle : r < r' ∨ (r = r' ∧ p ≤ p')) (h : dead_before region c r p) :
    dead_before region c r' p' := by
  intro j hj hlen
  rcases h j hj hlen with h1 | ⟨h1, h2⟩ <;> rcases hle with h3 | ⟨h3, h4⟩
  · left; omega
  · left; omega
  · left; omega
  · right; exact ⟨by omega, by omega⟩

theorem sorted_getD (region : List region_bound)
    (hs : region.Pairwise region_bound.le_start) (i j : Nat) (hij : i < j)
    (hj : j < region.length) :
    region_bound.le_start (region.getD i default) (region.getD j default) := by
  rw [List.getD_eq_getElem _ _ (by omega : i < region.length), List.getD_eq_getElem _ _ hj]
  exact List.pairwise_iff_getElem.mp hs i j (by omega) hj hij

theorem no_cover_of_getD (region : List region_bound) (r : Int) (p : Nat)
    (h : ∀ j, j < region.length → ¬ (region.getD j default).covers r p) :
    ¬ ∃ b ∈ region, b.covers r p := by
  rintro ⟨b, hb, hc⟩
  obtain ⟨n, hn, rfl⟩ := List.getElem_of_mem hb
  exact h n hn (by rw [List.getD_eq_getElem _ _ hn]; exact hc)

theorem dead_not_covers (b : region_bound) (r : Int) (p : Nat)
    (h : b.chr < r ∨ (b.chr = r ∧ b.end_ < p)) : ¬ b.covers r p := by
  rintro ⟨h1, h2, h3⟩
  rcases h with h | ⟨_, h⟩ <;> omega

theorem sweep_spec (r : Int) (p : Nat) (region : List region_bound)
    (hs : region.Pairwise region_bound.le_start) :
    ∀ (fuel idx : Nat), region.length - idx ≤ fuel → dead_before region idx r p →
      dead_before region (sweep r p region fuel idx).1 r p ∧
      ((sweep r p region fuel idx).2 = true ↔ ∃ b ∈ region, b.covers r p) ∧
      idx ≤ (sweep r p region fuel idx).1 ∧
      ((sweep r p region fuel idx).2 = true →
        (sweep r p region fuel idx).1 < region.length ∧
        (region.getD (sweep r p region fuel idx).1 default).covers r p) := by
  have hend : ∀ idx, region.length ≤ idx → dead_before region idx r p →
      ¬ ∃ b ∈ region, b.covers r p := by
    intro idx hlen hd
    apply no_cover_of_getD
    intro j hj
    exact dead_not_covers _ _ _ (hd j (by omega) hj)
  have hahead : ∀ idx, idx < region.length → dead_before region idx r p →
      (r < (region.getD idx default).chr ∨
        (r = (region.getD idx default).chr ∧ p < (region.getD idx default).start)) →
      ¬ ∃ b ∈ region, b.covers r p := by
    intro idx hlen hd hb
    apply no_cover_of_getD
    intro j hj
    by_cases hji : j < idx
    · exact dead_not_covers _ _ _ (hd j hji hj)
    · rintro ⟨h1, h2, h3⟩
      by_cases hje : j = idx
      · subst hje
        rcases hb with hb | ⟨_, hb⟩ <;> omega
      · have hle := sorted_getD region hs idx j (by omega) hj
        unfold region_bound.le_start at hle
        rcases hb with hb | ⟨hb1, hb2⟩ <;> rcases hle with hle | ⟨hle1, hle2⟩ <;> omega
  intro fuel
  induction fuel with
  | zero =>
    intro idx hf hd
    simp only [sweep]
    refine ⟨hd, ?_, le_refl _, ?_⟩
    · constructor
      · intro h; cases h
      · intro h; exact absurd h (hend idx (by omega) hd)
    · intro h; cases h
  | succ n ih =>
    intro idx hf hd
    have hnext : (region.getD idx default).chr < r ∨
        ((region.getD idx default).chr = r ∧ (region.getD idx default).end_ < p) →
        dead_before region (idx + 1) r p := by
      intro hb j hj hlen
      by_cases hji : j < idx
      · exact hd j hji hlen
      · have : j = idx := by omega
        subst this; exact hb
    simp only [sweep]
    by_cases h1 : idx < region.length
    · rw [if_pos h1]
      by_cases h2 : r > (region.getD idx default).chr
      · rw [if_pos h2]
        obtain ⟨a1, a2, a3, a4⟩ := ih (idx + 1) (by omega) (hnext (Or.inl h2))
        exact ⟨a1, a2, by omega, a4⟩
      · rw [if_neg h2]
        by_cases h3 : r = (region.getD idx default).chr
        · rw [if_pos h3]
          by_cases h4 : (region.getD idx default).start ≤ p ∧ (region.getD idx default).end_ ≥ p
          · rw [if_pos h4]
            have hcov : (region.getD idx default).covers r p := ⟨h3.symm, h4.1, h4.2⟩
            refine ⟨hd, ?_, le_refl _, fun _ => ⟨h1, hcov⟩⟩
            constructor
            · intro _
              refine ⟨region.getD idx default, ?_, hcov⟩
              rw [List.getD_eq_getElem _ _ h1]
              exact List.getElem_mem h1
            · intro _; rfl
          · rw [if_neg h4]
            by_cases h5 : (region.getD idx default).start > p
            · rw [if_pos h5]
              refine ⟨hd, ?_, le_refl _, ?_⟩
              · constructor
                · intro h; cases h
                · intro h; exact absurd h (hahead idx h1 hd (Or.inr ⟨h3, h5⟩))
              · intro h; cases h
            · rw [if_neg h5]
              have h6 : (region.getD idx default).end_ < p := by
                by_contra h6
                exact h4 ⟨by omega, by omega⟩
              obtain ⟨a1, a2, a3, a4⟩ := ih (idx + 1) (by omega) (hnext (Or.inr ⟨h3.symm, h6⟩))
              exact ⟨a1, a2, by omega, a4⟩
        · rw [if_neg h3]
          refine ⟨hd, ?_, le_refl _, ?_⟩
          · constructor
            · intro h; cases h
            · intro h
              exact absurd h (hahead idx h1 hd (Or.inl (by omega)))
          · intro h; cases h
    · rw [if_neg h1]
      refine ⟨hd, ?_, le_refl _, ?_⟩
      · constructor
        · intro h; cases h
        · intro h; exact absurd h (hend idx (by omega) hd)
      · intro h; cases h

/-! ### The iteration bound of the `while` loop is enough -/

/-- Allowing more iterations than `region.size() - cursor` does not change the result: the
loop has always left through `break` or its condition by then. -/
theorem sweep_fuel (r : Int) (p : Nat) (region : List region_bound) :
    ∀ (fuel idx : Nat), region.length - idx ≤ fuel →
      sweep r p region fuel idx = sweep r p region (region.length - idx) idx := by
  intro fuel
  induction fuel with
  | zero =>
    intro idx h
    have : region.length - idx = 0 := by omega
    rw [this]
  | succ n ih =>
    intro idx h
    by_cases h1 : idx < region.length
    · obtain ⟨k, hk⟩ : ∃ k, region.length - idx = k + 1 := ⟨region.length - idx - 1, by omega⟩
      have hk' : k = region.length - (idx + 1) := by omega
      rw [hk]
      simp only [sweep]
      rw [ih (idx + 1) (by omega), ← hk']
    · have : region.length - idx = 0 := by omega
      rw [this]
      simp only [sweep, if_neg h1]

theorem Region.check_while_fuel (BITCT : Nat) (chr_index : Int) (loc : Nat) (i : Nat)
    (fuel : Nat) (R : Region) (flag : List Nat) (hi : i < R.m_snp_check_index.length)
    (hfuel : (R.m_region_list.getD i []).length - R.m_snp_check_index.getD i 0 ≤ fuel) :
    Region.check_while BITCT chr_index loc i fuel (R, flag) =
      Region.check_while BITCT chr_index loc i
        ((R.m_region_list.getD i []).length - R.m_snp_check_index.getD i 0) (R, flag) := by
  rw [Region.check_while_eq BITCT chr_index loc i fuel R flag hi,
    Region.check_while_eq BITCT chr_index loc i _ R flag hi, sweep_fuel _ _ _ fuel _ hfuel]

/-! ### One call of `Region::check`, and a sequence of calls -/

theorem Region.check_known (BITCT : Nat) (R : Region) (chr : String) (loc : Nat)
    (flag : List Nat) (r : Int) (h : R.m_chr_order chr = some r) :
    Region.check BITCT R chr loc flag =
      Region.check_for BITCT r loc (R.m_region_name.length - 1) 1
        ({ R with m_region_snp_count :=
                    R.m_region_snp_count.set 0 (int_incr (R.m_region_snp_count.getD 0 0)) },
         flag.set 0 (flag.getD 0 0 ||| ONELU)) := by
  simp only [Region.check, h]

theorem Region.check_unknown (BITCT : Nat) (R : Region) (chr : String) (loc : Nat)
    (flag : List Nat) (h : R.m_chr_order chr = none) :
    Region.check BITCT R chr loc flag =
      ({ R with m_region_snp_count :=
                    R.m_region_snp_count.set 0 (int_incr (R.m_region_snp_count.getD 0 0)) },
         flag.set 0 (flag.getD 0 0 ||| ONELU)) := by
  simp only [Region.check, h]

theorem flag_bit_base (BITCT : Nat) (flag : List Nat) (i : Nat) :
    flag_bit BITCT (flag.set 0 (flag.getD 0 0 ||| ONELU)) i =
      (flag_bit BITCT flag i || (decide (i = 0) && decide (0 < flag.length))) := by
  have h := flag_bit_mark BITCT flag 0 i
  simp only [Nat.zero_div, Nat.zero_mod, Nat.shiftLeft_zero] at h
  exact h

theorem Region.check_catalog (BITCT : Nat) (R : Region) (chr : String) (loc : Nat)
    (flag : List Nat) :
    Region.same_catalog R (Region.check BITCT R chr loc flag).1 ∧
      (Region.check BITCT R chr loc flag).2.length = flag.length := by
  have h0 : Region.same_catalog R
      { R with m_region_snp_count :=
                 R.m_region_snp_count.set 0 (int_incr (R.m_region_snp_count.getD 0 0)) } :=
    ⟨rfl, rfl, rfl, rfl, rfl, rfl, by simp, rfl⟩
  cases h : R.m_chr_order chr with
  | none =>
    rw [Region.check_unknown BITCT R chr loc flag h]
    exact ⟨h0, by simp⟩
  | some r =>
    rw [Region.check_known BITCT R chr loc flag r h]
    obtain ⟨a1, a2, _, _⟩ := Region.check_for_frame BITCT r loc (R.m_region_name.length - 1) 1
      ({ R with m_region_snp_count :=
                    R.m_region_snp_count.set 0 (int_incr (R.m_region_snp_count.getD 0 0)) },
         flag.set 0 (flag.getD 0 0 ||| ONELU))
    exact ⟨Region.same_catalog_trans h0 a1, by rw [a2]; simp⟩

/-- One call with a known label, seen from set `i ≥ 1`. -/
theorem Region.check_at (BITCT : Nat) (R : Region) (chr : String) (loc : Nat)
    (flag : List Nat) (r : Int) (h : R.m_chr_order chr = some r) (i : Nat) (h1 : 1 ≤ i)
    (hin : i < R.m_region_name.length) (hcur : i < R.m_snp_check_index.length) :
    (Region.check BITCT R chr loc flag).1.m_snp_check_index.getD i 0 =
        (sweep r loc (R.m_region_list.getD i [])
          ((R.m_region_list.getD i []).length - R.m_snp_check_index.getD i 0)
          (R.m_snp_check_index.getD i 0)).1 ∧
    (Region.check BITCT R chr loc flag).1.m_region_snp_count.getD i 0 =
        (if (sweep r loc (R.m_region_list.getD i [])
              ((R.m_region_list.getD i []).length - R.m_snp_check_index.getD i 0)
              (R.m_snp_check_index.getD i 0)).2 = true ∧ i < R.m_region_snp_count.length
         then int_incr (R.m_region_snp_count.getD i 0) else R.m_region_snp_count.getD i 0) ∧
    flag_bit BITCT (Region.check BITCT R chr loc flag).2 i =
        (flag_bit BITCT flag i ||
          ((sweep r loc (R.m_region_list.getD i [])
              ((R.m_region_list.getD i []).length - R.m_snp_check_index.getD i 0)
              (R.m_snp_check_index.getD i 0)).2 && decide (i / BITCT < flag.length))) := by
  rw [Region.check_known BITCT R chr loc flag r h]
  have hne : 0 ≠ i := by omega
  have key := Region.check_for_at BITCT r loc i (R.m_region_name.length - 1) 1
    ({ R with m_region_snp_count :=
                R.m_region_snp_count.set 0 (int_incr (R.m_region_snp_count.getD 0 0)) },
     flag.set 0 (flag.getD 0 0 ||| ONELU)) h1 (by omega) hcur
  have hcnt : (R.m_region_snp_count.set 0 (int_incr (R.m_region_snp_count.getD 0 0))).getD i 0 =
      R.m_region_snp_count.getD i 0 := by
    simp only [List.getD_eq_getElem?_getD]
    rw [List.getElem?_set_ne hne]
  have hbit := flag_bit_base BITCT flag i
  have hi0 : decide (i = 0) = false := by simp; omega
  rw [hi0, Bool.false_and, Bool.or_false] at hbit
  dsimp only at key
  rw [hcnt, hbit, List.length_set, List.length_set] at key
  exact key

theorem Region.check_seq_bit (BITCT : Nat) (R : Region) (i : Nat) (h1 : 1 ≤ i)
    (hin : i < R.m_region_name.length) (hcur : i < R.m_snp_check_index.length)
    (hs : (R.m_region_list.getD i []).Pairwise region_bound.le_start) :
    ∀ (rest : List snp_query) (x : snp_query) (R0 : Region), Region.same_catalog R R0 →
      List.Chain' (snp_query.le R.m_chr_order) (x :: rest) →
      ∀ rx, R.m_chr_order x.chr = some rx →
      dead_before (R.m_region_list.getD i []) (R0.m_snp_check_index.getD i 0) rx x.loc →
      ∀ (pre : List snp_query) (q : snp_query), x :: rest = pre ++ [q] →
        i / BITCT < q.flag.length →
        (flag_bit BITCT
            (Region.check BITCT (Region.check_seq BITCT R0 pre) q.chr q.loc q.flag).2 i = true ↔
          flag_bit BITCT q.flag i = true ∨
            ∃ b ∈ R.m_region_list.getD i [],
              R.m_chr_order q.chr = some b.chr ∧ b.start ≤ q.loc ∧ q.loc ≤ b.end_) := by
  intro rest
  induction rest with
  | nil =>
    intro x R0 hcat _ rx hrx hd pre q hpq hflag
    have hpre : pre = [] ∧ q = x := by
      cases pre with
      | nil => simp at hpq; exact ⟨rfl, hpq.symm⟩
      | cons a t => cases t <;> simp at hpq
    obtain ⟨rfl, rfl⟩ := hpre
    obtain ⟨c1, _, _, c4, c5, c6, _, _⟩ := hcat
    simp only [Region.check_seq]
    obtain ⟨_, _, hb⟩ := Region.check_at BITCT R0 q.chr q.loc q.flag rx (by rw [c1]; exact hrx)
      i h1 (by rw [c4]; exact hin) (by rw [c6]; exact hcur)
    rw [hb, c5]
    obtain ⟨_, s2, _, _⟩ := sweep_spec rx q.loc (R.m_region_list.getD i []) hs
      ((R.m_region_list.getD i []).length - R0.m_snp_check_index.getD i 0)
      (R0.m_snp_check_index.getD i 0) (le_refl _) hd
    simp only [Bool.or_eq_true, Bool.and_eq_true, decide_eq_true_eq, s2, hflag, and_true,
      region_bound.covers, hrx, Option.some.injEq]
    constructor
    · rintro (h | ⟨b, hbm, hbr, h2⟩)
      · exact Or.inl h
      · exact Or.inr ⟨b, hbm, hbr.symm, h2⟩
    · rintro (h | ⟨b, hbm, hbr, h2⟩)
      · exact Or.inl h
      · exact Or.inr ⟨b, hbm, hbr.symm, h2⟩
  | cons y rest ih =>
    intro x R0 hcat hchain rx hrx hd pre q hpq hflag
    cases pre with
    | nil => simp at hpq
    | cons a pre =>
      simp only [List.cons_append, List.cons.injEq] at hpq
      obtain ⟨rfl, hpq⟩ := hpq
      simp only [Region.check_seq]
      obtain ⟨hxy, hchain'⟩ := List.chain'_cons.mp hchain
      obtain ⟨ra, rb, hra, hrb, hle⟩ := hxy
      rw [hrx] at hra
      cases hra
      obtain ⟨c1, _, _, c4, c5, c6, _, _⟩ := hcat
      obtain ⟨hc, _, _⟩ := Region.check_at BITCT R0 x.chr x.loc x.flag rx
        (by rw [c1]; exact hrx) i h1 (by rw [c4]; exact hin) (by rw [c6]; exact hcur)
      obtain ⟨s1, _, _, _⟩ := sweep_spec rx x.loc (R.m_region_list.getD i []) hs
        ((R.m_region_list.getD i []).length - R0.m_snp_check_index.getD i 0)
        (R0.m_snp_check_index.getD i 0) (le_refl _) hd
      refine ih y (Region.check BITCT R0 x.chr x.loc x.flag).1
        (Region.same_catalog_trans ⟨c1, ‹_›, ‹_›, c4, c5, c6, ‹_›, ‹_›⟩
          (Region.check_catalog BITCT R0 x.chr x.loc x.flag).1)
        hchain' rb hrb ?_ pre q hpq hflag
      rw [hc, c5]
      exact dead_before_mono _ _ _ _ _ _ hle s1

/-! ## C1 – C3: `Region::check` -/

/-- C1. Sweep correctness of `Region::check`: for a non-Base set `i` whose interval list is
sorted non-decreasingly by (chromosome rank, start), with all cursors at 0, and for a
sequence of queries `pre ++ [q]` with known labels in non-decreasing (rank, position) order,
the call for `q` sets bit `i` exactly when some interval of set `i` has the rank of `q` and
`start ≤ position ≤ end`: if the bit was clear in the flag handed in, it is set afterwards
iff such an interval exists, and in general it is set afterwards iff it was set before or
such an interval exists.  Overlapping intervals and intervals with `start > end` are allowed. -/
theorem Region.check_sweep_correct (BITCT : Nat) (R : Region) (i : Nat) (h1 : 1 ≤ i)
    (hin : i < R.m_region_name.length)
    (hzero : R.m_snp_check_index = List.replicate R.m_region_name.length 0)
    (hs : (R.m_region_list.getD i []).Pairwise region_bound.le_start)
    (pre : List snp_query) (q : snp_query)
    (hknown : ∀ x ∈ pre ++ [q], R.m_chr_order x.chr ≠ none)
    (hord : List.Chain' (snp_query.le R.m_chr_order) (pre ++ [q]))
    (hflag : i / BITCT < q.flag.length) :
    (flag_bit BITCT q.flag i = false →
      (flag_bit BITCT
          (Region.check BITCT (Region.check_seq BITCT R pre) q.chr q.loc q.flag).2 i = true ↔
        ∃ b ∈ R.m_region_list.getD i [],
          R.m_chr_order q.chr = some b.chr ∧ b.start ≤ q.loc ∧ q.loc ≤ b.end_)) ∧
    (flag_bit BITCT
        (Region.check BITCT (Region.check_seq BITCT R pre) q.chr q.loc q.flag).2 i = true ↔
      flag_bit BITCT q.flag i = true ∨
        ∃ b ∈ R.m_region_list.getD i [],
          R.m_chr_order q.chr = some b.chr ∧ b.start ≤ q.loc ∧ q.loc ≤ b.end_) := by
  have hcur : i < R.m_snp_check_index.length := by rw [hzero]; simpa using hin
  have hc0 : R.m_snp_check_index.getD i 0 = 0 := by
    rw [hzero, List.getD_eq_getElem _ _ (by simpa using hin)]; simp
  have hgen : flag_bit BITCT
        (Region.check BITCT (Region.check_seq BITCT R pre) q.chr q.loc q.flag).2 i = true ↔
      flag_bit BITCT q.flag i = true ∨
        ∃ b ∈ R.m_region_list.getD i [],
          R.m_chr_order q.chr = some b.chr ∧ b.start ≤ q.loc ∧ q.loc ≤ b.end_ := by
    cases hpq : pre ++ [q] with
    | nil => simp at hpq
    | cons x rest =>
      have hx : R.m_chr_order x.chr ≠ none := hknown x (by rw [hpq]; simp)
      obtain ⟨rx, hrx⟩ := Option.ne_none_iff_exists'.mp hx
      rw [hpq] at hord
      refine Region.check_seq_bit BITCT R i h1 hin hcur hs rest x R
        (Region.same_catalog_refl R) hord rx hrx ?_ pre q hpq.symm hflag
      rw [hc0]
      intro j hj; omega
  refine ⟨fun hclear => ?_, hgen⟩
  rw [hgen, hclear]
  simp

/-- Witness for C1 on `sample_region`: after the query at 7, the query at 25 sets bit 1. -/
theorem Region.check_sweep_correct_witness :
    flag_bit 64
      (Region.check 64 (Region.check_seq 64 sample_region [⟨"chr1", 7, [0]⟩]) "chr1" 25 [0]).2 1
      = true :=
  ((Region.check_sweep_correct 64 sample_region 1 (by decide) (by decide) (by decide)
      (by simp [sample_region, region_bound.le_start])
      [⟨"chr1", 7, [0]⟩] ⟨"chr1", 25, [0]⟩
      (by simp [sample_region, sample_chr_order])
      (by
        simp only [List.singleton_append, List.chain'_cons, List.chain'_singleton, and_true]
        exact ⟨1, 1, by simp [sample_region, sample_chr_order],
          by simp [sample_region, sample_chr_order], Or.inr ⟨rfl, by decide⟩⟩)
      (by decide)).1 (by decide)).mpr
    ⟨⟨1, 20, 30⟩, by simp [sample_region], by simp [sample_region, sample_chr_order],
      by decide, by decide⟩

/-- C2. Inclusive boundaries in `Region::check`: for a set `i` that holds the single
interval `[s, e]` on rank `r` with `1 ≤ s ≤ e` and whose cursor is 0, querying the positions
`s - 1`, `s`, `e`, `e + 1` on rank `r` in that order (each with a flag whose bit `i` is
clear) yields membership false, true, true, false. -/
theorem Region.check_inclusive_boundaries (BITCT : Nat) (R : Region) (i : Nat) (h1 : 1 ≤ i)
    (hin : i < R.m_region_name.length) (hlen : i < R.m_snp_check_index.length)
    (hcur : R.m_snp_check_index.getD i 0 = 0)
    (r : Int) (s e : Nat) (hset : R.m_region_list.getD i [] = [⟨r, s, e⟩])
    (hs : 1 ≤ s) (hse : s ≤ e) (chr : String) (hchr : R.m_chr_order chr = some r)
    (f1 f2 f3 f4 : List Nat)
    (hf : ∀ f ∈ [f1, f2, f3, f4], i / BITCT < f.length ∧ flag_bit BITCT f i = false) :
    flag_bit BITCT (Region.check BITCT R chr (s - 1) f1).2 i = false ∧
    flag_bit BITCT
      (Region.check BITCT (Region.check BITCT R chr (s - 1) f1).1 chr s f2).2 i = true ∧
    flag_bit BITCT
      (Region.check BITCT
        (Region.check BITCT (Region.check BITCT R chr (s - 1) f1).1 chr s f2).1 chr e f3).2 i
      = true ∧
    flag_bit BITCT
      (Region.check BITCT
        (Region.check BITCT
          (Region.check BITCT (Region.check BITCT R chr (s - 1) f1).1 chr s f2).1 chr e f3).1
        chr (e + 1) f4).2 i = false := by
  have hsorted : (R.m_region_list.getD i []).Pairwise region_bound.le_start := by
    rw [hset]; simp
  have hle : ∀ (a b : Nat) (fa fb : List Nat), a ≤ b →
      snp_query.le R.m_chr_order ⟨chr, a, fa⟩ ⟨chr, b, fb⟩ :=
    fun a b fa fb hab => ⟨r, r, hchr, hchr, Or.inr ⟨rfl, hab⟩⟩
  have key : ∀ (pre : List snp_query) (q : snp_query) (x : snp_query) (rest : List snp_query),
      x :: rest = pre ++ [q] → x.chr = chr → q.chr = chr →
      List.Chain' (snp_query.le R.m_chr_order) (x :: rest) →
      i / BITCT < q.flag.length → flag_bit BITCT q.flag i = false →
      (flag_bit BITCT
          (Region.check BITCT (Region.check_seq BITCT R pre) chr q.loc q.flag).2 i = true ↔
        s ≤ q.loc ∧ q.loc ≤ e) := by
    intro pre q x rest hpq hx hq hchain hflag hclear
    have := Region.check_seq_bit BITCT R i h1 hin hlen hsorted rest x R
      (Region.same_catalog_refl R) hchain r (by rw [hx]; exact hchr)
      (by rw [hcur]; intro j hj; omega) pre q hpq hflag
    rw [hq] at this
    rw [this, hclear, hset, hchr]
    simp
  obtain ⟨hf1, hf2, hf3, hf4⟩ : (i / BITCT < f1.length ∧ flag_bit BITCT f1 i = false) ∧
      (i / BITCT < f2.length ∧ flag_bit BITCT f2 i = false) ∧
      (i / BITCT < f3.length ∧ flag_bit BITCT f3 i = false) ∧
      (i / BITCT < f4.length ∧ flag_bit BITCT f4 i = false) :=
    ⟨hf f1 (by simp), hf f2 (by simp), hf f3 (by simp), hf f4 (by simp)⟩
  have c12 := hle (s - 1) s f1 f2 (by omega)
  have c23 := hle s e f2 f3 hse
  have c34 := hle e (e + 1) f3 f4 (by omega)
  have k1 := key [] ⟨chr, s - 1, f1⟩ ⟨chr, s - 1, f1⟩ [] rfl rfl rfl
    (List.chain'_singleton _) hf1.1 hf1.2
  have k2 := key [⟨chr, s - 1, f1⟩] ⟨chr, s, f2⟩ ⟨chr, s - 1, f1⟩ [⟨chr, s, f2⟩] rfl rfl rfl
    (List.chain'_cons.mpr ⟨c12, List.chain'_singleton _⟩) hf2.1 hf2.2
  have k3 := key [⟨chr, s - 1, f1⟩, ⟨chr, s, f2⟩] ⟨chr, e, f3⟩ ⟨chr, s - 1, f1⟩
    [⟨chr, s, f2⟩, ⟨chr, e, f3⟩] rfl rfl rfl
    (List.chain'_cons.mpr ⟨c12, List.chain'_cons.mpr ⟨c23, List.chain'_singleton _⟩⟩)
    hf3.1 hf3.2
  have k4 := key [⟨chr, s - 1, f1⟩, ⟨chr, s, f2⟩, ⟨chr, e, f3⟩] ⟨chr, e + 1, f4⟩
    ⟨chr, s - 1, f1⟩ [⟨chr, s, f2⟩, ⟨chr, e, f3⟩, ⟨chr, e + 1, f4⟩] rfl rfl rfl
    (List.chain'_cons.mpr ⟨c12, List.chain'_cons.mpr
      ⟨c23, List.chain'_cons.mpr ⟨c34, List.chain'_singleton _⟩⟩⟩)
    hf4.1 hf4.2
  simp only [Region.check_seq] at k1 k2 k3 k4
  refine ⟨?_, k2.mpr ⟨le_refl _, hse⟩, k3.mpr ⟨hse, le_refl _⟩, ?_⟩
  · rw [← Bool.not_eq_true, k1]; omega
  · rw [← Bool.not_eq_true, k4]; omega

/-- Witness for C2: the interval `[5, 10]` with the queries 4, 5, 10, 11. -/
theorem Region.check_inclusive_boundaries_witness :
    flag_bit 64 (Region.check 64 sample_region_single "chr1" 4 [0]).2 1 = false ∧
    flag_bit 64
      (Region.check 64 (Region.check 64 sample_region_single "chr1" 4 [0]).1 "chr1" 5 [0]).2 1
      = true ∧
    flag_bit 64
      (Region.check 64
        (Region.check 64 (Region.check 64 sample_region_single "chr1" 4 [0]).1 "chr1" 5 [0]).1
        "chr1" 10 [0]).2 1 = true ∧
    flag_bit 64
      (Region.check 64
        (Region.check 64
          (Region.check 64 (Region.check 64 sample_region_single "chr1" 4 [0]).1 "chr1" 5 [0]).1
          "chr1" 10 [0]).1
        "chr1" 11 [0]).2 1 = false :=
  Region.check_inclusive_boundaries 64 sample_region_single 1 (by decide) (by decide)
    (by decide) (by decide) 1 5 10 (by decide) (by decide) (by decide) "chr1" (by decide)
    [0] [0] [0] [0] (by decide)

/-- C3, counterexample. With counter 0 at 2147483647, the largest `int`, a call of
`Region::check` does not increment it by one: the counter wraps to -2147483648. -/
theorem check_base_counter_wraps_counterexample :
    sample_region_full.m_region_snp_count.getD 0 0 = 2147483647 ∧
    (Region.check 64 sample_region_full "chr1" 7 [0]).1.m_region_snp_count.getD 0 0 =
      -2147483648 ∧
    (Region.check 64 sample_region_full "chr1" 7 [0]).1.m_region_snp_count.getD 0 0 ≠
      sample_region_full.m_region_snp_count.getD 0 0 + 1 := by
  refine ⟨by decide, by decide, by decide⟩

/-- C3, amended. Base is unconditional and unknown chromosomes touch nothing else: every
call of `Region::check` (on a non-empty flag and counter array) sets bit 0 of the flag and
applies `++` to counter 0, which increments it by exactly one whenever counter 0 is an `int`
below 2147483647; when the label is not a key of the chromosome-order table the call leaves
every cursor, every counter other than counter 0 and every flag bit other than bit 0
unchanged (as well as the catalogue and the sizes of the arrays). -/
theorem Region.check_base_unconditional (BITCT : Nat) (R : Region) (chr : String) (loc : Nat)
    (flag : List Nat) (hflag : 0 < flag.length) (hcnt : 0 < R.m_region_snp_count.length) :
    flag_bit BITCT (Region.check BITCT R chr loc flag).2 0 = true ∧
    (Region.check BITCT R chr loc flag).1.m_region_snp_count.getD 0 0 =
      int_incr (R.m_region_snp_count.getD 0 0) ∧
    (-2147483648 ≤ R.m_region_snp_count.getD 0 0 → R.m_region_snp_count.getD 0 0 < 2147483647 →
      (Region.check BITCT R chr loc flag).1.m_region_snp_count.getD 0 0 =
        R.m_region_snp_count.getD 0 0 + 1) ∧
    (R.m_chr_order chr = none →
      (Region.check BITCT R chr loc flag).1.m_snp_check_index = R.m_snp_check_index ∧
      (∀ j, j ≠ 0 → (Region.check BITCT R chr loc flag).1.m_region_snp_count[j]? =
        R.m_region_snp_count[j]?) ∧
      (∀ j, j ≠ 0 → flag_bit BITCT (Region.check BITCT R chr loc flag).2 j =
        flag_bit BITCT flag j) ∧
      (∀ w b, ¬ (w = 0 ∧ b = 0) →
        ((Region.check BITCT R chr loc flag).2.getD w 0).testBit b =
          (flag.getD w 0).testBit b) ∧
      Region.same_catalog R (Region.check BITCT R chr loc flag).1 ∧
      (Region.check BITCT R chr loc flag).2.length = flag.length) := by
  have hbit0 : ((flag.set 0 (flag.getD 0 0 ||| ONELU)).getD 0 0).testBit 0 = true := by
    rw [list_getD_set_self _ _ _ _ hflag, Nat.testBit_or]
    simp [ONELU]
  have hcnt0 : (R.m_region_snp_count.set 0 (int_incr (R.m_region_snp_count.getD 0 0))).getD 0 0 =
      int_incr (R.m_region_snp_count.getD 0 0) := list_getD_set_self _ _ _ _ hcnt
  have hfb : ∀ f : List Nat, flag_bit BITCT f 0 = (f.getD 0 0).testBit 0 := by
    intro f; simp [flag_bit]
  have hincr : (Region.check BITCT R chr loc flag).1.m_region_snp_count.getD 0 0 =
      int_incr (R.m_region_snp_count.getD 0 0) := by
    cases h : R.m_chr_order chr with
    | none => rw [Region.check_unknown BITCT R chr loc flag h]; exact hcnt0
    | some r =>
      rw [Region.check_known BITCT R chr loc flag r h]
      rw [((Region.check_for_frame BITCT r loc _ 1 _).2.2.1 0 (Or.inl (by omega))).2.1]
      exact hcnt0
  refine ⟨?_, hincr, fun hlo hhi => by rw [hincr, int_incr_eq _ hlo hhi], ?_⟩
  · rw [hfb]
    cases h : R.m_chr_order chr with
    | none => rw [Region.check_unknown BITCT R chr loc flag h]; exact hbit0
    | some r =>
      rw [Region.check_known BITCT R chr loc flag r h]
      exact (Region.check_for_frame BITCT r loc _ 1 _).2.2.2 0 0 hbit0
  · intro h
    have hcat := Region.check_catalog BITCT R chr loc flag
    rw [Region.check_unknown BITCT R chr loc flag h] at hcat ⊢
    refine ⟨rfl, ?_, ?_, ?_, hcat.1, hcat.2⟩
    · intro j hj
      exact List.getElem?_set_ne (Ne.symm hj)
    · intro j hj
      rw [flag_bit_base]; simp [hj]
    · intro w b hwb
      dsimp only
      by_cases hw : w = 0
      · subst hw
        have hb : b ≠ 0 := fun hb => hwb ⟨rfl, hb⟩
        rw [list_getD_set_self _ _ _ _ hflag, Nat.testBit_or]
        have : Nat.testBit ONELU b = false := by
          have := @Nat.testBit_two_pow 0 b
          simp only [pow_zero] at this
          rw [ONELU, this]; simp; omega
        rw [this, Bool.or_false]
      · simp only [List.getD_eq_getElem?_getD]
        rw [List.getElem?_set_ne (Ne.symm hw)]

/-- Witness for C3 (amended) on `sample_region` with the unknown label `chrX`: counter 0
goes from 0 to 1. -/
theorem Region.check_base_unconditional_witness :
    flag_bit 64 (Region.check 64 sample_region "chrX" 7 [0]).2 0 = true ∧
    (Region.check 64 sample_region "chrX" 7 [0]).1.m_region_snp_count.getD 0 0 =
      sample_region.m_region_snp_count.getD 0 0 + 1 ∧
    (Region.check 64 sample_region "chrX" 7 [0]).1.m_snp_check_index = [0, 0] :=
  have h := Region.check_base_unconditional 64 sample_region "chrX" 7 [0] (by decide)
    (by decide)
  ⟨h.1, h.2.2.1 (by decide) (by decide), (h.2.2.2 (by decide)).1⟩

/-! ## C4 – C8: loading BED files, names, catalogue size -/

theorem size_t_of_int_eq (z : Int) (h1 : 0 ≤ z) (h2 : z < 18446744073709551616) :
    size_t_of_int z = z.toNat := by
  unfold size_t_of_int
  norm_num
  rw [Int.emod_eq_of_lt h1 h2]

/-- C4. BED coordinate conversion in `Region::process_bed`: a line with at least 3 columns
whose chromosome label is known (rank `r`) and whose second and third columns convert to
non-negative integers `s` and `e`, with `s + 1` and `e + 1` representable as `int`, adds
exactly the interval `(r, s + 1, e + 1)` to the intervals collected for the file. -/
theorem Region.process_bed_conversion (E : Env) (R : Region) (line : String)
    (rest : List String) (current_region : List region_bound) (r s e : Int)
    (hline : E.trim line ≠ "")
    (hcols : 3 ≤ (E.split (E.trim line) default_separators).length)
    (hchr : R.m_chr_order ((E.split (E.trim line) default_separators).getD 0 "") = some r)
    (hs : E.convert ((E.split (E.trim line) default_separators).getD 1 "") = some s)
    (he : E.convert ((E.split (E.trim line) default_separators).getD 2 "") = some e)
    (hs0 : 0 ≤ s) (he0 : 0 ≤ e) (hs1 : s + 1 ≤ 2147483647) (he1 : e + 1 ≤ 2147483647) :
    Region.process_bed_lines E R (line :: rest) current_region =
      Region.process_bed_lines E R rest
        (current_region ++ [⟨r, (s + 1).toNat, (e + 1).toNat⟩]) := by
  have ws : size_t_of_int (int_wrap (s + 1)) = (s + 1).toNat := by
    rw [int_wrap_eq _ (by omega) hs1, size_t_of_int_eq _ (by omega) (by omega)]
  have we : size_t_of_int (int_wrap (e + 1)) = (e + 1).toNat := by
    rw [int_wrap_eq _ (by omega) he1, size_t_of_int_eq _ (by omega) (by omega)]
  rw [Region.process_bed_lines]
  simp only [hline, if_false, hs, he, hchr, ws, we]
  rw [if_neg (by omega), if_pos hs0, if_pos he0]

/-- Witness for C4: the row `chr1 0 10` yields start = 1, end = 11. -/
theorem Region.process_bed_conversion_witness :
    Region.process_bed_lines sample_env sample_fresh ["chr1 0 10"] [] =
      (false, [⟨1, 1, 11⟩]) :=
  (Region.process_bed_conversion sample_env sample_fresh "chr1 0 10" [] [] 1 0 10
    (by decide) (by decide) (by decide) (by decide) (by decide) (by decide) (by decide)
    (by decide) (by decide)).trans rfl

/-- C5 (the code departs from the claim). The comparator handed to `std::sort` is not the
lexicographic order on `(chr, start, end)`: on `t1 = (1, 5, 10)` and `t2 = (1, 3, 7)` it
answers true in both directions, although `t1` is not lexicographically below `t2`; and in
the sample environment (insertion sort driven by this comparator) the BED file with the rows
`chr1 2 6`, `chr1 4 9` is registered as `[(1, 5, 10), (1, 3, 7)]`, which is not ascending by
start. -/
theorem sort_compare_not_lexicographic :
    sort_compare ⟨1, 5, 10⟩ ⟨1, 3, 7⟩ = true ∧
    sort_compare ⟨1, 3, 7⟩ ⟨1, 5, 10⟩ = true ∧
    ¬ spec_lex_lt ⟨1, 5, 10⟩ ⟨1, 3, 7⟩ ∧
    (Region.process_bed sample_env sample_fresh ["b.bed"]).m_region_list =
      [[⟨0, 0, 0⟩], [⟨1, 5, 10⟩, ⟨1, 3, 7⟩]] := by
  refine ⟨by decide, by decide, by decide, by decide⟩

theorem Region.process_bed_lines_error (E : Env) (R : Region) :
    ∀ (lines : List String) (current_region : List region_bound),
      (∃ line ∈ lines, bed_line_malformed E line = true) →
      (Region.process_bed_lines E R lines current_region).1 = true := by
  intro lines
  induction lines with
  | nil => intro _ h; obtain ⟨l, hl, _⟩ := h; cases hl
  | cons line rest ih =>
    intro cur h
    have hrest : (∃ l ∈ rest, bed_line_malformed E l = true) ∨
        bed_line_malformed E line = true := by
      obtain ⟨l, hl, hb⟩ := h
      rcases List.mem_cons.mp hl with rfl | hl
      · exact Or.inr hb
      · exact Or.inl ⟨l, hl, hb⟩
    rw [Region.process_bed_lines]
    dsimp only
    by_cases h0 : E.trim line = ""
    · rw [if_pos h0]
      rcases hrest with hr | hb
      · exact ih cur hr
      · simp [bed_line_malformed, h0] at hb
    · rw [if_neg h0]
      by_cases h3 : (E.split (E.trim line) default_separators).length < 3
      · rw [if_pos h3]
      · rw [if_neg h3]
        cases hs : E.convert ((E.split (E.trim line) default_separators).getD 1 "") with
        | none => rfl
        | some s =>
          dsimp only
          by_cases hs0 : s ≥ 0
          · rw [if_pos hs0]
            cases he : E.convert ((E.split (E.trim line) default_separators).getD 2 "") with
            | none => rfl
            | some e =>
              dsimp only
              by_cases he0 : e ≥ 0
              · rw [if_pos he0]
                have hgood : bed_line_malformed E line = false := by
                  unfold bed_line_malformed bad_coordinate
                  rw [hs, he]
                  have d1 : decide (s < 0) = false := by simpa using hs0
                  have d2 : decide (e < 0) = false := by simpa using he0
                  have d3 : decide ((E.split (E.trim line) default_separators).length < 3)
                      = false := by simpa using h3
                  dsimp only
                  rw [d1, d2, d3]
                  simp
                have hr : ∃ l ∈ rest, bed_line_malformed E l = true := by
                  rcases hrest with hr | hb
                  · exact hr
                  · rw [hgood] at hb; cases hb
                cases R.m_chr_order ((E.split (E.trim line) default_separators).getD 0 "") with
                | none => exact ih _ hr
                | some c => exact ih _ hr
              · rw [if_neg he0]
          · rw [if_neg hs0]

/-- C6. Whole-file discard on a malformed BED record: if some non-blank line of the file `b`
has fewer than 3 columns, or a start or end column that cannot be converted or is negative,
then `Region::process_bed` registers nothing for `b`: the object (name list, interval lists,
set of used names) after the file is the object before it, whatever lines preceded the bad
one, and the remaining files of the list are processed from that unchanged object. -/
theorem Region.process_bed_discards_file (E : Env) (R : Region) (b : String)
    (bed : List String) (lines : List String) (hopen : E.open_file b = some lines)
    (hbad : ∃ line ∈ lines, bed_line_malformed E line = true) :
    Region.process_bed_file E R b = R ∧
      Region.process_bed E R (b :: bed) = Region.process_bed E R bed := by
  have hfile : Region.process_bed_file E R b = R := by
    unfold Region.process_bed_file
    rw [hopen]
    dsimp only
    split_ifs with h1 h2
    · rfl
    · rw [Region.process_bed_lines_error E R lines [] hbad] at h2
      cases h2
    · rfl
  exact ⟨hfile, by rw [Region.process_bed, hfile]⟩

/-- Witness for C6: `bad.bed` has the valid row `chr1 0 10` and then the row `chr1 x 5`. -/
theorem Region.process_bed_discards_file_witness :
    Region.process_bed_file sample_env sample_fresh "bad.bed" = sample_fresh ∧
      Region.process_bed sample_env sample_fresh ["bad.bed", "a.bed"] =
        Region.process_bed sample_env sample_fresh ["a.bed"] :=
  Region.process_bed_discards_file sample_env sample_fresh "bad.bed" ["a.bed"]
    ["chr1 0 10", "chr1 x 5"] (by decide) ⟨"chr1 x 5", by decide, by decide⟩

/-! ### Names during loading -/

theorem Region.names_inv_push (R : Region) (name : String) (l : List region_bound)
    (hinv : R.names_inv) (hnew : name ∉ R.m_duplicated_names) :
    Region.names_inv
      { R with
        m_region_list := R.m_region_list ++ [l]
        m_region_name := R.m_region_name ++ [name]
        m_duplicated_names := R.m_duplicated_names.insert name } := by
  obtain ⟨h1, h2, h3⟩ := hinv
  refine ⟨?_, ?_, ?_⟩
  · dsimp only
    rw [List.nodup_append]
    refine ⟨h1, List.nodup_singleton _, ?_⟩
    intro a ha hb
    rw [List.mem_singleton] at hb
    subst hb
    exact hnew (h2 a ha)
  · intro n hn
    dsimp only at hn ⊢
    rw [List.mem_insert_iff]
    rcases List.mem_append.mp hn with h | h
    · exact Or.inr (h2 n h)
    · exact Or.inl (List.mem_singleton.mp h)
  · simp [h3]

/-- One BED file either leaves the object as it is or appends one name and one list. -/
theorem Region.process_bed_file_cases (E : Env) (R : Region) (b : String) :
    Region.process_bed_file E R b = R ∨
      (b ∉ R.m_duplicated_names ∧ ∃ l,
        Region.process_bed_file E R b =
          { R with
            m_region_list := R.m_region_list ++ [l]
            m_region_name := R.m_region_name ++ [b]
            m_duplicated_names := R.m_duplicated_names.insert b }) := by
  unfold Region.process_bed_file
  cases E.open_file b with
  | none => exact Or.inl rfl
  | some lines =>
    dsimp only
    split_ifs with h1 h2
    · exact Or.inl rfl
    · exact Or.inr ⟨h1, _, rfl⟩
    · exact Or.inl rfl

theorem Region.process_bed_file_inv (E : Env) (R : Region) (b : String) (hinv : R.names_inv) :
    (Region.process_bed_file E R b).names_inv ∧
      R.m_region_name <+: (Region.process_bed_file E R b).m_region_name ∧
      R.m_region_list <+: (Region.process_bed_file E R b).m_region_list := by
  rcases Region.process_bed_file_cases E R b with h | ⟨hnew, l, h⟩
  · rw [h]; exact ⟨hinv, List.prefix_refl _, List.prefix_refl _⟩
  · rw [h]
    exact ⟨Region.names_inv_push R b l hinv hnew, List.prefix_append _ _,
      List.prefix_append _ _⟩

theorem Region.process_bed_inv (E : Env) :
    ∀ (bed : List String) (R : Region), R.names_inv →
      (Region.process_bed E R bed).names_inv ∧
        R.m_region_name <+: (Region.process_bed E R bed).m_region_name ∧
        R.m_region_list <+: (Region.process_bed E R bed).m_region_list := by
  intro bed
  induction bed with
  | nil => intro R hinv; exact ⟨hinv, List.prefix_refl _, List.prefix_refl _⟩
  | cons b bed ih =>
    intro R hinv
    rw [Region.process_bed]
    obtain ⟨a1, a2, a3⟩ := Region.process_bed_file_inv E R b hinv
    obtain ⟨b1, b2, b3⟩ := ih _ a1
    exact ⟨b1, a2.trans b2, a3.trans b3⟩

/-- One line of the gene-set file either leaves the object as it is or appends one name
(column 0, not used before) and one list. -/
theorem Region.process_msigdb_lines_cons (E : Env) (gtf_info : List (String × region_bound))
    (id_to_name : List (String × List String)) (line : String) (rest : List String)
    (R : Region) :
    (Region.process_msigdb_lines E gtf_info id_to_name (line :: rest) R =
        Region.process_msigdb_lines E gtf_info id_to_name rest R ∧
      ¬ (E.trim line ≠ "" ∧ 2 ≤ (E.split (E.trim line) default_separators).length ∧
          (E.split (E.trim line) default_separators).getD 0 "" ∉ R.m_duplicated_names)) ∨
      ((E.trim line ≠ "" ∧ 2 ≤ (E.split (E.trim line) default_separators).length ∧
          (E.split (E.trim line) default_separators).getD 0 "" ∉ R.m_duplicated_names) ∧
        ∃ l, Region.process_msigdb_lines E gtf_info id_to_name (line :: rest) R =
          Region.process_msigdb_lines E gtf_info id_to_name rest
            { R with
              m_region_list := R.m_region_list ++ [l]
              m_region_name :=
                R.m_region_name ++ [(E.split (E.trim line) default_separators).getD 0 ""]
              m_duplicated_names := R.m_duplicated_names.insert
                ((E.split (E.trim line) default_separators).getD 0 "") }) := by
  rw [Region.process_msigdb_lines]
  dsimp only
  by_cases h0 : E.trim line = ""
  · rw [if_pos h0]; exact Or.inl ⟨rfl, fun h => h.1 h0⟩
  · rw [if_neg h0]
    by_cases h2 : (E.split (E.trim line) default_separators).length < 2
    · rw [if_pos h2]; exact Or.inl ⟨rfl, fun h => by omega⟩
    · rw [if_neg h2]
      by_cases h3 : (E.split (E.trim line) default_separators).getD 0 "" ∉ R.m_duplicated_names
      · rw [if_pos h3]; exact Or.inr ⟨⟨h0, by omega, h3⟩, _, rfl⟩
      · rw [if_neg h3]; exact Or.inl ⟨rfl, fun h => h3 h.2.2⟩

theorem Region.process_msigdb_lines_inv (E : Env) (gtf_info : List (String × region_bound))
    (id_to_name : List (String × List String)) :
    ∀ (lines : List String) (R : Region), R.names_inv →
      (Region.process_msigdb_lines E gtf_info id_to_name lines R).names_inv ∧
        R.m_region_name <+:
          (Region.process_msigdb_lines E gtf_info id_to_name lines R).m_region_name ∧
        R.m_region_list <+:
          (Region.process_msigdb_lines E gtf_info id_to_name lines R).m_region_list := by
  intro lines
  induction lines with
  | nil => intro R hinv; exact ⟨hinv, List.prefix_refl _, List.prefix_refl _⟩
  | cons line rest ih =>
    intro R hinv
    rcases Region.process_msigdb_lines_cons E gtf_info id_to_name line rest R with
      ⟨h, _⟩ | ⟨⟨_, _, hnew⟩, l, h⟩
    · rw [h]; exact ih R hinv
    · rw [h]
      obtain ⟨b1, b2, b3⟩ := ih _ (Region.names_inv_push R _ l hinv hnew)
      exact ⟨b1, (List.prefix_append _ _).trans b2, (List.prefix_append _ _).trans b3⟩

theorem Region.process_msigdb_inv (E : Env) (R : Region) (msigdb : String)
    (gtf_info : List (String × region_bound)) (id_to_name : List (String × List String))
    (hinv : R.names_inv) :
    (Region.process_msigdb E R msigdb gtf_info id_to_name).names_inv ∧
      R.m_region_name <+: (Region.process_msigdb E R msigdb gtf_info id_to_name).m_region_name ∧
      R.m_region_list <+: (Region.process_msigdb E R msigdb gtf_info id_to_name).m_region_list := by
  unfold Region.process_msigdb
  split_ifs
  · exact ⟨hinv, List.prefix_refl _, List.prefix_refl _⟩
  · cases E.open_file msigdb with
    | none => exact ⟨hinv, List.prefix_refl _, List.prefix_refl _⟩
    | some lines => exact Region.process_msigdb_lines_inv E gtf_info id_to_name lines R hinv

theorem Region.run_gtf_inv (E : Env) (R : Region) (gtf msigdb : String) (hinv : R.names_inv) :
    (Region.run_gtf E R gtf msigdb).names_inv := by
  unfold Region.run_gtf
  split_ifs
  · dsimp only
    split_ifs
    · exact (Region.process_msigdb_inv E R msigdb _ _ hinv).1
    · exact hinv
  · exact hinv

theorem Region.create_inv (feature : List String) (chr_order : String → Option Int) :
    (Region.create feature chr_order).names_inv := by
  refine ⟨?_, ?_, ?_⟩ <;> simp [Region.create]

/-- C7. Name uniqueness and duplicate rejection.  The constructor establishes the loading
invariant (registered names pairwise distinct and all marked as used, "Base" included), and
`Region::process_bed` and `Region::process_msigdb` keep it, so the names stay pairwise
distinct throughout loading and after `Region::run`.  Both loaders only append: the names and
interval lists registered before are a prefix of those registered after.  Registering a BED
path that is already a registered name leaves the whole object unchanged, and a gene-set
line whose name (column 0) is already registered is skipped without any change. -/
theorem Region.names_stay_unique (E : Env) (feature : List String)
    (chr_order : String → Option Int) (R : Region) (hinv : R.names_inv)
    (gtf msigdb out : String) (bed : List String)
    (gtf_info : List (String × region_bound)) (id_to_name : List (String × List String)) :
    (Region.create feature chr_order).names_inv ∧
    (Region.process_bed E R bed).names_inv ∧
    (Region.process_msigdb E R msigdb gtf_info id_to_name).names_inv ∧
    (Region.run E (Region.create feature chr_order) gtf msigdb bed out).m_region_name.Nodup ∧
    R.m_region_name <+: (Region.process_bed E R bed).m_region_name ∧
    R.m_region_list <+: (Region.process_bed E R bed).m_region_list ∧
    R.m_region_name <+: (Region.process_msigdb E R msigdb gtf_info id_to_name).m_region_name ∧
    R.m_region_list <+: (Region.process_msigdb E R msigdb gtf_info id_to_name).m_region_list ∧
    (∀ b, b ∈ R.m_region_name → Region.process_bed_file E R b = R) ∧
    (∀ line rest, (E.split (E.trim line) default_separators).getD 0 "" ∈ R.m_region_name →
      Region.process_msigdb_lines E gtf_info id_to_name (line :: rest) R =
        Region.process_msigdb_lines E gtf_info id_to_name rest R) := by
  obtain ⟨a1, a2, a3⟩ := Region.process_bed_inv E bed R hinv
  obtain ⟨b1, b2, b3⟩ := Region.process_msigdb_inv E R msigdb gtf_info id_to_name hinv
  refine ⟨Region.create_inv feature chr_order, a1, b1, ?_, a2, a3, b2, b3, ?_, ?_⟩
  · have h1 := (Region.process_bed_inv E bed _ (Region.create_inv feature chr_order)).1
    have h2 : Region.names_inv
        { Region.process_bed E (Region.create feature chr_order) bed with
          m_out_prefix := out } := h1
    exact (Region.run_gtf_inv E _ gtf msigdb h2).1
  · intro b hb
    rcases Region.process_bed_file_cases E R b with h | ⟨hnew, _, _⟩
    · exact h
    · exact absurd (hinv.2.1 b hb) hnew
  · intro line rest hl
    rcases Region.process_msigdb_lines_cons E gtf_info id_to_name line rest R with
      ⟨h, _⟩ | ⟨⟨_, _, hnew⟩, _, _⟩
    · exact h
    · exact absurd (hinv.2.1 _ hl) hnew

/-- Witness for C7: after `a.bed` is registered, registering `a.bed` again changes nothing. -/
theorem Region.names_stay_unique_witness :
    Region.process_bed_file sample_env (Region.process_bed sample_env sample_fresh ["a.bed"])
        "a.bed" = Region.process_bed sample_env sample_fresh ["a.bed"] :=
  (Region.names_stay_unique sample_env ["gene"] sample_chr_order
    (Region.process_bed sample_env sample_fresh ["a.bed"])
    ⟨by decide, by decide, by decide⟩ "genes.gtf" "sets.gmt" "out" ["a.bed"] [] []).2.2.2.2.2.2.2.2.1
    "a.bed" (by decide)

/-! ### Catalogue size -/

theorem Region.process_bed_lines_ok (E : Env) (R : Region) :
    ∀ (lines : List String) (current_region : List region_bound),
      (∀ line ∈ lines, bed_line_malformed E line = false) →
      (Region.process_bed_lines E R lines current_region).1 = false := by
  intro lines
  induction lines with
  | nil => intro _ _; rfl
  | cons line rest ih =>
    intro cur h
    have hrest : ∀ l ∈ rest, bed_line_malformed E l = false :=
      fun l hl => h l (List.mem_cons_of_mem _ hl)
    have hline := h line (List.mem_cons_self _ _)
    rw [Region.process_bed_lines]
    dsimp only
    by_cases h0 : E.trim line = ""
    · rw [if_pos h0]; exact ih cur hrest
    · rw [if_neg h0]
      unfold bed_line_malformed bad_coordinate at hline
      have d0 : decide (E.trim line ≠ "") = true := by simpa using h0
      rw [d0, Bool.true_and, Bool.or_eq_false_iff, Bool.or_eq_false_iff] at hline
      obtain ⟨⟨c1, c2⟩, c3⟩ := hline
      rw [if_neg (by simpa using c1)]
      cases hs : E.convert ((E.split (E.trim line) default_separators).getD 1 "") with
      | none => rw [hs] at c2; cases c2
      | some s =>
        rw [hs] at c2
        dsimp only at c2 ⊢
        rw [if_pos (by simpa using c2)]
        cases he : E.convert ((E.split (E.trim line) default_separators).getD 2 "") with
        | none => rw [he] at c3; cases c3
        | some e =>
          rw [he] at c3
          dsimp only at c3 ⊢
          rw [if_pos (by simpa using c3)]
          cases R.m_chr_order ((E.split (E.trim line) default_separators).getD 0 "") with
          | none => exact ih _ hrest
          | some c => exact ih _ hrest

theorem Region.process_bed_file_ok (E : Env) (R : Region) (b : String) (lines : List String)
    (hopen : E.open_file b = some lines)
    (hok : ∀ line ∈ lines, bed_line_malformed E line = false)
    (hnew : b ∉ R.m_duplicated_names) :
    ∃ l, Region.process_bed_file E R b =
      { R with
        m_region_list := R.m_region_list ++ [l]
        m_region_name := R.m_region_name ++ [b]
        m_duplicated_names := R.m_duplicated_names.insert b } := by
  unfold Region.process_bed_file
  rw [hopen]
  dsimp only
  rw [if_neg hnew, Region.process_bed_lines_ok E R lines [] hok]
  exact ⟨_, rfl⟩

theorem Region.process_bed_all_ok (E : Env) :
    ∀ (bed : List String) (R : Region), bed.Nodup → (∀ b ∈ bed, b ∉ R.m_duplicated_names) →
      (∀ b ∈ bed, ∃ lines, E.open_file b = some lines ∧
        ∀ line ∈ lines, bed_line_malformed E line = false) →
      (Region.process_bed E R bed).m_region_name = R.m_region_name ++ bed ∧
      (Region.process_bed E R bed).m_region_list.length = R.m_region_list.length + bed.length ∧
      (∀ n, n ∈ (Region.process_bed E R bed).m_duplicated_names ↔
        n ∈ R.m_duplicated_names ∨ n ∈ bed) ∧
      (Region.process_bed E R bed).m_chr_order = R.m_chr_order ∧
      (Region.process_bed E R bed).m_gtf_feature = R.m_gtf_feature := by
  intro bed
  induction bed with
  | nil => intro R _ _ _; simp [Region.process_bed]
  | cons b bed ih =>
    intro R hnd hnew hfiles
    obtain ⟨lines, hopen, hok⟩ := hfiles b (List.mem_cons_self _ _)
    obtain ⟨l, hl⟩ := Region.process_bed_file_ok E R b lines hopen hok
      (hnew b (List.mem_cons_self _ _))
    rw [Region.process_bed, hl]
    obtain ⟨hb, hnd'⟩ := List.nodup_cons.mp hnd
    obtain ⟨c1, c2, c3, c4, c5⟩ := ih
      { R with
        m_region_list := R.m_region_list ++ [l]
        m_region_name := R.m_region_name ++ [b]
        m_duplicated_names := R.m_duplicated_names.insert b } hnd'
      (by
        intro x hx hmem
        dsimp only at hmem
        rcases List.mem_insert_iff.mp hmem with h | h
        · subst h; exact hb hx
        · exact hnew x (List.mem_cons_of_mem _ hx) h)
      (fun x hx => hfiles x (List.mem_cons_of_mem _ hx))
    refine ⟨?_, ?_, ?_, c4, c5⟩
    · rw [c1]; simp
    · rw [c2]; simp; omega
    · intro n
      rw [c3]
      dsimp only
      rw [List.mem_insert_iff, List.mem_cons]
      tauto

theorem msigdb_row_names_cons (E : Env) (line : String) (rest : List String) :
    msigdb_row_names E (line :: rest) =
      if E.trim line ≠ "" ∧ 2 ≤ (E.split (E.trim line) default_separators).length then
        (E.split (E.trim line) default_separators).getD 0 "" :: msigdb_row_names E rest
      else msigdb_row_names E rest := by
  unfold msigdb_row_names
  rw [List.filterMap_cons]
  split_ifs <;> rfl

theorem Region.process_msigdb_lines_count (E : Env) (gtf_info : List (String × region_bound))
    (id_to_name : List (String × List String)) :
    ∀ (lines : List String) (R : Region), (msigdb_row_names E lines).Nodup →
      (∀ n ∈ msigdb_row_names E lines, n ∉ R.m_duplicated_names) →
      (Region.process_msigdb_lines E gtf_info id_to_name lines R).m_region_name =
        R.m_region_name ++ msigdb_row_names E lines ∧
      (Region.process_msigdb_lines E gtf_info id_to_name lines R).m_region_list.length =
        R.m_region_list.length + (msigdb_row_names E lines).length := by
  intro lines
  induction lines with
  | nil => intro R _ _; simp [Region.process_msigdb_lines, msigdb_row_names]
  | cons line rest ih =>
    intro R hnd hnew
    rw [msigdb_row_names_cons] at hnd hnew ⊢
    rcases Region.process_msigdb_lines_cons E gtf_info id_to_name line rest R with
      ⟨h, hno⟩ | ⟨⟨h0, h2, h3⟩, l, h⟩
    · rw [h]
      by_cases hrow : E.trim line ≠ "" ∧ 2 ≤ (E.split (E.trim line) default_separators).length
      · rw [if_pos hrow] at hnew
        exact absurd ⟨hrow.1, hrow.2, hnew _ (List.mem_cons_self _ _)⟩ hno
      · rw [if_neg hrow] at hnd hnew ⊢
        exact ih R hnd hnew
    · rw [h]
      rw [if_pos ⟨h0, h2⟩] at hnd hnew ⊢
      obtain ⟨hb, hnd'⟩ := List.nodup_cons.mp hnd
      obtain ⟨c1, c2⟩ := ih
        { R with
          m_region_list := R.m_region_list ++ [l]
          m_region_name :=
            R.m_region_name ++ [(E.split (E.trim line) default_separators).getD 0 ""]
          m_duplicated_names := R.m_duplicated_names.insert
            ((E.split (E.trim line) default_separators).getD 0 "") } hnd'
        (by
          intro x hx hmem
          dsimp only at hmem
          rcases List.mem_insert_iff.mp hmem with hx' | hx'
          · subst hx'; exact hb hx
          · exact hnew x (List.mem_cons_of_mem _ hx) hx')
      refine ⟨?_, ?_⟩
      · rw [c1]; simp
      · rw [c2]; simp; omega

theorem Region.gtf_read_line_congr (E : Env) (R R' : Region)
    (h1 : R'.m_chr_order = R.m_chr_order) (h2 : R'.m_gtf_feature = R.m_gtf_feature)
    (line : String) : Region.gtf_read_line E R' line = Region.gtf_read_line E R line := by
  unfold Region.gtf_read_line Region.in_feature
  rw [h1, h2]

theorem Region.process_gtf_lines_congr (E : Env) (R R' : Region)
    (h1 : R'.m_chr_order = R.m_chr_order) (h2 : R'.m_gtf_feature = R.m_gtf_feature) :
    ∀ (lines : List String) (rb : List (String × region_bound))
      (idn : List (String × List String)),
      Region.process_gtf_lines E R' lines rb idn = Region.process_gtf_lines E R lines rb idn := by
  intro lines
  induction lines with
  | nil => intro rb idn; rfl
  | cons line rest ih =>
    intro rb idn
    rw [Region.process_gtf_lines, Region.process_gtf_lines,
      Region.gtf_read_line_congr E R R' h1 h2]
    simp only [ih]

theorem Region.process_gtf_congr (E : Env) (R R' : Region)
    (h1 : R'.m_chr_order = R.m_chr_order) (h2 : R'.m_gtf_feature = R.m_gtf_feature)
    (gtf : String) (idn : List (String × List String)) :
    Region.process_gtf E R' gtf idn = Region.process_gtf E R gtf idn := by
  unfold Region.process_gtf
  simp only [Region.process_gtf_lines_congr E R R' h1 h2]

theorem Region.run_gtf_loaded (E : Env) (R : Region) (gtf msigdb : String)
    (gene_sets : List String) (gtf_boundary : List (String × region_bound))
    (id_to_name : List (String × List String)) (hgtf : gtf ≠ "")
    (hmap : Region.process_gtf E R gtf [] = Except.ok (gtf_boundary, id_to_name))
    (hne : gtf_boundary ≠ []) (hmsigdb : msigdb ≠ "")
    (hopen : E.open_file msigdb = some gene_sets) :
    Region.run_gtf E R gtf msigdb =
      Region.process_msigdb_lines E gtf_boundary id_to_name gene_sets R := by
  have hlen : gtf_boundary.length ≠ 0 := by
    intro h; exact hne (List.length_eq_zero.mp h)
  unfold Region.run_gtf
  rw [if_pos hgtf, hmap]
  dsimp only
  rw [if_pos hlen]
  unfold Region.process_msigdb
  rw [if_neg (by rintro (h | h); exact hmsigdb h; exact hlen h), hopen]

/-- C8. Catalogue size after `Region::run`: when the `k` BED files have pairwise distinct
names different from "Base" and each loads without error (it opens and has no malformed
line), the GTF file gives a non-empty boundary map, and the gene-set file opens and its rows
with at least 2 tokens have pairwise distinct names that are not registered yet (`m` such
rows), then the catalogue holds exactly `1 + k + m` sets (Base, the BED paths, the row
names, in this order), the name list and the list of interval lists have that length, and
the cursor and counter arrays have that length with all entries zero. -/
theorem Region.run_catalog_size (E : Env) (feature : List String)
    (chr_order : String → Option Int) (gtf msigdb out : String) (bed : List String)
    (gene_sets : List String) (gtf_boundary : List (String × region_bound))
    (id_to_name : List (String × List String))
    (hbed : bed.Nodup) (hbase : "Base" ∉ bed)
    (hfiles : ∀ b ∈ bed, ∃ lines, E.open_file b = some lines ∧
      ∀ line ∈ lines, bed_line_malformed E line = false)
    (hgtf : gtf ≠ "")
    (hmap : Region.process_gtf E (Region.create feature chr_order) gtf [] =
      Except.ok (gtf_boundary, id_to_name))
    (hne : gtf_boundary ≠ []) (hmsigdb : msigdb ≠ "")
    (hopen : E.open_file msigdb = some gene_sets)
    (hrows : (msigdb_row_names E gene_sets).Nodup)
    (hfresh : ∀ n ∈ msigdb_row_names E gene_sets, n ≠ "Base" ∧ n ∉ bed) :
    (Region.run E (Region.create feature chr_order) gtf msigdb bed out).m_region_name =
      "Base" :: bed ++ msigdb_row_names E gene_sets ∧
    (Region.run E (Region.create feature chr_order) gtf msigdb bed out).m_region_name.length =
      1 + bed.length + (msigdb_row_names E gene_sets).length ∧
    (Region.run E (Region.create feature chr_order) gtf msigdb bed out).m_region_list.length =
      1 + bed.length + (msigdb_row_names E gene_sets).length ∧
    (Region.run E (Region.create feature chr_order) gtf msigdb bed out).m_snp_check_index =
      List.replicate (1 + bed.length + (msigdb_row_names E gene_sets).length) 0 ∧
    (Region.run E (Region.create feature chr_order) gtf msigdb bed out).m_region_snp_count =
      List.replicate (1 + bed.length + (msigdb_row_names E gene_sets).length) 0 := by
  obtain ⟨c1, c2, c3, c4, c5⟩ := Region.process_bed_all_ok E bed
    (Region.create feature chr_order) hbed
    (by
      intro b hb hmem
      simp only [Region.create, List.mem_singleton] at hmem
      exact hbase (hmem ▸ hb))
    hfiles
  have hmap' : Region.process_gtf E
      { Region.process_bed E (Region.create feature chr_order) bed with m_out_prefix := out }
      gtf [] = Except.ok (gtf_boundary, id_to_name) :=
    (Region.process_gtf_congr E (Region.create feature chr_order)
      { Region.process_bed E (Region.create feature chr_order) bed with m_out_prefix := out }
      c4 c5 gtf []).trans hmap
  have hrun := Region.run_gtf_loaded E
    { Region.process_bed E (Region.create feature chr_order) bed with m_out_prefix := out }
    gtf msigdb gene_sets gtf_boundary id_to_name hgtf hmap' hne hmsigdb hopen
  obtain ⟨d1, d2⟩ := Region.process_msigdb_lines_count E gtf_boundary id_to_name gene_sets
    { Region.process_bed E (Region.create feature chr_order) bed with m_out_prefix := out }
    hrows
    (by
      intro n hn hmem
      have := (c3 n).mp hmem
      simp only [Region.create, List.mem_singleton] at this
      rcases this with h | h
      · exact (hfresh n hn).1 h
      · exact (hfresh n hn).2 h)
  have e1 : (Region.run_gtf E
      { Region.process_bed E (Region.create feature chr_order) bed with m_out_prefix := out }
      gtf msigdb).m_region_name = "Base" :: bed ++ msigdb_row_names E gene_sets := by
    rw [hrun, d1]
    dsimp only
    rw [c1]
    simp [Region.create]
  have e2 : (Region.run_gtf E
      { Region.process_bed E (Region.create feature chr_order) bed with m_out_prefix := out }
      gtf msigdb).m_region_list.length =
        1 + bed.length + (msigdb_row_names E gene_sets).length := by
    rw [hrun, d2]
    dsimp only
    rw [c2]
    simp [Region.create]
  have e3 : (Region.run_gtf E
      { Region.process_bed E (Region.create feature chr_order) bed with m_out_prefix := out }
      gtf msigdb).m_region_name.length =
        1 + bed.length + (msigdb_row_names E gene_sets).length := by
    rw [e1]; simp; omega
  have r1 : (Region.run E (Region.create feature chr_order) gtf msigdb bed out).m_snp_check_index
      = List.replicate (Region.run_gtf E
          { Region.process_bed E (Region.create feature chr_order) bed with
            m_out_prefix := out } gtf msigdb).m_region_name.length 0 := rfl
  have r2 : (Region.run E (Region.create feature chr_order) gtf msigdb bed out).m_region_snp_count
      = List.replicate (Region.run_gtf E
          { Region.process_bed E (Region.create feature chr_order) bed with
            m_out_prefix := out } gtf msigdb).m_region_name.length 0 := rfl
  rw [e3] at r1 r2
  exact ⟨e1, e3, e2, r1, r2⟩

/-- Witness for C8: two BED files and two gene-set rows give a catalogue of 5 sets. -/
theorem Region.run_catalog_size_witness :
    (Region.run sample_env sample_fresh "genes.gtf" "sets.gmt" ["a.bed", "b.bed"]
        "out").m_region_name = ["Base", "a.bed", "b.bed", "setA", "setB"] ∧
    (Region.run sample_env sample_fresh "genes.gtf" "sets.gmt" ["a.bed", "b.bed"]
        "out").m_region_list.length = 5 ∧
    (Region.run sample_env sample_fresh "genes.gtf" "sets.gmt" ["a.bed", "b.bed"]
        "out").m_snp_check_index = [0, 0, 0, 0, 0] ∧
    (Region.run sample_env sample_fresh "genes.gtf" "sets.gmt" ["a.bed", "b.bed"]
        "out").m_region_snp_count = [0, 0, 0, 0, 0] :=
  have h := Region.run_catalog_size sample_env ["gene"] sample_chr_order "genes.gtf"
    "sets.gmt" "out" ["a.bed", "b.bed"] ["setA url G1", "short", "setB url A G2"]
    [("G1", ⟨1, 50, 200⟩), ("G2", ⟨2, 7, 9⟩)] [("A", ["G1", "G2"])]
    (by decide) (by decide)
    (by
      intro b hb
      rcases List.mem_cons.mp hb with rfl | hb
      · exact ⟨["chr1 0 10", "", "chr2 4 9"], by decide, by decide⟩
      · rcases List.mem_cons.mp hb with rfl | hb
        · exact ⟨["chr1 2 6", "chr1 4 9"], by decide, by decide⟩
        · cases hb)
    (by decide) (by decide) (by simp) (by decide) (by decide) (by decide) (by decide)
  ⟨h.1, h.2.2.1, h.2.2.2.1, h.2.2.2.2⟩

/-! ## C9 – C10: `Region::process_gtf` -/

theorem umap_find_set_self {V : Type} (k : String) (v : V) :
    ∀ m : List (String × V), umap_find k (umap_set k v m) = some v := by
  intro m
  induction m with
  | nil => simp [umap_set, umap_find]
  | cons p m ih =>
    obtain ⟨k', v'⟩ := p
    by_cases h : k' = k
    · simp [umap_set, umap_find, h]
    · simp [umap_set, umap_find, h, ih]

theorem umap_find_set_ne {V : Type} (k k' : String) (v : V) (hne : k' ≠ k) :
    ∀ m : List (String × V), umap_find k' (umap_set k v m) = umap_find k' m := by
  intro m
  induction m with
  | nil => simp [umap_set, umap_find, Ne.symm hne]
  | cons p m ih =>
    obtain ⟨k'', v'⟩ := p
    by_cases h : k'' = k
    · subst h
      simp [umap_set, umap_find, Ne.symm hne]
    · by_cases h2 : k'' = k'
      · subst h2
        simp [umap_set, umap_find, h]
      · simp [umap_set, umap_find, h, h2, ih]

theorem gtf_widen_eq (b : region_bound) (start end_ : Nat) :
    (if (if b.start > start then { b with start := start } else b).end_ < end_ then
        { (if b.start > start then { b with start := start } else b) with end_ := end_ }
      else (if b.start > start then { b with start := start } else b)) =
      ⟨b.chr, min b.start start, max b.end_ end_⟩ := by
  obtain ⟨c, s, e⟩ := b
  have hm : min s start = if s > start then start else s := by split_ifs <;> omega
  have hM : max e end_ = if e < end_ then end_ else e := by split_ifs <;> omega
  rw [hm, hM]
  by_cases h1 : s > start <;> by_cases h2 : e < end_ <;> simp [h1, h2]

theorem gtf_merged_new (seen : List gtf_record) (rb : List (String × region_bound))
    (r : gtf_record) (h : gtf_merged seen rb) (hnone : umap_find r.id rb = none) :
    gtf_merged (seen ++ [r]) (umap_set r.id ⟨r.chr, r.start, r.end_⟩ rb) := by
  obtain ⟨h1, h2⟩ := h
  have hfresh : ∀ r' ∈ seen, r'.id ≠ r.id := by
    intro r' hr' he
    obtain ⟨b, hb⟩ := h2 r' hr'
    rw [he, hnone] at hb
    cases hb
  refine ⟨?_, ?_⟩
  · intro id b hb
    by_cases hid : id = r.id
    · subst hid
      rw [umap_find_set_self] at hb
      cases hb
      refine ⟨?_, ⟨r, by simp, rfl, rfl⟩, ⟨r, by simp, rfl, rfl⟩⟩
      intro r' hr' he
      rcases List.mem_append.mp hr' with hs | hs
      · exact absurd he (hfresh r' hs)
      · rw [List.mem_singleton.mp hs]
        exact ⟨rfl, le_refl _, le_refl _⟩
    · rw [umap_find_set_ne _ _ _ hid] at hb
      obtain ⟨a1, ⟨x, hx, a2⟩, ⟨y, hy, a3⟩⟩ := h1 id b hb
      refine ⟨?_, ⟨x, List.mem_append_left _ hx, a2⟩, ⟨y, List.mem_append_left _ hy, a3⟩⟩
      intro r' hr' he
      rcases List.mem_append.mp hr' with hs | hs
      · exact a1 r' hs he
      · rw [List.mem_singleton.mp hs] at he
        exact absurd he.symm hid
  · intro r' hr'
    by_cases hid : r'.id = r.id
    · rw [hid, umap_find_set_self]; exact ⟨_, rfl⟩
    · rw [umap_find_set_ne _ _ _ hid]
      rcases List.mem_append.mp hr' with hs | hs
      · exact h2 r' hs
      · rw [List.mem_singleton.mp hs] at hid
        exact absurd rfl hid

theorem gtf_merged_widen (seen : List gtf_record) (rb : List (String × region_bound))
    (r : gtf_record) (b : region_bound) (h : gtf_merged seen rb)
    (hb : umap_find r.id rb = some b) (hchr : b.chr = r.chr) :
    gtf_merged (seen ++ [r])
      (umap_set r.id ⟨b.chr, min b.start r.start, max b.end_ r.end_⟩ rb) := by
  obtain ⟨h1, h2⟩ := h
  refine ⟨?_, ?_⟩
  · intro id b' hb'
    by_cases hid : id = r.id
    · subst hid
      rw [umap_find_set_self] at hb'
      cases hb'
      obtain ⟨a1, ⟨x, hx, a2, a2'⟩, ⟨y, hy, a3, a3'⟩⟩ := h1 r.id b hb
      refine ⟨?_, ?_, ?_⟩
      · intro r' hr' he
        rcases List.mem_append.mp hr' with hs | hs
        · obtain ⟨c1, c2, c3⟩ := a1 r' hs he
          exact ⟨c1, le_trans (Nat.min_le_left _ _) c2, le_trans c3 (Nat.le_max_left _ _)⟩
        · rw [List.mem_singleton.mp hs]
          exact ⟨hchr.symm, Nat.min_le_right _ _, Nat.le_max_right _ _⟩
      · by_cases hlt : b.start ≤ r.start
        · exact ⟨x, List.mem_append_left _ hx, a2, by dsimp only; rw [a2']; omega⟩
        · exact ⟨r, by simp, rfl, by dsimp only; omega⟩
      · by_cases hlt : r.end_ ≤ b.end_
        · exact ⟨y, List.mem_append_left _ hy, a3, by dsimp only; rw [a3']; omega⟩
        · exact ⟨r, by simp, rfl, by dsimp only; omega⟩
    · rw [umap_find_set_ne _ _ _ hid] at hb'
      obtain ⟨a1, ⟨x, hx, a2⟩, ⟨y, hy, a3⟩⟩ := h1 id b' hb'
      refine ⟨?_, ⟨x, List.mem_append_left _ hx, a2⟩, ⟨y, List.mem_append_left _ hy, a3⟩⟩
      intro r' hr' he
      rcases List.mem_append.mp hr' with hs | hs
      · exact a1 r' hs he
      · rw [List.mem_singleton.mp hs] at he
        exact absurd he.symm hid
  · intro r' hr'
    by_cases hid : r'.id = r.id
    · rw [hid, umap_find_set_self]; exact ⟨_, rfl⟩
    · rw [umap_find_set_ne _ _ _ hid]
      rcases List.mem_append.mp hr' with hs | hs
      · exact h2 r' hs
      · rw [List.mem_singleton.mp hs] at hid
        exact absurd rfl hid

theorem Region.gtf_records_cons (E : Env) (R : Region) (line : String) (rest : List String) :
    Region.gtf_records E R (line :: rest) =
      match Region.gtf_read_line E R line with
      | gtf_line.accepted r => r :: Region.gtf_records E R rest
      | _ => Region.gtf_records E R rest := by
  unfold Region.gtf_records
  rw [List.filterMap_cons]
  cases Region.gtf_read_line E R line <;> rfl

theorem Region.process_gtf_lines_cons_accepted (E : Env) (R : Region) (line : String)
    (rest : List String) (rb : List (String × region_bound))
    (idn : List (String × List String)) (r : gtf_record)
    (hrl : Region.gtf_read_line E R line = gtf_line.accepted r) :
    Region.process_gtf_lines E R (line :: rest) rb idn =
      match umap_find r.id rb with
      | some b =>
        if b.chr ≠ r.chr then none
        else Region.process_gtf_lines E R rest
          (umap_set r.id ⟨b.chr, min b.start r.start, max b.end_ r.end_⟩ rb)
          (if r.id ≠ "" then alias_insert r.name r.id idn else idn)
      | none =>
        Region.process_gtf_lines E R rest (umap_set r.id ⟨r.chr, r.start, r.end_⟩ rb)
          (if r.id ≠ "" then alias_insert r.name r.id idn else idn) := by
  rw [Region.process_gtf_lines, hrl]
  dsimp only
  cases umap_find r.id rb with
  | none => rfl
  | some b =>
    dsimp only
    rw [gtf_widen_eq]

theorem Region.process_gtf_lines_merged (E : Env) (R : Region) :
    ∀ (lines : List String) (rb : List (String × region_bound))
      (idn : List (String × List String)) (seen : List gtf_record)
      (m : List (String × region_bound)) (a : List (String × List String)),
      gtf_merged seen rb → Region.process_gtf_lines E R lines rb idn = some (m, a) →
      gtf_merged (seen ++ Region.gtf_records E R lines) m := by
  intro lines
  induction lines with
  | nil =>
    intro rb idn seen m a hm hdone
    simp only [Region.process_gtf_lines, Option.some.injEq, Prod.mk.injEq] at hdone
    rw [← hdone.1]
    simpa [Region.gtf_records] using hm
  | cons line rest ih =>
    intro rb idn seen m a hm hdone
    rw [Region.gtf_records_cons]
    cases hrl : Region.gtf_read_line E R line with
    | skipped =>
      rw [Region.process_gtf_lines, hrl] at hdone
      exact ih rb idn seen m a hm hdone
    | excluded =>
      rw [Region.process_gtf_lines, hrl] at hdone
      exact ih rb idn seen m a hm hdone
    | bad_coordinate =>
      rw [Region.process_gtf_lines, hrl] at hdone
      cases hdone
    | accepted r =>
      rw [Region.process_gtf_lines_cons_accepted E R line rest rb idn r hrl] at hdone
      dsimp only
      have happ : seen ++ r :: Region.gtf_records E R rest =
          (seen ++ [r]) ++ Region.gtf_records E R rest := by simp
      rw [happ]
      cases hf : umap_find r.id rb with
      | none =>
        rw [hf] at hdone
        exact ih _ _ _ m a (gtf_merged_new seen rb r hm hf) hdone
      | some b =>
        rw [hf] at hdone
        dsimp only at hdone
        by_cases hc : b.chr ≠ r.chr
        · rw [if_pos hc] at hdone; cases hdone
        · rw [if_neg hc] at hdone
          exact ih _ _ _ m a (gtf_merged_widen seen rb r b hm hf (not_not.mp hc)) hdone

theorem Region.process_gtf_opened (E : Env) (R : Region) (gtf : String)
    (idn : List (String × List String)) (lines : List String) (hgtf : gtf ≠ "")
    (hopen : (if after_last_dot gtf = "gz" then E.open_gz gtf else E.open_file gtf) =
      some lines) :
    Region.process_gtf E R gtf idn =
      match Region.process_gtf_lines E R lines [] idn with
      | none => Except.ok ([], [])
      | some res => Except.ok res := by
  unfold Region.process_gtf
  rw [if_neg hgtf]
  dsimp only
  have : (if decide (after_last_dot gtf = "gz") = true then E.open_gz gtf
      else E.open_file gtf) = some lines := by
    rw [← hopen]; simp
  rw [this]

/-- C9. Gene boundary merging in `Region::process_gtf`: whenever the load completes without
abort (the file opens and the loop over its lines runs to the end, returning the maps
`(m, a)`), `process_gtf` returns `m`, and for every gene identifier that is a key of `m` its
boundary has the chromosome rank of every accepted record carrying that identifier, its
start is the minimum start and its end the maximum end over those records (a lower/upper
bound that one of them attains), and every identifier carried by an accepted record is a
key of `m`. -/
theorem Region.process_gtf_merges (E : Env) (R : Region) (gtf : String)
    (idn : List (String × List String)) (lines : List String)
    (m : List (String × region_bound)) (a : List (String × List String)) (hgtf : gtf ≠ "")
    (hopen : (if after_last_dot gtf = "gz" then E.open_gz gtf else E.open_file gtf) =
      some lines)
    (hdone : Region.process_gtf_lines E R lines [] idn = some (m, a)) :
    Region.process_gtf E R gtf idn = Except.ok (m, a) ∧
    (∀ id b, umap_find id m = some b →
      (∀ r ∈ Region.gtf_records E R lines, r.id = id →
        r.chr = b.chr ∧ b.start ≤ r.start ∧ r.end_ ≤ b.end_) ∧
      (∃ r ∈ Region.gtf_records E R lines, r.id = id ∧ r.start = b.start) ∧
      (∃ r ∈ Region.gtf_records E R lines, r.id = id ∧ r.end_ = b.end_)) ∧
    (∀ r ∈ Region.gtf_records E R lines, ∃ b, umap_find r.id m = some b) := by
  have hinit : gtf_merged [] ([] : List (String × region_bound)) :=
    ⟨fun id b h => by simp [umap_find] at h, fun r hr => by cases hr⟩
  have hmerged := Region.process_gtf_lines_merged E R lines [] idn [] m a hinit hdone
  rw [List.nil_append] at hmerged
  refine ⟨?_, hmerged.1, hmerged.2⟩
  rw [Region.process_gtf_opened E R gtf idn lines hgtf hopen, hdone]

/-- Witness for C9: in `genes.gtf` the identifier `G1` has the records `[100, 200]` and
`[50, 150]` on rank 1 and gets the boundary `(1, 50, 200)`. -/
theorem Region.process_gtf_merges_witness :
    Region.process_gtf sample_env sample_fresh "genes.gtf" [] =
        Except.ok ([("G1", ⟨1, 50, 200⟩), ("G2", ⟨2, 7, 9⟩)], [("A", ["G1", "G2"])]) ∧
    (∃ r ∈ Region.gtf_records sample_env sample_fresh
        ["#comment",
          "chr1\tsrc\tgene\t100\t200\t.\t+\t.\tgene_id \"G1\"; gene_name \"A\";",
          "chr1\tsrc\tgene\t50\t150\t.\t+\t.\tgene_id \"G1\"; gene_name \"A\";",
          "chr2\tsrc\tgene\t7\t9\t.\t+\t.\tgene_id \"G2\"; gene_name \"A\";"],
      r.id = "G1" ∧ r.start = 50) :=
  have h := Region.process_gtf_merges sample_env sample_fresh "genes.gtf" []
    ["#comment",
      "chr1\tsrc\tgene\t100\t200\t.\t+\t.\tgene_id \"G1\"; gene_name \"A\";",
      "chr1\tsrc\tgene\t50\t150\t.\t+\t.\tgene_id \"G1\"; gene_name \"A\";",
      "chr2\tsrc\tgene\t7\t9\t.\t+\t.\tgene_id \"G2\"; gene_name \"A\";"]
    [("G1", ⟨1, 50, 200⟩), ("G2", ⟨2, 7, 9⟩)] [("A", ["G1", "G2"])]
    (by decide) (by decide) (by decide)
  ⟨h.1, (h.2.1 "G1" ⟨1, 50, 200⟩ (by decide)).2.1⟩

theorem Region.gtf_read_line_bad (E : Env) (R : Region) (line : String)
    (h : Region.gtf_bad_record E R line = true) :
    Region.gtf_read_line E R line = gtf_line.bad_coordinate := by
  unfold Region.gtf_bad_record at h
  simp only [Bool.and_eq_true, Bool.or_eq_true, decide_eq_true_eq] at h
  obtain ⟨⟨⟨⟨h1, h2⟩, h3⟩, h4⟩, h5⟩ := h
  obtain ⟨c, hc⟩ := Option.isSome_iff_exists.mp h4
  unfold Region.gtf_read_line
  dsimp only
  rw [if_neg (by rintro (h | h); exact h1 h; exact h2 h), h3, hc]
  dsimp only
  unfold bad_coordinate at h5
  cases hs : E.convert ((E.split (E.trim line) "\t").getD GTF_START "") with
  | none => rfl
  | some s =>
    dsimp only
    by_cases hs0 : s < 0
    · rw [if_pos hs0]
    · rw [if_neg hs0]
      cases he : E.convert ((E.split (E.trim line) "\t").getD GTF_END "") with
      | none => rfl
      | some e =>
        dsimp only
        by_cases he0 : e < 0
        · rw [if_pos he0]
        · rw [if_neg he0]
          rw [hs, he] at h5
          simp only [decide_eq_true_eq] at h5
          rcases h5 with h5 | h5
          · exact absurd h5 hs0
          · exact absurd h5 he0

theorem Region.process_gtf_lines_append (E : Env) (R : Region) :
    ∀ (pre rest : List String) (rb : List (String × region_bound))
      (idn : List (String × List String)),
      Region.process_gtf_lines E R (pre ++ rest) rb idn =
        match Region.process_gtf_lines E R pre rb idn with
        | none => none
        | some res => Region.process_gtf_lines E R rest res.1 res.2 := by
  intro pre
  induction pre with
  | nil => intro rest rb idn; rfl
  | cons line pre ih =>
    intro rest rb idn
    rw [List.cons_append]
    cases hrl : Region.gtf_read_line E R line with
    | skipped =>
      rw [Region.process_gtf_lines, Region.process_gtf_lines, hrl]
      exact ih rest rb idn
    | excluded =>
      rw [Region.process_gtf_lines, Region.process_gtf_lines, hrl]
      exact ih rest rb idn
    | bad_coordinate =>
      rw [Region.process_gtf_lines, Region.process_gtf_lines, hrl]
    | accepted r =>
      rw [Region.process_gtf_lines_cons_accepted E R line _ rb idn r hrl,
        Region.process_gtf_lines_cons_accepted E R line _ rb idn r hrl]
      cases umap_find r.id rb with
      | none => exact ih rest _ _
      | some b =>
        dsimp only
        by_cases hc : b.chr ≠ r.chr
        · rw [if_pos hc, if_pos hc]
        · rw [if_neg hc, if_neg hc]; exact ih rest _ _

theorem Region.mem_gtf_records (E : Env) (R : Region) (lines : List String) (l : String)
    (r : gtf_record) (hl : l ∈ lines) (hr : Region.gtf_read_line E R l = gtf_line.accepted r) :
    r ∈ Region.gtf_records E R lines := by
  unfold Region.gtf_records
  rw [List.mem_filterMap]
  exact ⟨l, hl, by rw [hr]⟩

/-- C10. All-or-nothing annotation load: if some accepted record of the file (feature
accepted, chromosome known) has a start or end column that cannot be converted or is
negative, or carries a gene identifier that an earlier accepted record carries on a
different chromosome rank, then `Region::process_gtf` returns an empty boundary map and
leaves the alias index `id_to_name` empty, whatever lines precede and follow that record. -/
theorem Region.process_gtf_all_or_nothing (E : Env) (R : Region) (gtf : String)
    (idn : List (String × List String)) (pre : List String) (bad : String)
    (post : List String) (hgtf : gtf ≠ "")
    (hopen : (if after_last_dot gtf = "gz" then E.open_gz gtf else E.open_file gtf) =
      some (pre ++ bad :: post))
    (hbad : Region.gtf_bad_record E R bad = true ∨
      ∃ r r1 l, Region.gtf_read_line E R bad = gtf_line.accepted r ∧ l ∈ pre ∧
        Region.gtf_read_line E R l = gtf_line.accepted r1 ∧ r1.id = r.id ∧ r1.chr ≠ r.chr) :
    Region.process_gtf E R gtf idn = Except.ok ([], []) := by
  have hnone : Region.process_gtf_lines E R (pre ++ bad :: post) [] idn = none := by
    rw [Region.process_gtf_lines_append]
    cases hpre : Region.process_gtf_lines E R pre [] idn with
    | none => rfl
    | some res =>
      obtain ⟨m, a⟩ := res
      dsimp only
      rcases hbad with hb | ⟨r, r1, l, hr, hl, hr1, hid, hchr⟩
      · rw [Region.process_gtf_lines, Region.gtf_read_line_bad E R bad hb]
      · have hinit : gtf_merged [] ([] : List (String × region_bound)) :=
          ⟨fun id b h => by simp [umap_find] at h, fun r hr => by cases hr⟩
        have hmerged := Region.process_gtf_lines_merged E R pre [] idn [] m a hinit hpre
        rw [List.nil_append] at hmerged
        have hmem := Region.mem_gtf_records E R pre l r1 hl hr1
        obtain ⟨b, hb⟩ := hmerged.2 r1 hmem
        have hbc : r1.chr = b.chr := ((hmerged.1 r1.id b hb).1 r1 hmem rfl).1
        rw [Region.process_gtf_lines_cons_accepted E R bad post m a r hr, ← hid, hb]
        dsimp only
        rw [if_pos (by rw [← hbc]; exact hchr)]
  rw [Region.process_gtf_opened E R gtf idn _ hgtf hopen, hnone]

/-- Witness for C10: in `clash.gtf` the identifier `G1` is on rank 1 and then on rank 2. -/
theorem Region.process_gtf_all_or_nothing_witness :
    Region.process_gtf sample_env sample_fresh "clash.gtf" [("B", ["G9"])] =
      Except.ok ([], []) :=
  Region.process_gtf_all_or_nothing sample_env sample_fresh "clash.gtf" [("B", ["G9"])]
    ["chr1\tsrc\tgene\t100\t200\t.\t+\t.\tgene_id \"G1\"; gene_name \"A\";"]
    "chr2\tsrc\tgene\t50\t150\t.\t+\t.\tgene_id \"G1\"; gene_name \"A\";" []
    (by decide) (by decide)
    (Or.inr ⟨⟨2, 50, 150, "A", "G1"⟩, ⟨1, 100, 200, "A", "G1"⟩,
      "chr1\tsrc\tgene\t100\t200\t.\t+\t.\tgene_id \"G1\"; gene_name \"A\";",
      by decide, by decide, by decide, by decide, by decide⟩)

/-! ## C11 – C16: failure of the GTF load, gene-set rows, alias index -/

theorem Region.process_bed_static (E : Env) :
    ∀ (bed : List String) (R : Region),
      (Region.process_bed E R bed).m_chr_order = R.m_chr_order ∧
      (Region.process_bed E R bed).m_gtf_feature = R.m_gtf_feature := by
  intro bed
  induction bed with
  | nil => intro R; exact ⟨rfl, rfl⟩
  | cons b bed ih =>
    intro R
    rw [Region.process_bed]
    obtain ⟨a1, a2⟩ := ih (Region.process_bed_file E R b)
    rcases Region.process_bed_file_cases E R b with h | ⟨_, l, h⟩
    · rw [h] at a1 a2 ⊢; exact ⟨a1, a2⟩
    · rw [h] at a1 a2 ⊢; exact ⟨a1, a2⟩

/-- C11. Failure of the GTF load in `Region::run`: when the GTF file holds an accepted record
whose gene identifier an earlier accepted record carries on a different chromosome rank, no
set of the gene-set file is registered (the names and the interval lists after `run` are
those after `process_bed`, so every BED set keeps its name and its interval list), and the
cursor and counter arrays are sized to that catalogue, all entries zero. -/
theorem Region.run_skips_msigdb_on_clash (E : Env) (R : Region) (gtf msigdb out : String)
    (bed : List String) (pre : List String) (bad : String) (post : List String)
    (hgtf : gtf ≠ "")
    (hopen : (if after_last_dot gtf = "gz" then E.open_gz gtf else E.open_file gtf) =
      some (pre ++ bad :: post))
    (hclash : ∃ r r1 l, Region.gtf_read_line E R bad = gtf_line.accepted r ∧ l ∈ pre ∧
      Region.gtf_read_line E R l = gtf_line.accepted r1 ∧ r1.id = r.id ∧ r1.chr ≠ r.chr) :
    (Region.run E R gtf msigdb bed out).m_region_name =
      (Region.process_bed E R bed).m_region_name ∧
    (Region.run E R gtf msigdb bed out).m_region_list =
      (Region.process_bed E R bed).m_region_list ∧
    (Region.run E R gtf msigdb bed out).m_snp_check_index =
      List.replicate (Region.process_bed E R bed).m_region_name.length 0 ∧
    (Region.run E R gtf msigdb bed out).m_region_snp_count =
      List.replicate (Region.process_bed E R bed).m_region_name.length 0 := by
  obtain ⟨s1, s2⟩ := Region.process_bed_static E bed R
  have hlines : Region.process_gtf_lines E
      { Region.process_bed E R bed with m_out_prefix := out } (pre ++ bad :: post) [] [] =
        none := by
    rw [Region.process_gtf_lines_congr E R
      { Region.process_bed E R bed with m_out_prefix := out } s1 s2,
      Region.process_gtf_lines_append]
    cases hpre : Region.process_gtf_lines E R pre [] [] with
    | none => rfl
    | some res =>
      obtain ⟨m, a⟩ := res
      obtain ⟨r, r1, l, hr, hl, hr1, hid, hchr⟩ := hclash
      have hinit : gtf_merged [] ([] : List (String × region_bound)) :=
        ⟨fun id b h => by simp [umap_find] at h, fun r hr => by cases hr⟩
      have hmerged := Region.process_gtf_lines_merged E R pre [] [] [] m a hinit hpre
      rw [List.nil_append] at hmerged
      have hmem := Region.mem_gtf_records E R pre l r1 hl hr1
      obtain ⟨b, hb⟩ := hmerged.2 r1 hmem
      have hbc : r1.chr = b.chr := ((hmerged.1 r1.id b hb).1 r1 hmem rfl).1
      dsimp only
      rw [Region.process_gtf_lines_cons_accepted E R bad post m a r hr, ← hid, hb]
      dsimp only
      rw [if_pos (by rw [← hbc]; exact hchr)]
  have hgtfres : Region.process_gtf E
      { Region.process_bed E R bed with m_out_prefix := out } gtf [] = Except.ok ([], []) := by
    rw [Region.process_gtf_opened E _ gtf [] _ hgtf hopen, hlines]
  have hrun : Region.run_gtf E { Region.process_bed E R bed with m_out_prefix := out }
      gtf msigdb = { Region.process_bed E R bed with m_out_prefix := out } := by
    unfold Region.run_gtf
    rw [if_pos hgtf, hgtfres]
    rfl
  unfold Region.run
  dsimp only
  rw [hrun]
  exact ⟨rfl, rfl, rfl, rfl⟩

/-- Witness for C11: `clash.gtf` has `G1` on rank 1 and on rank 2; only `a.bed` is registered. -/
theorem Region.run_skips_msigdb_on_clash_witness :
    (Region.run sample_env sample_fresh "clash.gtf" "sets.gmt" ["a.bed"] "out").m_region_name =
      ["Base", "a.bed"] ∧
    (Region.run sample_env sample_fresh "clash.gtf" "sets.gmt" ["a.bed"] "out").m_region_list =
      [[⟨0, 0, 0⟩], [⟨1, 1, 11⟩, ⟨2, 5, 10⟩]] ∧
    (Region.run sample_env sample_fresh "clash.gtf" "sets.gmt" ["a.bed"]
      "out").m_snp_check_index = [0, 0] :=
  have h := Region.run_skips_msigdb_on_clash sample_env sample_fresh "clash.gtf" "sets.gmt"
    "out" ["a.bed"]
    ["chr1\tsrc\tgene\t100\t200\t.\t+\t.\tgene_id \"G1\"; gene_name \"A\";"]
    "chr2\tsrc\tgene\t50\t150\t.\t+\t.\tgene_id \"G1\"; gene_name \"A\";" []
    (by decide) (by decide)
    ⟨⟨2, 50, 150, "A", "G1"⟩, ⟨1, 100, 200, "A", "G1"⟩,
      "chr1\tsrc\tgene\t100\t200\t.\t+\t.\tgene_id \"G1\"; gene_name \"A\";",
      by decide, by decide, by decide, by decide, by decide⟩
  ⟨h.1.trans (by decide), h.2.1.trans (by decide), h.2.2.1.trans (by decide)⟩

/-! ### The alias sets are sets -/

theorem char_toNat_inj (a b : Char) (h : a.toNat = b.toNat) : a = b := by
  apply Char.eq_of_val_eq
  cases a with | mk va ha => cases b with | mk vb hb =>
  simp only [Char.toNat] at h
  exact UInt32.ext h

theorem chars_lt_irrefl : ∀ s : List Char, chars_lt s s = false := by
  intro s
  induction s with
  | nil => rfl
  | cons a s ih => simp [chars_lt, ih]

theorem chars_lt_trans : ∀ s t u : List Char, chars_lt s t = true → chars_lt t u = true →
    chars_lt s u = true := by
  intro s
  induction s with
  | nil =>
    intro t u h1 h2
    cases t with
    | nil => simp [chars_lt] at h1
    | cons b t =>
      cases u with
      | nil => simp [chars_lt] at h2
      | cons c u => simp [chars_lt]
  | cons a s ih =>
    intro t u h1 h2
    cases t with
    | nil => simp [chars_lt] at h1
    | cons b t =>
      cases u with
      | nil => simp [chars_lt] at h2
      | cons c u =>
        simp only [chars_lt] at h1 h2 ⊢
        by_cases hab : a.toNat < b.toNat
        · by_cases hbc : b.toNat < c.toNat
          · rw [if_pos (by omega)]
          · rw [if_neg hbc] at h2
            by_cases hbc' : b = c
            · subst hbc'; rw [if_pos hab]
            · rw [if_neg hbc'] at h2; cases h2
        · rw [if_neg hab] at h1
          by_cases hab' : a = b
          · subst hab'
            rw [if_pos rfl] at h1
            by_cases hbc : a.toNat < c.toNat
            · rw [if_pos hbc]
            · rw [if_neg hbc] at h2 ⊢
              by_cases hbc' : a = c
              · rw [if_pos hbc'] at h2 ⊢; exact ih t u h1 h2
              · rw [if_neg hbc'] at h2; cases h2
          · rw [if_neg hab'] at h1; cases h1

theorem chars_lt_total : ∀ s t : List Char, s ≠ t → chars_lt s t = false → chars_lt t s = true := by
  intro s
  induction s with
  | nil =>
    intro t hne h
    cases t with
    | nil => exact absurd rfl hne
    | cons b t => simp [chars_lt] at h
  | cons a s ih =>
    intro t hne h
    cases t with
    | nil => simp [chars_lt]
    | cons b t =>
      simp only [chars_lt] at h ⊢
      by_cases hab : a.toNat < b.toNat
      · rw [if_pos hab] at h; cases h
      · rw [if_neg hab] at h
        by_cases hab' : a = b
        · subst hab'
          rw [if_pos rfl] at h
          rw [if_neg hab, if_pos rfl]
          exact ih t (fun e => hne (by rw [e])) h
        · have : b.toNat < a.toNat := by
            have : a.toNat ≠ b.toNat := fun e => hab' (char_toNat_inj a b e)
            omega
          rw [if_pos this]

theorem set_insert_mem (x : String) : ∀ (l : List String) (z : String), z ∈ set_insert x l → z = x ∨ z ∈ l := by
  intro l
  induction l with
  | nil => intro z hz; simp [set_insert] at hz; exact Or.inl hz
  | cons y ys ih =>
    intro z hz
    simp only [set_insert] at hz
    split_ifs at hz with h1 h2
    · exact Or.inr hz
    · rcases List.mem_cons.mp hz with h | h
      · exact Or.inl h
      · exact Or.inr h
    · rcases List.mem_cons.mp hz with h | h
      · exact Or.inr (by rw [h]; exact List.mem_cons_self _ _)
      · rcases ih z h with h | h
        · exact Or.inl h
        · exact Or.inr (List.mem_cons_of_mem _ h)

theorem set_insert_sorted (x : String) : ∀ l : List String, str_sorted l → str_sorted (set_insert x l) := by
  intro l
  induction l with
  | nil => intro _; simp [set_insert, str_sorted]
  | cons y ys ih =>
    intro hs
    unfold str_sorted at hs ⊢
    obtain ⟨hy, hys⟩ := List.pairwise_cons.mp hs
    simp only [set_insert]
    split_ifs with h1 h2
    · exact hs
    · refine List.pairwise_cons.mpr ⟨?_, hs⟩
      intro z hz
      rcases List.mem_cons.mp hz with h | h
      · rw [h]; exact h2
      · exact chars_lt_trans _ _ _ h2 (hy z h)
    · refine List.pairwise_cons.mpr ⟨?_, ih hys⟩
      intro z hz
      rcases set_insert_mem x ys z hz with h | h
      · rw [h]
        refine chars_lt_total _ _ ?_ (by simpa using h2)
        intro e
        exact h1 (by cases x; cases y; simp_all)
      · exact hy z h

theorem str_sorted_nodup (l : List String) (h : str_sorted l) : l.Nodup := by
  unfold str_sorted at h
  refine List.Pairwise.imp ?_ h
  intro a b hab e
  rw [e, chars_lt_irrefl] at hab
  cases hab

theorem alias_insert_sorted (name id : String) (idn : List (String × List String))
    (h : alias_sets_sorted idn) : alias_sets_sorted (alias_insert name id idn) := by
  intro n ids hn
  unfold alias_insert at hn
  by_cases hk : n = name
  · subst hk
    rw [umap_find_set_self] at hn
    cases hn
    apply set_insert_sorted
    cases hf : umap_find n idn with
    | none => simp [str_sorted]
    | some old => exact h n old hf
  · rw [umap_find_set_ne _ _ _ hk] at hn
    exact h n ids hn

theorem Region.process_gtf_lines_alias_sorted (E : Env) (R : Region) :
    ∀ (lines : List String) (rb : List (String × region_bound))
      (idn : List (String × List String)) (m : List (String × region_bound))
      (a : List (String × List String)),
      alias_sets_sorted idn → Region.process_gtf_lines E R lines rb idn = some (m, a) →
      alias_sets_sorted a := by
  intro lines
  induction lines with
  | nil =>
    intro rb idn m a hs hdone
    simp only [Region.process_gtf_lines, Option.some.injEq, Prod.mk.injEq] at hdone
    rw [← hdone.2]; exact hs
  | cons line rest ih =>
    intro rb idn m a hs hdone
    cases hrl : Region.gtf_read_line E R line with
    | skipped =>
      rw [Region.process_gtf_lines, hrl] at hdone
      exact ih rb idn m a hs hdone
    | excluded =>
      rw [Region.process_gtf_lines, hrl] at hdone
      exact ih rb idn m a hs hdone
    | bad_coordinate =>
      rw [Region.process_gtf_lines, hrl] at hdone
      cases hdone
    | accepted r =>
      rw [Region.process_gtf_lines_cons_accepted E R line rest rb idn r hrl] at hdone
      have hs' : alias_sets_sorted (if r.id ≠ "" then alias_insert r.name r.id idn else idn) := by
        split_ifs
        · exact alias_insert_sorted _ _ _ hs
        · exact hs
      cases hf : umap_find r.id rb with
      | none =>
        rw [hf] at hdone
        exact ih _ _ m a hs' hdone
      | some b =>
        rw [hf] at hdone
        dsimp only at hdone
        by_cases hc : b.chr ≠ r.chr
        · rw [if_pos hc] at hdone; cases hdone
        · rw [if_neg hc] at hdone
          exact ih _ _ m a hs' hdone

theorem msigdb_translate_eq (gtf_info : List (String × region_bound)) :
    ∀ (name : List String) (current_region : List region_bound),
      msigdb_translate gtf_info name current_region =
        current_region ++ name.filterMap (fun translate => umap_find translate gtf_info) := by
  intro name
  induction name with
  | nil => intro cur; simp [msigdb_translate]
  | cons t rest ih =>
    intro cur
    rw [msigdb_translate, List.filterMap_cons]
    cases umap_find t gtf_info with
    | none => exact ih cur
    | some b =>
      dsimp only
      rw [ih]
      simp

/-- C12. Alias resolution in `Region::process_msigdb`, for one gene token of the loop over
the tokens: a token that is a key of the boundary map contributes exactly that one boundary
(whatever the alias index holds); a token that is not a key of the boundary map but is a key
of the alias index contributes, in the order of the aliased set, one boundary for every
aliased identifier that is a key of the boundary map and nothing for the others; a token that
is a key of neither contributes nothing.  The aliased sets built by `process_gtf` have no
repeated identifier, so each present identifier contributes exactly one copy. -/
theorem msigdb_alias_resolution (gtf_info : List (String × region_bound))
    (id_to_name : List (String × List String)) (gene : String) (rest : List String)
    (current_region : List region_bound) :
    (∀ b, umap_find gene gtf_info = some b →
      msigdb_genes gtf_info id_to_name (gene :: rest) current_region =
        msigdb_genes gtf_info id_to_name rest (current_region ++ [b])) ∧
    (∀ name, umap_find gene gtf_info = none → umap_find gene id_to_name = some name →
      msigdb_genes gtf_info id_to_name (gene :: rest) current_region =
        msigdb_genes gtf_info id_to_name rest
          (current_region ++ name.filterMap (fun translate => umap_find translate gtf_info))) ∧
    (umap_find gene gtf_info = none → umap_find gene id_to_name = none →
      msigdb_genes gtf_info id_to_name (gene :: rest) current_region =
        msigdb_genes gtf_info id_to_name rest current_region) ∧
    (∀ (E : Env) (R : Region) (lines : List String) (m : List (String × region_bound)),
      Region.process_gtf_lines E R lines [] [] = some (m, id_to_name) →
      ∀ name, umap_find gene id_to_name = some name → name.Nodup) := by
  refine ⟨?_, ?_, ?_, ?_⟩
  · intro b hb
    rw [msigdb_genes, hb]
  · intro name h1 h2
    rw [msigdb_genes, h1, h2]
    dsimp only
    rw [msigdb_translate_eq]
  · intro h1 h2
    rw [msigdb_genes, h1, h2]
  · intro E R lines m hdone name hname
    have hinit : alias_sets_sorted [] := by
      intro n ids h; simp [umap_find] at h
    exact str_sorted_nodup _
      (Region.process_gtf_lines_alias_sorted E R lines [] [] m id_to_name hinit hdone
        gene name hname)

/-- Witness for C12: the name `A` aliases `G1` and `G2`, both in the boundary map, and
contributes both boundaries. -/
theorem msigdb_alias_resolution_witness :
    msigdb_genes [("G1", ⟨1, 50, 200⟩), ("G2", ⟨2, 7, 9⟩)] [("A", ["G1", "G2"])] ["A"] [] =
      [⟨1, 50, 200⟩, ⟨2, 7, 9⟩] :=
  ((msigdb_alias_resolution [("G1", ⟨1, 50, 200⟩), ("G2", ⟨2, 7, 9⟩)] [("A", ["G1", "G2"])]
    "A" [] []).2.1 ["G1", "G2"] (by decide) (by decide)).trans (by decide)

/-- C13 (the code departs from the claim). The loop `for (auto& gene : token)` of
`Region::process_msigdb` runs over all tokens of the row, column 0 included: for the row
`G1 url G2`, where `G1` and `G2` are keys of the boundary map, the set registered under the
name `G1` holds the boundary of `G1` as well, while the columns 1 onward resolve to the
boundary of `G2` alone. -/
theorem msigdb_set_name_looked_up :
    msigdb_genes [("G1", ⟨1, 50, 200⟩), ("G2", ⟨2, 7, 9⟩)] [] ["G1", "url", "G2"] [] =
      [⟨1, 50, 200⟩, ⟨2, 7, 9⟩] ∧
    msigdb_genes [("G1", ⟨1, 50, 200⟩), ("G2", ⟨2, 7, 9⟩)] [] ["url", "G2"] [] =
      [⟨2, 7, 9⟩] ∧
    (Region.process_msigdb_lines sample_env [("G1", ⟨1, 50, 200⟩), ("G2", ⟨2, 7, 9⟩)] []
        ["G1 url G2"] sample_fresh).m_region_name = ["Base", "G1"] ∧
    (Region.process_msigdb_lines sample_env [("G1", ⟨1, 50, 200⟩), ("G2", ⟨2, 7, 9⟩)] []
        ["G1 url G2"] sample_fresh).m_region_list =
      [[⟨0, 0, 0⟩], [⟨1, 50, 200⟩, ⟨2, 7, 9⟩]] := by
  refine ⟨by decide, by decide, by decide, by decide⟩

theorem set_insert_mem_self (x : String) : ∀ l : List String, x ∈ set_insert x l := by
  intro l
  induction l with
  | nil => simp [set_insert]
  | cons y ys ih =>
    simp only [set_insert]
    split_ifs with h1 h2
    · rw [h1]; exact List.mem_cons_self _ _
    · exact List.mem_cons_self _ _
    · exact List.mem_cons_of_mem _ ih

theorem gtf_attributes_name (E : Env) :
    ∀ (attrs : List String) (name id : String),
      (∀ info ∈ attrs, str_find "gene_name".data info.data = false ∨
        str_find "gene_id".data info.data = true) →
      (gtf_attributes E attrs (name, id)).1 = name := by
  intro attrs
  induction attrs with
  | nil => intro name id _; rfl
  | cons info rest ih =>
    intro name id h
    have hrest : ∀ i ∈ rest, str_find "gene_name".data i.data = false ∨
        str_find "gene_id".data i.data = true :=
      fun i hi => h i (List.mem_cons_of_mem _ hi)
    rw [gtf_attributes]
    by_cases h1 : str_find "gene_id".data info.data = true
    · rw [if_pos h1]
      dsimp only
      split_ifs
      · exact ih _ _ hrest
      · exact ih _ _ hrest
    · rw [if_neg h1]
      have h2 : str_find "gene_name".data info.data = false := by
        rcases h info (List.mem_cons_self _ _) with h2 | h2
        · exact h2
        · exact absurd h2 h1
      rw [if_neg (by rw [h2]; simp)]
      exact ih _ _ hrest

/-- C14 (the code departs from the claim). An accepted record with the attribute
`gene_id "G1"` and no `gene_name` attribute is read with the identifier `G1` and the empty
name, and `Region::process_gtf` adds an entry to the alias index for it: the guard before
`id_to_name[name].insert(id)` tests the identifier only, so `G1` is stored under the empty
name. -/
theorem gtf_alias_entry_without_name :
    Region.gtf_read_line sample_env sample_fresh
        "chr1\tsrc\tgene\t100\t200\t.\t+\t.\tgene_id \"G1\";" =
      gtf_line.accepted ⟨1, 100, 200, "", "G1"⟩ ∧
    Region.process_gtf_lines sample_env sample_fresh
        ["chr1\tsrc\tgene\t100\t200\t.\t+\t.\tgene_id \"G1\";"] [] [] =
      some ([("G1", ⟨1, 100, 200⟩)], [("", ["G1"])]) ∧
    Region.process_gtf sample_env_noname sample_fresh "noname.gtf" [] =
      Except.ok ([("G1", ⟨1, 100, 200⟩)], [("", ["G1"])]) := by
  refine ⟨by decide, by decide, by decide⟩

/-- C15 (the code departs from the claim). `Region::process_gtf` updates the boundary map
also for an accepted record without `gene_id`: the record is stored under the empty key, and
a second such record on another chromosome rank makes the whole load stop as a
"same gene on two chromosomes" clash. -/
theorem gtf_empty_id_updates_boundary :
    Region.gtf_read_line sample_env sample_fresh
        "chr1\tsrc\tgene\t100\t200\t.\t+\t.\tnote \"x\";" =
      gtf_line.accepted ⟨1, 100, 200, "", ""⟩ ∧
    Region.process_gtf_lines sample_env sample_fresh
        ["chr1\tsrc\tgene\t100\t200\t.\t+\t.\tnote \"x\";"] [] [] =
      some ([("", ⟨1, 100, 200⟩)], []) ∧
    Region.process_gtf_lines sample_env sample_fresh
        ["chr1\tsrc\tgene\t100\t200\t.\t+\t.\tnote \"x\";",
         "chr2\tsrc\tgene\t5\t9\t.\t+\t.\tnote \"y\";"] [] [] = none := by
  refine ⟨by decide, by decide, by decide⟩

/-- C16, counterexample. The line `chrX x 5` has 3 columns and an unknown chromosome label,
yet it makes `process_bed` discard the file: the start column is converted before the label
is looked up. -/
theorem bed_unknown_chromosome_fatal_counterexample :
    3 ≤ (sample_env.split (sample_env.trim "chrX x 5") default_separators).length ∧
    sample_fresh.m_chr_order
        ((sample_env.split (sample_env.trim "chrX x 5") default_separators).getD 0 "") = none ∧
    (Region.process_bed_lines sample_env sample_fresh ["chr1 0 10", "chrX x 5"] []).1 = true ∧
    (Region.process_bed sample_env sample_fresh ["bad.bed"]).m_region_name = ["Base"] := by
  refine ⟨by decide, by decide, by decide, by decide⟩

/-- C16, amended. In `Region::process_bed` a line with at least 3 columns whose chromosome
label is not in the chromosome-order table, and whose start and end columns convert to
non-negative integers, contributes no interval and does not cause the file to be discarded:
the loop goes on to the remaining lines with the intervals collected so far. -/
theorem Region.process_bed_unknown_chromosome (E : Env) (R : Region) (line : String)
    (rest : List String) (current_region : List region_bound) (s e : Int)
    (hline : E.trim line ≠ "")
    (hcols : 3 ≤ (E.split (E.trim line) default_separators).length)
    (hchr : R.m_chr_order ((E.split (E.trim line) default_separators).getD 0 "") = none)
    (hs : E.convert ((E.split (E.trim line) default_separators).getD 1 "") = some s)
    (he : E.convert ((E.split (E.trim line) default_separators).getD 2 "") = some e)
    (hs0 : 0 ≤ s) (he0 : 0 ≤ e) :
    Region.process_bed_lines E R (line :: rest) current_region =
      Region.process_bed_lines E R rest current_region := by
  rw [Region.process_bed_lines]
  simp only [hline, if_false, hs, he, hchr]
  rw [if_neg (by omega), if_pos hs0, if_pos he0]

/-- Witness for C16 (amended): the line `chrX 3 5` is dropped and the next line is read. -/
theorem Region.process_bed_unknown_chromosome_witness :
    Region.process_bed_lines sample_env sample_fresh ["chrX 3 5", "chr1 0 10"] [] =
      (false, [⟨1, 1, 11⟩]) :=
  (Region.process_bed_unknown_chromosome sample_env sample_fresh "chrX 3 5" ["chr1 0 10"] []
    3 5 (by decide) (by decide) (by decide) (by decide) (by decide) (by decide)
    (by decide)).trans (by decide)

/-! ## C17 – C20: cursors, counters, soundness of `Region::check` -/

/-- What the sweep guarantees on any interval list, sorted or not. -/
theorem sweep_basic (r : Int) (p : Nat) (region : List region_bound) :
    ∀ (fuel idx : Nat),
      idx ≤ (sweep r p region fuel idx).1 ∧
      (idx ≤ region.length → (sweep r p region fuel idx).1 ≤ region.length) ∧
      ((sweep r p region fuel idx).2 = true →
        (sweep r p region fuel idx).1 < region.length ∧
        (region.getD (sweep r p region fuel idx).1 default).covers r p) := by
  intro fuel
  induction fuel with
  | zero =>
    intro idx
    simp only [sweep]
    exact ⟨le_refl _, fun h => h, fun h => by cases h⟩
  | succ n ih =>
    intro idx
    have hstop : idx ≤ ((idx, false) : Nat × Bool).1 ∧
        (idx ≤ region.length → ((idx, false) : Nat × Bool).1 ≤ region.length) ∧
        (((idx, false) : Nat × Bool).2 = true →
          ((idx, false) : Nat × Bool).1 < region.length ∧
          (region.getD ((idx, false) : Nat × Bool).1 default).covers r p) :=
      ⟨le_refl _, fun h => h, fun h => by cases h⟩
    simp only [sweep]
    by_cases h1 : idx < region.length
    · rw [if_pos h1]
      obtain ⟨a1, a2, a3⟩ := ih (idx + 1)
      have hstep : idx ≤ (sweep r p region n (idx + 1)).1 ∧
          (idx ≤ region.length → (sweep r p region n (idx + 1)).1 ≤ region.length) ∧
          ((sweep r p region n (idx + 1)).2 = true →
            (sweep r p region n (idx + 1)).1 < region.length ∧
            (region.getD (sweep r p region n (idx + 1)).1 default).covers r p) :=
        ⟨by omega, fun _ => a2 (by omega), a3⟩
      by_cases h2 : r > (region.getD idx default).chr
      · rw [if_pos h2]; exact hstep
      · rw [if_neg h2]
        by_cases h3 : r = (region.getD idx default).chr
        · rw [if_pos h3]
          by_cases h4 : (region.getD idx default).start ≤ p ∧ (region.getD idx default).end_ ≥ p
          · rw [if_pos h4]
            exact ⟨le_refl _, fun h => h, fun _ => ⟨h1, h3.symm, h4.1, h4.2⟩⟩
          · rw [if_neg h4]
            by_cases h5 : (region.getD idx default).start > p
            · rw [if_pos h5]; exact hstop
            · rw [if_neg h5]; exact hstep
        · rw [if_neg h3]; exact hstop
    · rw [if_neg h1]; exact hstop

/-- The `while` loop marks set `i` only when one of its intervals covers the query, in any
state. -/
theorem Region.check_while_sound (BITCT : Nat) (chr_index : Int) (loc : Nat) (i : Nat) :
    ∀ (fuel : Nat) (R : Region) (flag : List Nat),
      ∃ res, Region.check_while BITCT chr_index loc i fuel (R, flag) =
          Region.apply_sweep BITCT i res (R, flag) ∧
        (res.2 = true → ∃ b ∈ R.m_region_list.getD i [], b.covers chr_index loc) := by
  intro fuel
  induction fuel with
  | zero =>
    intro R flag
    refine ⟨(R.m_snp_check_index.getD i 0, false), ?_, fun h => by cases h⟩
    simp only [Region.check_while, Region.apply_sweep, Bool.false_eq_true, if_false]
    rw [list_set_getD_self]
  | succ n ih =>
    intro R flag
    have hstep : ∀ c, ∃ res, Region.check_while BITCT chr_index loc i n
          ({ R with m_snp_check_index := R.m_snp_check_index.set i c }, flag) =
          Region.apply_sweep BITCT i res (R, flag) ∧
        (res.2 = true → ∃ b ∈ R.m_region_list.getD i [], b.covers chr_index loc) := by
      intro c
      obtain ⟨res, hres, hs⟩ :=
        ih { R with m_snp_check_index := R.m_snp_check_index.set i c } flag
      exact ⟨res, by rw [hres, Region.apply_sweep_step], hs⟩
    have hstop : ∃ res, (R, flag) = Region.apply_sweep BITCT i res (R, flag) ∧
        (res.2 = true → ∃ b ∈ R.m_region_list.getD i [], b.covers chr_index loc) := by
      refine ⟨(R.m_snp_check_index.getD i 0, false), ?_, fun h => by cases h⟩
      simp only [Region.apply_sweep, Bool.false_eq_true, if_false]
      rw [list_set_getD_self]
    simp only [Region.check_while]
    by_cases h1 : R.m_snp_check_index.getD i 0 < (R.m_region_list.getD i []).length
    · rw [if_pos h1]
      by_cases h2 : chr_index >
          ((R.m_region_list.getD i []).getD (R.m_snp_check_index.getD i 0) default).chr
      · rw [if_pos h2]; exact hstep _
      · rw [if_neg h2]
        by_cases h3 : chr_index =
            ((R.m_region_list.getD i []).getD (R.m_snp_check_index.getD i 0) default).chr
        · rw [if_pos h3]
          by_cases h4 :
              ((R.m_region_list.getD i []).getD (R.m_snp_check_index.getD i 0) default).start ≤ loc ∧
              ((R.m_region_list.getD i []).getD (R.m_snp_check_index.getD i 0) default).end_ ≥ loc
          · rw [if_pos h4]
            refine ⟨(R.m_snp_check_index.getD i 0, true), ?_, fun _ => ?_⟩
            · simp only [Region.apply_sweep, if_true]
              rw [list_set_getD_self]
            · refine ⟨(R.m_region_list.getD i []).getD (R.m_snp_check_index.getD i 0) default,
                ?_, h3.symm, h4.1, h4.2⟩
              rw [List.getD_eq_getElem _ _ h1]
              exact List.getElem_mem h1
          · rw [if_neg h4]
            by_cases h5 :
                ((R.m_region_list.getD i []).getD (R.m_snp_check_index.getD i 0) default).start > loc
            · rw [if_pos h5]; exact hstop
            · rw [if_neg h5]
              split_ifs
              · exact hstep _
              · exact ih R flag
        · rw [if_neg h3]; exact hstop
    · rw [if_neg h1]; exact hstop

theorem Region.apply_sweep_unmatched (BITCT i : Nat) (res : Nat × Bool)
    (st : Region × List Nat) (h : res.2 = false) :
    (Region.apply_sweep BITCT i res st).1.m_region_snp_count = st.1.m_region_snp_count ∧
      (Region.apply_sweep BITCT i res st).2 = st.2 := by
  unfold Region.apply_sweep
  simp [h]

theorem Region.check_for_sound (BITCT : Nat) (chr_index : Int) (loc : Nat) (i : Nat) :
    ∀ (n j : Nat) (st : Region × List Nat),
      (flag_bit BITCT (Region.check_for BITCT chr_index loc n j st).2 i ≠ flag_bit BITCT st.2 i ∨
        (Region.check_for BITCT chr_index loc n j st).1.m_region_snp_count.getD i 0 ≠
          st.1.m_region_snp_count.getD i 0) →
      ∃ b ∈ st.1.m_region_list.getD i [], b.covers chr_index loc := by
  intro n
  induction n with
  | zero =>
    intro j st h
    simp only [Region.check_for] at h
    rcases h with h | h <;> exact absurd rfl h
  | succ n ih =>
    intro j st h
    obtain ⟨R, flag⟩ := st
    simp only [Region.check_for] at h
    obtain ⟨res, hres, hsound⟩ := Region.check_while_sound BITCT chr_index loc j
      ((R.m_region_list.getD j []).length - R.m_snp_check_index.getD j 0) R flag
    rw [hres] at h
    obtain ⟨⟨_, _, _, _, c5, _, _, _⟩, _⟩ := Region.apply_sweep_catalog BITCT j res (R, flag)
    by_cases hstep :
        flag_bit BITCT (Region.apply_sweep BITCT j res (R, flag)).2 i = flag_bit BITCT flag i ∧
        (Region.apply_sweep BITCT j res (R, flag)).1.m_region_snp_count.getD i 0 =
          R.m_region_snp_count.getD i 0
    · have := ih (j + 1) (Region.apply_sweep BITCT j res (R, flag))
        (by rw [hstep.1, hstep.2]; exact h)
      rw [c5] at this
      exact this
    · by_cases hij : i = j
      · subst hij
        cases hr : res.2 with
        | true => exact hsound hr
        | false =>
          obtain ⟨u1, u2⟩ := Region.apply_sweep_unmatched BITCT i res (R, flag) hr
          exact absurd ⟨by rw [u2], by rw [u1]⟩ hstep
      · obtain ⟨_, b2, b3⟩ := Region.apply_sweep_other BITCT i j hij res (R, flag)
        exact absurd ⟨b3, b2⟩ hstep

/-- C20. Unconditional soundness of `Region::check`: for every object (interval lists
sorted or not, any cursors), every label, position and flag, and every `i ≥ 1`, if the call
changes bit `i` of the flag (sets it) or changes counter `i`, then set `i` contains an
interval with the rank of the query's chromosome and `start ≤ position ≤ end`. -/
theorem Region.check_sound (BITCT : Nat) (R : Region) (chr : String) (loc : Nat)
    (flag : List Nat) (i : Nat) (h1 : 1 ≤ i)
    (h : flag_bit BITCT (Region.check BITCT R chr loc flag).2 i ≠ flag_bit BITCT flag i ∨
      (Region.check BITCT R chr loc flag).1.m_region_snp_count.getD i 0 ≠
        R.m_region_snp_count.getD i 0) :
    ∃ b ∈ R.m_region_list.getD i [],
      R.m_chr_order chr = some b.chr ∧ b.start ≤ loc ∧ loc ≤ b.end_ := by
  have hne : 0 ≠ i := by omega
  have hcnt : (R.m_region_snp_count.set 0 (int_incr (R.m_region_snp_count.getD 0 0))).getD i 0 =
      R.m_region_snp_count.getD i 0 := by
    simp only [List.getD_eq_getElem?_getD]
    rw [List.getElem?_set_ne hne]
  have hbit : flag_bit BITCT (flag.set 0 (flag.getD 0 0 ||| ONELU)) i = flag_bit BITCT flag i := by
    rw [flag_bit_base]
    have hi0 : decide (i = 0) = false := by simp; omega
    rw [hi0, Bool.false_and, Bool.or_false]
  cases hc : R.m_chr_order chr with
  | none =>
    rw [Region.check_unknown BITCT R chr loc flag hc] at h
    dsimp only at h
    rw [hcnt, hbit] at h
    rcases h with h | h <;> exact absurd rfl h
  | some r =>
    rw [Region.check_known BITCT R chr loc flag r hc] at h
    have := Region.check_for_sound BITCT r loc i (R.m_region_name.length - 1) 1
      ({ R with m_region_snp_count :=
                  R.m_region_snp_count.set 0 (int_incr (R.m_region_snp_count.getD 0 0)) },
       flag.set 0 (flag.getD 0 0 ||| ONELU))
      (by dsimp only; rw [hcnt, hbit]; exact h)
    obtain ⟨b, hb, hcov⟩ := this
    exact ⟨b, hb, by rw [hcov.1], hcov.2.1, hcov.2.2⟩

/-- Witness for C20: on `sample_region` the query at 25 sets bit 1, and `[20, 30]` covers it. -/
theorem Region.check_sound_witness :
    ∃ b ∈ sample_region.m_region_list.getD 1 [],
      sample_region.m_chr_order "chr1" = some b.chr ∧ b.start ≤ 25 ∧ 25 ≤ b.end_ :=
  Region.check_sound 64 sample_region "chr1" 25 [0] 1 (by decide) (Or.inl (by decide))

/-! ### Cursors -/

theorem Region.check_while_cursor (BITCT : Nat) (chr_index : Int) (loc : Nat) (j : Nat)
    (R : Region) (flag : List Nat) (i : Nat) :
    R.m_snp_check_index.getD i 0 ≤
      (Region.check_while BITCT chr_index loc j
        ((R.m_region_list.getD j []).length - R.m_snp_check_index.getD j 0)
        (R, flag)).1.m_snp_check_index.getD i 0 ∧
    (R.m_snp_check_index.getD i 0 ≤ (R.m_region_list.getD i []).length →
      (Region.check_while BITCT chr_index loc j
        ((R.m_region_list.getD j []).length - R.m_snp_check_index.getD j 0)
        (R, flag)).1.m_snp_check_index.getD i 0 ≤ (R.m_region_list.getD i []).length) := by
  by_cases hj : j < R.m_snp_check_index.length
  · rw [Region.check_while_eq BITCT chr_index loc j _ R flag hj]
    by_cases hij : i = j
    · subst hij
      obtain ⟨a1, a2, _⟩ := sweep_basic chr_index loc (R.m_region_list.getD i [])
        ((R.m_region_list.getD i []).length - R.m_snp_check_index.getD i 0)
        (R.m_snp_check_index.getD i 0)
      simp only [Region.apply_sweep]
      rw [list_getD_set_self _ _ _ _ hj]
      exact ⟨a1, a2⟩
    · rw [(Region.apply_sweep_other BITCT i j hij _ (R, flag)).1]
      exact ⟨le_refl _, fun h => h⟩
  · obtain ⟨res, hres⟩ := Region.check_while_shape BITCT chr_index loc j
      ((R.m_region_list.getD j []).length - R.m_snp_check_index.getD j 0) R flag
    rw [hres]
    simp only [Region.apply_sweep]
    rw [List.set_eq_of_length_le (by omega)]
    exact ⟨le_refl _, fun h => h⟩

theorem Region.check_for_cursor (BITCT : Nat) (chr_index : Int) (loc : Nat) (i : Nat) :
    ∀ (n j : Nat) (st : Region × List Nat),
      st.1.m_snp_check_index.getD i 0 ≤
        (Region.check_for BITCT chr_index loc n j st).1.m_snp_check_index.getD i 0 ∧
      (st.1.m_snp_check_index.getD i 0 ≤ (st.1.m_region_list.getD i []).length →
        (Region.check_for BITCT chr_index loc n j st).1.m_snp_check_index.getD i 0 ≤
          (st.1.m_region_list.getD i []).length) := by
  intro n
  induction n with
  | zero => intro j st; exact ⟨le_refl _, fun h => h⟩
  | succ n ih =>
    intro j st
    obtain ⟨R, flag⟩ := st
    simp only [Region.check_for]
    obtain ⟨a1, a2⟩ := Region.check_while_cursor BITCT chr_index loc j R flag i
    obtain ⟨b1, b2⟩ := ih (j + 1) (Region.check_while BITCT chr_index loc j
      ((R.m_region_list.getD j []).length - R.m_snp_check_index.getD j 0) (R, flag))
    have hlist : (Region.check_while BITCT chr_index loc j
        ((R.m_region_list.getD j []).length - R.m_snp_check_index.getD j 0)
        (R, flag)).1.m_region_list = R.m_region_list := by
      obtain ⟨res, hres⟩ := Region.check_while_shape BITCT chr_index loc j
        ((R.m_region_list.getD j []).length - R.m_snp_check_index.getD j 0) R flag
      rw [hres]; rfl
    rw [hlist] at b2
    exact ⟨le_trans a1 b1, fun h => b2 (a2 h)⟩

theorem Region.check_cursor (BITCT : Nat) (R : Region) (chr : String) (loc : Nat)
    (flag : List Nat) (i : Nat) :
    R.m_snp_check_index.getD i 0 ≤
      (Region.check BITCT R chr loc flag).1.m_snp_check_index.getD i 0 ∧
    (R.m_snp_check_index.getD i 0 ≤ (R.m_region_list.getD i []).length →
      (Region.check BITCT R chr loc flag).1.m_snp_check_index.getD i 0 ≤
        (R.m_region_list.getD i []).length) := by
  cases hc : R.m_chr_order chr with
  | none =>
    rw [Region.check_unknown BITCT R chr loc flag hc]
    exact ⟨le_refl _, fun h => h⟩
  | some r =>
    rw [Region.check_known BITCT R chr loc flag r hc]
    exact Region.check_for_cursor BITCT r loc i (R.m_region_name.length - 1) 1
      ({ R with m_region_snp_count :=
                  R.m_region_snp_count.set 0 (int_incr (R.m_region_snp_count.getD 0 0)) },
       flag.set 0 (flag.getD 0 0 ||| ONELU))

theorem Region.check_seq_cursor (BITCT : Nat) (i : Nat) :
    ∀ (pre : List snp_query) (R : Region),
      R.m_snp_check_index.getD i 0 ≤ (R.m_region_list.getD i []).length →
      (Region.check_seq BITCT R pre).m_region_list = R.m_region_list ∧
      (Region.check_seq BITCT R pre).m_snp_check_index.getD i 0 ≤
        (R.m_region_list.getD i []).length := by
  intro pre
  induction pre with
  | nil => intro R h; exact ⟨rfl, h⟩
  | cons q pre ih =>
    intro R h
    simp only [Region.check_seq]
    obtain ⟨⟨_, _, _, _, c5, _, _, _⟩, _⟩ := Region.check_catalog BITCT R q.chr q.loc q.flag
    have h' := (Region.check_cursor BITCT R q.chr q.loc q.flag i).2 h
    rw [← c5] at h'
    obtain ⟨a1, a2⟩ := ih _ h'
    rw [c5] at a1 a2
    exact ⟨a1, a2⟩

/-- C17. Cursor invariant of `Region::check`: for every call, with any label, position and
interval lists, every cursor after the call is at least its value before; a cursor that is
at most the length of its interval list stays so, which holds in every state reached from
the frozen catalogue (all cursors 0) by any sequence of calls; and when the call matches a
set `i ≥ 1` (it sets bit `i` or changes counter `i`), cursor `i` afterwards is a position of
the list whose interval contains the query (same rank, `start ≤ position ≤ end`). -/
theorem Region.check_cursor_invariant (BITCT : Nat) (R : Region) (chr : String) (loc : Nat)
    (flag : List Nat) (i : Nat) :
    R.m_snp_check_index.getD i 0 ≤
      (Region.check BITCT R chr loc flag).1.m_snp_check_index.getD i 0 ∧
    (R.m_snp_check_index.getD i 0 ≤ (R.m_region_list.getD i []).length →
      (Region.check BITCT R chr loc flag).1.m_snp_check_index.getD i 0 ≤
        (R.m_region_list.getD i []).length) ∧
    (R.m_snp_check_index = List.replicate R.m_region_name.length 0 →
      ∀ pre : List snp_query,
        (Region.check_seq BITCT R pre).m_snp_check_index.getD i 0 ≤
          (R.m_region_list.getD i []).length) ∧
    (1 ≤ i → i < R.m_region_name.length → i < R.m_snp_check_index.length →
      (flag_bit BITCT (Region.check BITCT R chr loc flag).2 i ≠ flag_bit BITCT flag i ∨
        (Region.check BITCT R chr loc flag).1.m_region_snp_count.getD i 0 ≠
          R.m_region_snp_count.getD i 0) →
      (Region.check BITCT R chr loc flag).1.m_snp_check_index.getD i 0 <
          (R.m_region_list.getD i []).length ∧
        ∃ r, R.m_chr_order chr = some r ∧
          ((R.m_region_list.getD i []).getD
            ((Region.check BITCT R chr loc flag).1.m_snp_check_index.getD i 0) default).covers
            r loc) := by
  obtain ⟨m1, m2⟩ := Region.check_cursor BITCT R chr loc flag i
  refine ⟨m1, m2, ?_, ?_⟩
  · intro hzero pre
    refine (Region.check_seq_cursor BITCT i pre R ?_).2
    rw [hzero]
    simp only [List.getD_eq_getElem?_getD]
    by_cases hi : i < R.m_region_name.length
    · rw [List.getElem?_replicate_of_lt hi]; exact Nat.zero_le _
    · rw [List.getElem?_eq_none (by simpa using hi)]; exact Nat.zero_le _
  · intro h1 hin hcur h
    have hne : 0 ≠ i := by omega
    cases hc : R.m_chr_order chr with
    | none =>
      exfalso
      rw [Region.check_unknown BITCT R chr loc flag hc] at h
      dsimp only at h
      have hcnt : (R.m_region_snp_count.set 0 (int_incr (R.m_region_snp_count.getD 0 0))).getD i 0 =
          R.m_region_snp_count.getD i 0 := by
        simp only [List.getD_eq_getElem?_getD]
        rw [List.getElem?_set_ne hne]
      have hbit : flag_bit BITCT (flag.set 0 (flag.getD 0 0 ||| ONELU)) i =
          flag_bit BITCT flag i := by
        rw [flag_bit_base]
        have hi0 : decide (i = 0) = false := by simp; omega
        rw [hi0, Bool.false_and, Bool.or_false]
      rw [hcnt, hbit] at h
      rcases h with h | h <;> exact h rfl
    | some r =>
      obtain ⟨a1, a2, a3⟩ := Region.check_at BITCT R chr loc flag r hc i h1 hin hcur
      obtain ⟨_, _, s3⟩ := sweep_basic r loc (R.m_region_list.getD i [])
        ((R.m_region_list.getD i []).length - R.m_snp_check_index.getD i 0)
        (R.m_snp_check_index.getD i 0)
      have hm : (sweep r loc (R.m_region_list.getD i [])
          ((R.m_region_list.getD i []).length - R.m_snp_check_index.getD i 0)
          (R.m_snp_check_index.getD i 0)).2 = true := by
        by_contra hm
        have hm' : (sweep r loc (R.m_region_list.getD i [])
          ((R.m_region_list.getD i []).length - R.m_snp_check_index.getD i 0)
          (R.m_snp_check_index.getD i 0)).2 = false := by simpa using hm
        rw [a2, a3, hm'] at h
        simp at h
      rw [a1]
      exact ⟨(s3 hm).1, r, rfl, (s3 hm).2⟩

/-- Witness for C17: on `sample_region` the query at 25 moves cursor 1 from 0 to 1, the
position of `[20, 30]`. -/
theorem Region.check_cursor_invariant_witness :
    (Region.check 64 sample_region "chr1" 25 [0]).1.m_snp_check_index.getD 1 0 <
        (sample_region.m_region_list.getD 1 []).length ∧
      ∃ r, sample_region.m_chr_order "chr1" = some r ∧
        ((sample_region.m_region_list.getD 1 []).getD
          ((Region.check 64 sample_region "chr1" 25 [0]).1.m_snp_check_index.getD 1 0)
          default).covers r 25 :=
  (Region.check_cursor_invariant 64 sample_region "chr1" 25 [0] 1).2.2.2 (by decide)
    (by decide) (by decide) (Or.inl (by decide))

/-! ### Counters -/

theorem Region.check_count_base (BITCT : Nat) (R : Region) (chr : String) (loc : Nat)
    (flag : List Nat) (hcnt : 0 < R.m_region_snp_count.length) :
    (Region.check BITCT R chr loc flag).1.m_region_snp_count.getD 0 0 =
      int_incr (R.m_region_snp_count.getD 0 0) := by
  have hcnt0 : (R.m_region_snp_count.set 0 (int_incr (R.m_region_snp_count.getD 0 0))).getD 0 0 =
      int_incr (R.m_region_snp_count.getD 0 0) := list_getD_set_self _ _ _ _ hcnt
  cases h : R.m_chr_order chr with
  | none => rw [Region.check_unknown BITCT R chr loc flag h]; exact hcnt0
  | some r =>
    rw [Region.check_known BITCT R chr loc flag r h]
    rw [((Region.check_for_frame BITCT r loc _ 1 _).2.2.1 0 (Or.inl (by omega))).2.1]
    exact hcnt0

theorem flag_bit_zero (BITCT n i : Nat) : flag_bit BITCT (List.replicate n 0) i = false := by
  unfold flag_bit
  have : (List.replicate n 0).getD (i / BITCT) 0 = 0 := by
    simp only [List.getD_eq_getElem?_getD]
    by_cases h : i / BITCT < n
    · rw [List.getElem?_replicate_of_lt h]; rfl
    · rw [List.getElem?_eq_none (by simpa using h)]; rfl
  rw [this]
  exact Nat.zero_testBit _

/-- One call, seen from the counter and the bit of set `i ≥ 1`. -/
theorem Region.check_count_at (BITCT : Nat) (R : Region) (chr : String) (loc : Nat)
    (flag : List Nat) (i : Nat) (h1 : 1 ≤ i) (hin : i < R.m_region_name.length)
    (hcur : i < R.m_snp_check_index.length) (hcnt : i < R.m_region_snp_count.length) :
    (Region.check BITCT R chr loc flag).1.m_region_snp_count.getD i 0 =
      (if Region.matches BITCT R chr loc i then int_incr (R.m_region_snp_count.getD i 0)
       else R.m_region_snp_count.getD i 0) ∧
    (i / BITCT < flag.length →
      flag_bit BITCT (Region.check BITCT R chr loc flag).2 i =
        (flag_bit BITCT flag i || Region.matches BITCT R chr loc i)) := by
  have hne : 0 ≠ i := by omega
  have hi0 : decide (i = 0) = false := by simp; omega
  unfold Region.matches
  cases hc : R.m_chr_order chr with
  | none =>
    rw [Region.check_unknown BITCT R chr loc flag hc,
      Region.check_unknown BITCT R chr loc _ hc]
    dsimp only
    rw [flag_bit_base, flag_bit_base, flag_bit_zero, hi0]
    refine ⟨?_, fun _ => by simp⟩
    simp only [List.getD_eq_getElem?_getD]
    rw [List.getElem?_set_ne hne]
    simp
  | some r =>
    obtain ⟨_, a2, a3⟩ := Region.check_at BITCT R chr loc flag r hc i h1 hin hcur
    obtain ⟨_, _, z3⟩ := Region.check_at BITCT R chr loc (List.replicate (i / BITCT + 1) 0)
      r hc i h1 hin hcur
    rw [flag_bit_zero, List.length_replicate] at z3
    have hz : decide (i / BITCT < i / BITCT + 1) = true := by simp
    rw [hz, Bool.and_true, Bool.false_or] at z3
    rw [z3, a2, a3]
    refine ⟨?_, fun hf => ?_⟩
    · by_cases hm : (sweep r loc (R.m_region_list.getD i [])
          ((R.m_region_list.getD i []).length - R.m_snp_check_index.getD i 0)
          (R.m_snp_check_index.getD i 0)).2 = true
      · rw [if_pos ⟨hm, hcnt⟩, if_pos hm]
      · rw [if_neg (fun h => hm h.1), if_neg hm]
    · have : decide (i / BITCT < flag.length) = true := by simpa using hf
      rw [this, Bool.and_true]

theorem Region.match_count_le (BITCT : Nat) (i : Nat) :
    ∀ (qs : List snp_query) (R : Region), Region.match_count BITCT i R qs ≤ qs.length := by
  intro qs
  induction qs with
  | nil => intro R; simp [Region.match_count]
  | cons q qs ih =>
    intro R
    have := ih (Region.check BITCT R q.chr q.loc q.flag).1
    simp only [Region.match_count, List.length_cons]
    split_ifs <;> omega

/-- The counters after a sequence of calls, as wrapped sums. -/
theorem Region.check_seq_count (BITCT : Nat) (i : Nat) (h1 : 1 ≤ i) :
    ∀ (qs : List snp_query) (R : Region) (a b : Int), i < R.m_region_name.length →
      i < R.m_snp_check_index.length → i < R.m_region_snp_count.length →
      R.m_region_snp_count.getD 0 0 = int_wrap a →
      R.m_region_snp_count.getD i 0 = int_wrap b →
      (Region.check_seq BITCT R qs).m_region_snp_count.getD 0 0 =
        int_wrap (a + (qs.length : Int)) ∧
      (Region.check_seq BITCT R qs).m_region_snp_count.getD i 0 =
        int_wrap (b + (Region.match_count BITCT i R qs : Int)) := by
  intro qs
  induction qs with
  | nil =>
    intro R a b _ _ _ ha hb
    simp only [Region.check_seq, Region.match_count, List.length_nil, Nat.cast_zero, add_zero]
    exact ⟨ha, hb⟩
  | cons q qs ih =>
    intro R a b hin hcur hcnt ha hb
    simp only [Region.check_seq, Region.match_count]
    obtain ⟨⟨_, _, _, c4, _, c6, c7, _⟩, _⟩ := Region.check_catalog BITCT R q.chr q.loc q.flag
    have e0 : (Region.check BITCT R q.chr q.loc q.flag).1.m_region_snp_count.getD 0 0 =
        int_wrap (a + 1) := by
      rw [Region.check_count_base BITCT R q.chr q.loc q.flag (by omega), ha, int_incr_wrap]
    have ei : (Region.check BITCT R q.chr q.loc q.flag).1.m_region_snp_count.getD i 0 =
        int_wrap (b + (if Region.matches BITCT R q.chr q.loc i then 1 else 0)) := by
      rw [(Region.check_count_at BITCT R q.chr q.loc q.flag i h1 hin hcur hcnt).1, hb]
      split_ifs
      · exact int_incr_wrap b
      · rw [add_zero]
    obtain ⟨b1, b2⟩ := ih (Region.check BITCT R q.chr q.loc q.flag).1 (a + 1)
      (b + (if Region.matches BITCT R q.chr q.loc i then 1 else 0))
      (by rw [c4]; exact hin) (by rw [c6]; exact hcur) (by rw [c7]; exact hcnt) e0 ei
    rw [b1, b2]
    refine ⟨?_, ?_⟩
    · congr 1; simp only [List.length_cons]; push_cast; ring
    · congr 1; split_ifs <;> push_cast <;> ring

/-- C18, counterexample. With counter 1 at 2147483647, the largest `int`, a call that
matches set 1 does not increment it by one: the counter wraps to -2147483648.  And after
2147483648 calls on the freshly frozen `sample_region` counter 0 is -2147483648, not the
number of calls. -/
theorem check_counter_wraps_counterexample :
    sample_region_full.m_region_snp_count.getD 1 0 = 2147483647 ∧
    Region.matches 64 sample_region_full "chr1" 7 1 = true ∧
    (Region.check 64 sample_region_full "chr1" 7 [0]).1.m_region_snp_count.getD 1 0 =
      -2147483648 ∧
    (Region.check 64 sample_region_full "chr1" 7 [0]).1.m_region_snp_count.getD 1 0 ≠
      sample_region_full.m_region_snp_count.getD 1 0 + 1 ∧
    (Region.check_seq 64 sample_region
      (List.replicate 2147483648 ⟨"chr1", 7, [0]⟩)).m_region_snp_count.getD 0 0 =
        -2147483648 := by
  refine ⟨by decide, by decide, by decide, by decide, ?_⟩
  have h := (Region.check_seq_count 64 1 (by decide)
    (List.replicate 2147483648 ⟨"chr1", 7, [0]⟩) sample_region 0 0 (by decide) (by decide)
    (by decide) (by decide) (by decide)).1
  rw [List.length_replicate] at h
  rw [h]
  unfold int_wrap
  norm_num

/-- C18, amended. Counters count matches, within the range of `int`.  In any state with
entries for set `i ≥ 1`, a call of `Region::check` applies `++` to counter `i` when it
matches set `i` and leaves it unchanged otherwise, where "matches" is the bit the call
reports for set `i` (the bit after the call is the bit handed in or-ed with it); `++`
increments the counter by exactly one whenever it is an `int` below 2147483647.  Hence after
any sequence of at most 2147483647 calls on a freshly frozen catalogue (cursor and counter
arrays all zero, one entry per set) counter 0 equals the number of calls and counter `i`
equals the number of calls in which set `i` matched; for longer sequences the counters are
these numbers wrapped to 32 bits. -/
theorem Region.check_counters_count_matches (BITCT : Nat) (R : Region) (i : Nat) (h1 : 1 ≤ i)
    (hin : i < R.m_region_name.length)
    (hcur : R.m_snp_check_index = List.replicate R.m_region_name.length 0)
    (hcnt : R.m_region_snp_count = List.replicate R.m_region_name.length 0) :
    (∀ (S : Region) (chr : String) (loc : Nat) (flag : List Nat),
      i < S.m_region_name.length → i < S.m_snp_check_index.length →
      i < S.m_region_snp_count.length →
      (Region.check BITCT S chr loc flag).1.m_region_snp_count.getD i 0 =
        (if Region.matches BITCT S chr loc i then int_incr (S.m_region_snp_count.getD i 0)
         else S.m_region_snp_count.getD i 0) ∧
      (-2147483648 ≤ S.m_region_snp_count.getD i 0 →
        S.m_region_snp_count.getD i 0 < 2147483647 →
        (Region.check BITCT S chr loc flag).1.m_region_snp_count.getD i 0 =
          S.m_region_snp_count.getD i 0 +
            (if Region.matches BITCT S chr loc i then 1 else 0)) ∧
      (i / BITCT < flag.length →
        flag_bit BITCT (Region.check BITCT S chr loc flag).2 i =
          (flag_bit BITCT flag i || Region.matches BITCT S chr loc i))) ∧
    (∀ qs : List snp_query,
      (Region.check_seq BITCT R qs).m_region_snp_count.getD 0 0 =
        int_wrap (qs.length : Int) ∧
      (Region.check_seq BITCT R qs).m_region_snp_count.getD i 0 =
        int_wrap (Region.match_count BITCT i R qs : Int) ∧
      (qs.length ≤ 2147483647 →
        (Region.check_seq BITCT R qs).m_region_snp_count.getD 0 0 = (qs.length : Int) ∧
        (Region.check_seq BITCT R qs).m_region_snp_count.getD i 0 =
          (Region.match_count BITCT i R qs : Int))) := by
  refine ⟨?_, ?_⟩
  · intro S chr loc flag a b c
    obtain ⟨k1, k2⟩ := Region.check_count_at BITCT S chr loc flag i h1 a b c
    refine ⟨k1, fun hlo hhi => ?_, k2⟩
    rw [k1]
    split_ifs
    · exact int_incr_eq _ hlo hhi
    · rw [add_zero]
  · intro qs
    have z : ∀ k, R.m_region_snp_count.getD k 0 = int_wrap 0 := by
      intro k
      rw [hcnt]
      simp only [List.getD_eq_getElem?_getD]
      by_cases hk : k < R.m_region_name.length
      · rw [List.getElem?_replicate_of_lt hk]; rfl
      · rw [List.getElem?_eq_none (by simpa using hk)]; rfl
    obtain ⟨a1, a2⟩ := Region.check_seq_count BITCT i h1 qs R 0 0 hin
      (by rw [hcur]; simpa using hin) (by rw [hcnt]; simpa using hin) (z 0) (z i)
    rw [zero_add] at a1 a2
    refine ⟨a1, a2, fun hlen => ?_⟩
    have hm := Region.match_count_le BITCT i qs R
    rw [a1, a2]
    exact ⟨int_wrap_eq _ (by omega) (by omega), int_wrap_eq _ (by omega) (by omega)⟩

/-- Witness for C18 (amended): on `sample_region` the calls at 7, 15, 25 give counter 0 = 3
and counter 1 = 2. -/
theorem Region.check_counters_count_matches_witness :
    (Region.check_seq 64 sample_region
        [⟨"chr1", 7, [0]⟩, ⟨"chr1", 15, [0]⟩, ⟨"chr1", 25, [0]⟩]).m_region_snp_count.getD 0 0
      = 3 ∧
    (Region.check_seq 64 sample_region
        [⟨"chr1", 7, [0]⟩, ⟨"chr1", 15, [0]⟩, ⟨"chr1", 25, [0]⟩]).m_region_snp_count.getD 1 0
      = 2 :=
  have h := ((Region.check_counters_count_matches 64 sample_region 1 (by decide) (by decide)
    (by decide) (by decide)).2
      [⟨"chr1", 7, [0]⟩, ⟨"chr1", 15, [0]⟩, ⟨"chr1", 25, [0]⟩]).2.2 (by decide)
  ⟨h.1.trans (by decide), h.2.trans (by decide)⟩

/-- C19. Out-of-order queries lose matches: the set of `sample_region` holds the sorted
intervals `[5, 10]` and `[20, 30]` on rank 1; the query at 25 matches and moves the cursor to
1; the following query at 7, which lies inside `[5, 10]` but comes out of order, is reported
as no match, and the cursor stays at 1 (it is never moved back). -/
theorem Region.check_out_of_order_misses :
    (sample_region.m_region_list.getD 1 []).Pairwise region_bound.le_start ∧
    ¬ snp_query.le sample_region.m_chr_order ⟨"chr1", 25, [0]⟩ ⟨"chr1", 7, [0]⟩ ∧
    (∃ b ∈ sample_region.m_region_list.getD 1 [], b.covers 1 7) ∧
    sample_region.m_chr_order "chr1" = some 1 ∧
    flag_bit 64 (Region.check 64 sample_region "chr1" 25 [0]).2 1 = true ∧
    (Region.check 64 sample_region "chr1" 25 [0]).1.m_snp_check_index = [0, 1] ∧
    flag_bit 64
      (Region.check 64 (Region.check 64 sample_region "chr1" 25 [0]).1 "chr1" 7 [0]).2 1
      = false ∧
    (Region.check 64 (Region.check 64 sample_region "chr1" 25 [0]).1 "chr1" 7
      [0]).1.m_snp_check_index = [0, 1] := by
  refine ⟨by simp [sample_region, region_bound.le_start], ?_, ⟨⟨1, 5, 10⟩, by decide, by decide⟩,
    by decide, by decide, by decide, by decide, by decide⟩
  rintro ⟨ra, rb, ha, hb, h⟩
  have ha' : ra = 1 := by
    have : sample_region.m_chr_order "chr1" = some 1 := by decide
    rw [this] at ha; exact (Option.some.inj ha).symm
  have hb' : rb = 1 := by
    have : sample_region.m_chr_order "chr1" = some 1 := by decide
    rw [this] at hb; exact (Option.some.inj hb).symm
  subst ha' hb'
  rcases h with h | ⟨_, h⟩
  · omega
  · simp at h

/-! ## C21: the comparator of the sort -/

theorem sort_compare_agrees_iff (t1 t2 : region_bound) (h2 : t2.start ≤ t2.end_) :
    (sort_compare t1 t2 = true ↔ spec_lex_lt t1 t2) ↔ ¬ starts_inside t1 t2 := by
  unfold sort_compare spec_lex_lt starts_inside
  by_cases hc : t1.chr = t2.chr
  · by_cases hs : t1.start = t2.start
    · simp only [hc, hs, if_true, decide_eq_true_eq, lt_irrefl, false_or, true_and,
        and_false, and_true, not_false_eq_true, iff_true, false_and]
    · simp only [hc, hs, if_true, if_false, decide_eq_true_eq, lt_irrefl, false_or, true_and,
        false_and, or_false]
      constructor
      · intro h hin
        have := h.mp hin.2
        omega
      · intro h
        constructor
        · intro h3
          by_contra h4
          exact h ⟨by omega, h3⟩
        · intro h3; omega
  · simp only [hc, if_false, decide_eq_true_eq, false_and, or_false, not_false_eq_true,
      iff_true]

theorem spec_lex_lt_irrefl (a : region_bound) : ¬ spec_lex_lt a a := by
  unfold spec_lex_lt
  omega

theorem spec_lex_lt_trans (a b c : region_bound) (h1 : spec_lex_lt a b)
    (h2 : spec_lex_lt b c) : spec_lex_lt a c := by
  unfold spec_lex_lt at *
  omega

theorem spec_lex_lt_total (a b : region_bound) (h : a ≠ b) :
    spec_lex_lt a b ∨ spec_lex_lt b a := by
  unfold spec_lex_lt
  have : ¬ (a.chr = b.chr ∧ a.start = b.start ∧ a.end_ = b.end_) := by
    rintro ⟨h1, h2, h3⟩
    apply h
    cases a; cases b
    simp_all
  omega

/-- C21. Exact extent of the comparator defect.  For intervals `t1`, `t2` with
`start ≤ end` (only `t2.start ≤ t2.end` is needed), the comparator handed to `std::sort`
gives the answer of the lexicographic order on `(chr, start, end)` if and only if `t1` does
not start strictly inside `t2` (it is not the case that `t1.chr = t2.chr` and
`t2.start < t1.start < t2.end`).  Hence on any set
of such intervals in which no interval starts strictly inside another the comparator is the
lexicographic order, a strict total order: irreflexive, transitive and deciding every pair
of different intervals.  For `t1 = (r, 5, 10)`, `t2 = (r, 3, 7)` it returns true in both
directions. -/
theorem sort_compare_defect_extent (t1 t2 : region_bound) (h2 : t2.start ≤ t2.end_) :
    ((sort_compare t1 t2 = true ↔ spec_lex_lt t1 t2) ↔ ¬ starts_inside t1 t2) ∧
    (∀ S : List region_bound, (∀ t ∈ S, t.start ≤ t.end_) →
      (∀ a ∈ S, ∀ b ∈ S, ¬ starts_inside a b) →
      (∀ a ∈ S, ∀ b ∈ S, (sort_compare a b = true ↔ spec_lex_lt a b)) ∧
      (∀ a ∈ S, sort_compare a a = false) ∧
      (∀ a ∈ S, ∀ b ∈ S, ∀ c ∈ S, sort_compare a b = true → sort_compare b c = true →
        sort_compare a c = true) ∧
      (∀ a ∈ S, ∀ b ∈ S, a ≠ b → sort_compare a b = true ∨ sort_compare b a = true)) ∧
    (∀ r : Int, sort_compare ⟨r, 5, 10⟩ ⟨r, 3, 7⟩ = true ∧
      sort_compare ⟨r, 3, 7⟩ ⟨r, 5, 10⟩ = true) := by
  refine ⟨sort_compare_agrees_iff t1 t2 h2, ?_, ?_⟩
  · intro S hse hin
    have hag : ∀ a ∈ S, ∀ b ∈ S, (sort_compare a b = true ↔ spec_lex_lt a b) :=
      fun a ha b hb => (sort_compare_agrees_iff a b (hse b hb)).mpr (hin a ha b hb)
    refine ⟨hag, ?_, ?_, ?_⟩
    · intro a ha
      have := (hag a ha a ha).not.mpr (spec_lex_lt_irrefl a)
      simpa using this
    · intro a ha b hb c hc hab hbc
      exact (hag a ha c hc).mpr
        (spec_lex_lt_trans a b c ((hag a ha b hb).mp hab) ((hag b hb c hc).mp hbc))
    · intro a ha b hb hne
      rcases spec_lex_lt_total a b hne with h | h
      · exact Or.inl ((hag a ha b hb).mpr h)
      · exact Or.inr ((hag b hb a ha).mpr h)
  · intro r
    simp [sort_compare]

/-- Witness for C21: `(1, 5, 10)` starts strictly inside `(1, 3, 7)`, and there the
comparator departs from the lexicographic order. -/
theorem sort_compare_defect_extent_witness :
    ¬ (sort_compare ⟨1, 5, 10⟩ ⟨1, 3, 7⟩ = true ↔ spec_lex_lt ⟨1, 5, 10⟩ ⟨1, 3, 7⟩) ∧
    (sort_compare ⟨1, 3, 7⟩ ⟨1, 5, 10⟩ = true ↔ spec_lex_lt ⟨1, 3, 7⟩ ⟨1, 5, 10⟩) :=
  ⟨fun h => ((sort_compare_defect_extent ⟨1, 5, 10⟩ ⟨1, 3, 7⟩ (by decide)).1.mp h)
      (by decide),
    (sort_compare_defect_extent ⟨1, 3, 7⟩ ⟨1, 5, 10⟩ (by decide)).1.mpr (by decide)⟩
